import Mathlib

/-!
NetworkManager: the deduplicating multi-index (nm-dedup-multi), the
per-interface helper and the keyfile settings plugin.

A shallow embedding of `shared/nm-utils/nm-dedup-multi.h`, and of functions of
`src/nm-iface-helper.c` (`do_early_setup`, `ndisc_config_changed`, the parsing
of --stable-id in `main`) and of `src/settings/plugins/keyfile/plugin.c`
(`get_unmanaged_specs`).

* The inline functions of the header (the identity and partition equality
  wrappers, the iterator) are embedded from their C text.  The iterator walks
  the circular doubly linked `CList` chain of a head entry, so it is embedded
  over an explicit memory of list cells.
* The operations the header only declares (`nm_dedup_multi_index_add`,
  the lookups, the removal family, interning) have their bodies in
  `nm-dedup-multi.c`; they are modelled from the design document, over Lean
  lists of member entries.
-/

namespace NMDedupMulti

/-! ## Descriptors (vtables) -/

/-- The enum `NMDedupMultiIdxMode`. -/
inductive NMDedupMultiIdxMode where
  | NM_DEDUP_MULTI_IDX_MODE_PREPEND
  | NM_DEDUP_MULTI_IDX_MODE_PREPEND_FORCE
  | NM_DEDUP_MULTI_IDX_MODE_APPEND
  | NM_DEDUP_MULTI_IDX_MODE_APPEND_FORCE
  deriving DecidableEq, Repr

open NMDedupMultiIdxMode

/-- The struct `_NMDedupMultiObjClass`.  The type `α` is the type of the
record instances: equality in `α` is pointer identity, `obj_full_equal` is
the structural equality of the record type.  `obj_destroy` frees storage and has
no counterpart in a pure model. -/
structure NMDedupMultiObjClass (α : Type) where
  obj_clone : α → α
  obj_needs_clone : α → Bool
  obj_full_hash : α → Nat
  obj_full_equal : α → α → Bool

/-- The struct `_NMDedupMultiIdxTypeClass`.  A function pointer that may be
NULL is an `Option`.  The `idx_type` argument the C callbacks receive is the
instance that carries this class, so the callbacks are closed over it. -/
structure NMDedupMultiIdxTypeClass (α : Type) where
  idx_obj_id_hash : α → Nat
  idx_obj_id_equal : α → α → Bool
  idx_obj_partitionable : Option (α → Bool)
  idx_obj_partition_hash : Option (α → Nat)
  idx_obj_partition_equal : Option (α → α → Bool)

/-- The inline function `nm_dedup_multi_idx_type_id_equal`:
`obj_a == obj_b || klass->idx_obj_id_equal (idx_type, obj_a, obj_b)`. -/
def nm_dedup_multi_idx_type_id_equal {α : Type} [DecidableEq α]
    (klass : NMDedupMultiIdxTypeClass α) (obj_a obj_b : α) : Bool :=
  decide (obj_a = obj_b) || klass.idx_obj_id_equal obj_a obj_b

/-- The inline function `nm_dedup_multi_idx_type_partition_equal`: pointer
equality or the callback when the class has `idx_obj_partition_equal`,
otherwise TRUE. -/
def nm_dedup_multi_idx_type_partition_equal {α : Type} [DecidableEq α]
    (klass : NMDedupMultiIdxTypeClass α) (obj_a obj_b : α) : Bool :=
  match klass.idx_obj_partition_equal with
  | some f => decide (obj_a = obj_b) || f obj_a obj_b
  | none => true

/-! ## The multi-index, modelled from the design document -/

/-- Modelled from the spec: a member entry as the operations of
nm-dedup-multi.c (a file that is not among the sources) keep it, one
membership fact (§3).  The chain link `lst_entries` of the C struct is the
position in the list of its head, the `head` pointer is the head that holds
the entry, `is_head` is false. -/
structure MemberEntry (α : Type) where
  obj : α
  dirty : Bool
  deriving DecidableEq, Repr

/-- Modelled from the spec: a head entry as the operations of
nm-dedup-multi.c (not among the sources) keep it, one partition bucket of an
index-type instance with its insertion-ordered member list and its length
counter (§3). -/
structure HeadEntry (α : Type) where
  lst_entries_head : List (MemberEntry α)
  len : Nat
  deriving DecidableEq, Repr

/-- Modelled from the spec: an index-type instance (the struct
`_NMDedupMultiIdxType`) as the operations of nm-dedup-multi.c (not among the
sources) keep it: its class, the collection of its live heads and the counter
of heads (§3). -/
structure NMDedupMultiIdxType (α : Type) where
  klass : NMDedupMultiIdxTypeClass α
  lst_idx_head : List (HeadEntry α)
  len : Nat

/-- Modelled from the spec: the multi-index proper, `NMDedupMultiIndex`, whose
struct is private to nm-dedup-multi.c (not among the sources).  It owns the
interning table, the canonical records (§3, §4.1).  Index-type instances are owned by the callers and are
passed to every operation next to the multi-index, as in C.  Reference counts
are not part of the model: a record leaves the table only by an explicit
`nm_dedup_multi_index_obj_release`. -/
structure NMDedupMultiIndex (α : Type) where
  objs : List α
  deriving DecidableEq, Repr

/-- Modelled from the spec: `nm_dedup_multi_index_new`, whose body is in
nm-dedup-multi.c (not among the sources): the empty multi-index. -/
def nm_dedup_multi_index_new {α : Type} : NMDedupMultiIndex α := ⟨[]⟩

/-- Modelled from the spec: `nm_dedup_multi_idx_type_init`, whose body is in
nm-dedup-multi.c (not among the sources): an instance without heads. -/
def nm_dedup_multi_idx_type_init {α : Type} (klass : NMDedupMultiIdxTypeClass α) :
    NMDedupMultiIdxType α :=
  ⟨klass, [], 0⟩

/-- Modelled from the spec: `nm_dedup_multi_index_obj_find`, whose body is in
nm-dedup-multi.c (not among the sources): the stored record that is
full-equal to the candidate, if any (§4.1). -/
def nm_dedup_multi_index_obj_find {α : Type} (oc : NMDedupMultiObjClass α)
    (self : NMDedupMultiIndex α) (obj : α) : Option α :=
  self.objs.find? (fun c => oc.obj_full_equal obj c)

/-- Modelled from the spec: `nm_dedup_multi_index_obj_intern`, whose body is in
nm-dedup-multi.c (not among the sources); §4.1.  If a stored record is
full-equal to the candidate, return it.  Otherwise insert
the clone of the candidate when `obj_needs_clone` holds, else the candidate
itself. -/
def nm_dedup_multi_index_obj_intern {α : Type} (oc : NMDedupMultiObjClass α)
    (self : NMDedupMultiIndex α) (obj : α) : NMDedupMultiIndex α × α :=
  match nm_dedup_multi_index_obj_find oc self obj with
  | some c => (self, c)
  | none =>
    let o := if oc.obj_needs_clone obj then oc.obj_clone obj else obj
    (⟨o :: self.objs⟩, o)

/-- Modelled from the spec: `nm_dedup_multi_index_obj_release`, whose body is
in nm-dedup-multi.c (not among the sources); §4.1: the record is removed from
the interning table. -/
def nm_dedup_multi_index_obj_release {α : Type} [DecidableEq α]
    (self : NMDedupMultiIndex α) (obj : α) : NMDedupMultiIndex α :=
  ⟨self.objs.erase obj⟩

/-- Modelled from the spec: the precondition of an add, which
nm-dedup-multi.c (not among the sources) tests: the callback
`idx_obj_partitionable` when the class has one, TRUE otherwise (§4.3.1). -/
def obj_partitionable {α : Type} (klass : NMDedupMultiIdxTypeClass α) (obj : α) : Bool :=
  match klass.idx_obj_partitionable with
  | some f => f obj
  | none => true

/-- Modelled from the spec: the head lookup of nm-dedup-multi.c (not among the
sources).  Whether the head is the bucket of the partition of `obj`: its
members are partition-equal to `obj`, tested on its first member. -/
def head_matches {α : Type} [DecidableEq α] (klass : NMDedupMultiIdxTypeClass α)
    (obj : α) (h : HeadEntry α) : Bool :=
  match h.lst_entries_head with
  | [] => false
  | e :: _ => nm_dedup_multi_idx_type_partition_equal klass e.obj obj

/-- Modelled from the spec: the entry lookup of nm-dedup-multi.c (not among
the sources).  Whether the member entry holds a record id-equal to `obj`. -/
def entry_matches {α : Type} [DecidableEq α] (klass : NMDedupMultiIdxTypeClass α)
    (obj : α) (e : MemberEntry α) : Bool :=
  nm_dedup_multi_idx_type_id_equal klass e.obj obj

/-- Modelled from the spec: `nm_dedup_multi_index_lookup_head`, whose body is
in nm-dedup-multi.c (not among the sources); §4.3.2: the head of the
partition containing the record, or none.  Without partitioning
every head matches, so the single implicit head is returned. -/
def nm_dedup_multi_index_lookup_head {α : Type} [DecidableEq α]
    (idx_type : NMDedupMultiIdxType α) (obj : α) : Option (HeadEntry α) :=
  idx_type.lst_idx_head.find? (head_matches idx_type.klass obj)

/-- Modelled from the spec: `nm_dedup_multi_index_lookup_obj`, whose body is in
nm-dedup-multi.c (not among the sources); §4.3.2: the member entry in the
partition of the record whose stored record is id-equal to it.  Does not
intern. -/
def nm_dedup_multi_index_lookup_obj {α : Type} [DecidableEq α]
    (idx_type : NMDedupMultiIdxType α) (obj : α) : Option (MemberEntry α) :=
  match nm_dedup_multi_index_lookup_head idx_type obj with
  | none => none
  | some h => h.lst_entries_head.find? (entry_matches idx_type.klass obj)

/-- The member entries of the partition of `obj`, in order; empty when the
partition has no head. -/
def partition_members {α : Type} [DecidableEq α]
    (idx_type : NMDedupMultiIdxType α) (obj : α) : List (MemberEntry α) :=
  match nm_dedup_multi_index_lookup_head idx_type obj with
  | none => []
  | some h => h.lst_entries_head

/-- What a call of a lookup leaves: the multi-index and the instance after the
call, and the entry it returns. -/
structure LookupResult (α : Type) where
  self : NMDedupMultiIndex α
  idx_type : NMDedupMultiIdxType α
  entry : Option (MemberEntry α)

/-- Modelled from the spec: the call
`nm_dedup_multi_index_lookup_obj (self, idx_type, obj)` as a step on the
state; the body is in nm-dedup-multi.c (not among the sources).  §4.3.2 gives
the lookup a result and no effect ("Does not intern"): the multi-index and
the instance come back as they went in. -/
def nm_dedup_multi_index_lookup_obj_call {α : Type} [DecidableEq α]
    (self : NMDedupMultiIndex α) (idx_type : NMDedupMultiIdxType α) (obj : α) :
    LookupResult α :=
  { self := self
    idx_type := idx_type
    entry := nm_dedup_multi_index_lookup_obj idx_type obj }

/-- Modelled from the spec: the mode table of §4.3.1 (the add is in
nm-dedup-multi.c, not among the sources): the force modes move an existing
entry. -/
def mode_is_force : NMDedupMultiIdxMode → Bool
  | NM_DEDUP_MULTI_IDX_MODE_PREPEND => false
  | NM_DEDUP_MULTI_IDX_MODE_PREPEND_FORCE => true
  | NM_DEDUP_MULTI_IDX_MODE_APPEND => false
  | NM_DEDUP_MULTI_IDX_MODE_APPEND_FORCE => true

/-- Modelled from the spec: the mode table of §4.3.1 (the add is in
nm-dedup-multi.c, not among the sources): an entry is linked at the head for
the prepend modes, at the tail for the append modes. -/
def entry_link {α : Type} (mode : NMDedupMultiIdxMode) (e : MemberEntry α)
    (l : List (MemberEntry α)) : List (MemberEntry α) :=
  match mode with
  | NM_DEDUP_MULTI_IDX_MODE_PREPEND => e :: l
  | NM_DEDUP_MULTI_IDX_MODE_PREPEND_FORCE => e :: l
  | NM_DEDUP_MULTI_IDX_MODE_APPEND => l ++ [e]
  | NM_DEDUP_MULTI_IDX_MODE_APPEND_FORCE => l ++ [e]

/-- Rewrite in place the first element of a list that satisfies `p`. -/
def replace_first {β : Type} (p : β → Bool) (b : β) : List β → List β
  | [] => []
  | x :: t => if p x then b :: t else x :: replace_first p b t

/-- Modelled from the spec: what `nm_dedup_multi_index_add` (body in
nm-dedup-multi.c, not among the sources) makes of the member list `l` of the
partition of `obj`, §4.3.1: a new entry is linked when no member is id-equal
to `obj`; otherwise the id-equal member is moved (force modes) or rewritten
in place. -/
def entries_add {α : Type} [DecidableEq α] (klass : NMDedupMultiIdxTypeClass α) (obj : α)
    (mode : NMDedupMultiIdxMode) (e_new : MemberEntry α) (l : List (MemberEntry α)) :
    List (MemberEntry α) :=
  match l.find? (entry_matches klass obj) with
  | none => entry_link mode e_new l
  | some _ =>
    if mode_is_force mode then entry_link mode e_new (l.eraseP (entry_matches klass obj))
    else replace_first (entry_matches klass obj) e_new l

/-- The outcome of `nm_dedup_multi_index_add`: the two structures the call
mutates, the boolean it returns and the two out-parameters. -/
structure AddResult (α : Type) where
  self : NMDedupMultiIndex α
  idx_type : NMDedupMultiIdxType α
  ret : Bool
  out_entry : Option (MemberEntry α)
  out_obj_old : Option α

/-- Modelled from the spec: `nm_dedup_multi_index_add`, whose body is in
nm-dedup-multi.c (not among the sources); §4.3.1, the add without hints.

* A record that is not partitionable under the index type is rejected:
  FALSE, no entry, no state change.
* Otherwise the candidate is interned.  If the partition of the record has no
  member id-equal to it, a new entry (dirty bit clear) is linked at the head
  or the tail of the partition according to the mode; the head is created when
  the partition had none.
* If an id-equal member exists, the force modes move it to the head or the
  tail and the other modes leave it in place; its record becomes the canonical
  record and its dirty bit is cleared; the record it referenced before is
  reported through `out_obj_old` unless it is the same instance.

The design document states the boolean only for the rejection; a successful
add is modelled as TRUE. -/
def nm_dedup_multi_index_add {α : Type} [DecidableEq α] (oc : NMDedupMultiObjClass α)
    (self : NMDedupMultiIndex α) (idx_type : NMDedupMultiIdxType α) (obj : α)
    (mode : NMDedupMultiIdxMode) : AddResult α :=
  if obj_partitionable idx_type.klass obj = false then
    ⟨self, idx_type, false, none, none⟩
  else
    let r := nm_dedup_multi_index_obj_intern oc self obj
    let e_new : MemberEntry α := ⟨r.2, false⟩
    match nm_dedup_multi_index_lookup_head idx_type obj with
    | none =>
      ⟨r.1, { idx_type with
                lst_idx_head := idx_type.lst_idx_head ++ [⟨[e_new], 1⟩]
                len := idx_type.len + 1 },
        true, some e_new, none⟩
    | some head =>
      match head.lst_entries_head.find? (entry_matches idx_type.klass obj) with
      | none =>
        let head1 : HeadEntry α := ⟨entry_link mode e_new head.lst_entries_head, head.len + 1⟩
        ⟨r.1, { idx_type with
                  lst_idx_head := replace_first (head_matches idx_type.klass obj) head1
                                    idx_type.lst_idx_head },
          true, some e_new, none⟩
      | some e =>
        let lst :=
          if mode_is_force mode then
            entry_link mode e_new (head.lst_entries_head.eraseP (entry_matches idx_type.klass obj))
          else
            replace_first (entry_matches idx_type.klass obj) e_new head.lst_entries_head
        let head1 : HeadEntry α := ⟨lst, head.len⟩
        ⟨r.1, { idx_type with
                  lst_idx_head := replace_first (head_matches idx_type.klass obj) head1
                                    idx_type.lst_idx_head },
          true, some e_new, if e.obj = r.2 then none else some e.obj⟩

/-! ### Removal family (§4.3.3)

Reference counts are not modelled, so the removals change the index-type
instance only; they return the instance and the number of removed entries. -/

/-- Modelled from the spec: the removal of nm-dedup-multi.c (not among the
sources), §4.3.3.  Drop the entry from the first head that holds it; a head
that becomes empty is destroyed.  Gives the heads, the number of removed entries and the
number of destroyed heads. -/
def heads_remove_entry {α : Type} [DecidableEq α] (entry : MemberEntry α) :
    List (HeadEntry α) → List (HeadEntry α) × Nat × Nat
  | [] => ([], 0, 0)
  | h :: t =>
    if entry ∈ h.lst_entries_head then
      if (h.lst_entries_head.erase entry).isEmpty then (t, 1, 1)
      else (⟨h.lst_entries_head.erase entry, h.len - 1⟩ :: t, 1, 0)
    else
      let r := heads_remove_entry entry t
      (h :: r.1, r.2.1, r.2.2)

/-- Modelled from the spec: `nm_dedup_multi_index_remove_entry`, whose body is
in nm-dedup-multi.c (not among the sources); §4.3.3: drop one member entry;
on emptying the head, destroy the head. -/
def nm_dedup_multi_index_remove_entry {α : Type} [DecidableEq α]
    (idx_type : NMDedupMultiIdxType α) (entry : MemberEntry α) :
    NMDedupMultiIdxType α × Nat :=
  let r := heads_remove_entry entry idx_type.lst_idx_head
  ({ idx_type with lst_idx_head := r.1, len := idx_type.len - r.2.2 }, r.2.1)

/-- Modelled from the spec: `nm_dedup_multi_index_remove_obj`, whose body is in
nm-dedup-multi.c (not among the sources); §4.3.3: lookup and `remove_entry`. -/
def nm_dedup_multi_index_remove_obj {α : Type} [DecidableEq α]
    (idx_type : NMDedupMultiIdxType α) (obj : α) : NMDedupMultiIdxType α × Nat :=
  match nm_dedup_multi_index_lookup_obj idx_type obj with
  | none => (idx_type, 0)
  | some e => nm_dedup_multi_index_remove_entry idx_type e

/-- Modelled from the spec: `nm_dedup_multi_index_remove_head`, whose body is
in nm-dedup-multi.c (not among the sources); §4.3.3: remove every member of
the partition containing the record (and with them its head). -/
def nm_dedup_multi_index_remove_head {α : Type} [DecidableEq α]
    (idx_type : NMDedupMultiIdxType α) (obj : α) : NMDedupMultiIdxType α × Nat :=
  match nm_dedup_multi_index_lookup_head idx_type obj with
  | none => (idx_type, 0)
  | some h =>
    ({ idx_type with
         lst_idx_head := idx_type.lst_idx_head.eraseP (head_matches idx_type.klass obj)
         len := idx_type.len - 1 },
      h.lst_entries_head.length)

/-- Modelled from the spec: `nm_dedup_multi_index_remove_idx`, whose body is in
nm-dedup-multi.c (not among the sources); §4.3.3: every head of the instance
is removed. -/
def nm_dedup_multi_index_remove_idx {α : Type}
    (idx_type : NMDedupMultiIdxType α) : NMDedupMultiIdxType α × Nat :=
  ({ idx_type with lst_idx_head := [], len := 0 },
    (idx_type.lst_idx_head.map (fun h => h.lst_entries_head.length)).sum)

/-! ### Sequences of operations -/

/-- One public mutation of an index-type instance. -/
inductive Op (α : Type) where
  | add (obj : α) (mode : NMDedupMultiIdxMode)
  | remove_entry (entry : MemberEntry α)
  | remove_obj (obj : α)
  | remove_head (obj : α)
  | remove_idx

/-- Run one operation on the pair of the multi-index and the instance. -/
def Op.apply {α : Type} [DecidableEq α] (oc : NMDedupMultiObjClass α)
    (st : NMDedupMultiIndex α × NMDedupMultiIdxType α) :
    Op α → NMDedupMultiIndex α × NMDedupMultiIdxType α
  | .add obj mode =>
    let r := nm_dedup_multi_index_add oc st.1 st.2 obj mode
    (r.self, r.idx_type)
  | .remove_entry entry => (st.1, (nm_dedup_multi_index_remove_entry st.2 entry).1)
  | .remove_obj obj => (st.1, (nm_dedup_multi_index_remove_obj st.2 obj).1)
  | .remove_head obj => (st.1, (nm_dedup_multi_index_remove_head st.2 obj).1)
  | .remove_idx => (st.1, (nm_dedup_multi_index_remove_idx st.2).1)

/-- Run a sequence of operations, first to last. -/
def run_ops {α : Type} [DecidableEq α] (oc : NMDedupMultiObjClass α)
    (st : NMDedupMultiIndex α × NMDedupMultiIdxType α) (ops : List (Op α)) :
    NMDedupMultiIndex α × NMDedupMultiIdxType α :=
  ops.foldl (Op.apply oc) st

/-! ### Dirty-sweep protocol (§4.3.4) -/

/-- Modelled from the spec: the dirty marking of nm-dedup-multi.c (not among the
sources), §4.3.4: every member of the head is marked dirty. -/
def head_set_dirty {α : Type} (h : HeadEntry α) : HeadEntry α :=
  { h with lst_entries_head := h.lst_entries_head.map (fun e => { e with dirty := true }) }

/-- Modelled from the spec: `nm_dedup_multi_index_dirty_set_head`, whose body is
in nm-dedup-multi.c (not among the sources); §4.3.4: mark every entry in the
partition containing the record dirty. -/
def nm_dedup_multi_index_dirty_set_head {α : Type} [DecidableEq α]
    (idx_type : NMDedupMultiIdxType α) (obj : α) : NMDedupMultiIdxType α :=
  match nm_dedup_multi_index_lookup_head idx_type obj with
  | none => idx_type
  | some h =>
    { idx_type with
        lst_idx_head := replace_first (head_matches idx_type.klass obj) (head_set_dirty h)
                          idx_type.lst_idx_head }

/-- Modelled from the spec: `nm_dedup_multi_index_dirty_set_idx`, whose body is
in nm-dedup-multi.c (not among the sources); §4.3.4: mark every entry in every
head of the instance dirty. -/
def nm_dedup_multi_index_dirty_set_idx {α : Type}
    (idx_type : NMDedupMultiIdxType α) : NMDedupMultiIdxType α :=
  { idx_type with lst_idx_head := idx_type.lst_idx_head.map head_set_dirty }

/-- Modelled from the spec: the sweep of one head by
`nm_dedup_multi_index_dirty_remove_idx` (body in nm-dedup-multi.c, not among
the sources), §4.3.4: the dirty members are removed, each removal counting the
length down; a head without a member left is destroyed (`none`); the
survivors are marked dirty again when `mark_survivors_dirty` is set. -/
def head_dirty_remove {α : Type} (mark_survivors_dirty : Bool) (h : HeadEntry α) :
    Option (HeadEntry α) :=
  if (h.lst_entries_head.filter (fun e => !e.dirty)).isEmpty then none
  else
    some ⟨(h.lst_entries_head.filter (fun e => !e.dirty)).map
            (fun e => { e with dirty := mark_survivors_dirty }),
          h.len - (h.lst_entries_head.filter (fun e => e.dirty)).length⟩

/-- Modelled from the spec: `nm_dedup_multi_index_dirty_remove_idx`, whose body
is in nm-dedup-multi.c (not among the sources); §4.3.4: remove every
still-dirty entry in the instance; with `mark_survivors_dirty` the survivors
are marked dirty for the next cycle.  Gives the instance and the number of
removed entries. -/
def nm_dedup_multi_index_dirty_remove_idx {α : Type}
    (idx_type : NMDedupMultiIdxType α) (mark_survivors_dirty : Bool) :
    NMDedupMultiIdxType α × Nat :=
  ({ idx_type with
       lst_idx_head := idx_type.lst_idx_head.filterMap (head_dirty_remove mark_survivors_dirty)
       len := idx_type.len
         - (idx_type.lst_idx_head.length
            - (idx_type.lst_idx_head.filterMap (head_dirty_remove mark_survivors_dirty)).length) },
    (idx_type.lst_idx_head.map
      (fun h => (h.lst_entries_head.filter (fun e => e.dirty)).length)).sum)

/-- One public operation of the multi-index on an instance: the mutations of
`Op` and the operations of the dirty-sweep protocol. -/
inductive PublicOp (α : Type) where
  | op (o : Op α)
  | dirty_set_head (obj : α)
  | dirty_set_idx
  | dirty_remove_idx (mark_survivors_dirty : Bool)

/-- Run one public operation on the multi-index and the instance it acts on. -/
def PublicOp.apply {α : Type} [DecidableEq α] (oc : NMDedupMultiObjClass α)
    (st : NMDedupMultiIndex α × NMDedupMultiIdxType α) :
    PublicOp α → NMDedupMultiIndex α × NMDedupMultiIdxType α
  | .op o => Op.apply oc st o
  | .dirty_set_head obj => (st.1, nm_dedup_multi_index_dirty_set_head st.2 obj)
  | .dirty_set_idx => (st.1, nm_dedup_multi_index_dirty_set_idx st.2)
  | .dirty_remove_idx b => (st.1, (nm_dedup_multi_index_dirty_remove_idx st.2 b).1)

/-- Run a sequence of public operations, first to last. -/
def run_public {α : Type} [DecidableEq α] (oc : NMDedupMultiObjClass α)
    (st : NMDedupMultiIndex α × NMDedupMultiIdxType α) (ops : List (PublicOp α)) :
    NMDedupMultiIndex α × NMDedupMultiIdxType α :=
  ops.foldl (PublicOp.apply oc) st

/-- The re-synchronisation cycle of §4.3.4 on an instance:
`nm_dedup_multi_index_dirty_set_idx`, then the records of `S` re-added one
after the other, each in its mode, then
`nm_dedup_multi_index_dirty_remove_idx (idx, FALSE)`. -/
def dirty_sweep_cycle {α : Type} [DecidableEq α] (oc : NMDedupMultiObjClass α)
    (self : NMDedupMultiIndex α) (idx_type : NMDedupMultiIdxType α)
    (S : List (α × NMDedupMultiIdxMode)) : NMDedupMultiIdxType α :=
  (nm_dedup_multi_index_dirty_remove_idx
    (run_ops oc (self, nm_dedup_multi_index_dirty_set_idx idx_type)
      (S.map (fun p => Op.add p.1 p.2))).2 false).1

/-! ### Snapshot helper (§4.4) -/

/-- Modelled from the spec: `nm_dedup_multi_objs_to_ptr_array_head`, whose body
is in nm-dedup-multi.c (not among the sources); §4.4: a fresh sequence of the
records of the head for which the predicate returns true, in head order.  The
head comes in by value and is not given back: the helper does not modify
it. -/
def nm_dedup_multi_objs_to_ptr_array_head {α : Type} (head_entry : HeadEntry α)
    (predicate : α → Bool) : List α :=
  (head_entry.lst_entries_head.map (fun e => e.obj)).filter predicate

/-! ### Contracts on the descriptors and invariants of the state -/

/-- The contract of the design document on an object class (§4.1): full
equality is an equivalence relation, and a clone is full-equal to its
original. -/
structure ObjLaws {α : Type} (oc : NMDedupMultiObjClass α) : Prop where
  full_refl : ∀ a, oc.obj_full_equal a a = true
  full_symm : ∀ a b, oc.obj_full_equal a b = true → oc.obj_full_equal b a = true
  full_trans : ∀ a b c, oc.obj_full_equal a b = true → oc.obj_full_equal b c = true →
    oc.obj_full_equal a c = true
  clone_full : ∀ a, oc.obj_full_equal a (oc.obj_clone a) = true

/-- The contract on an index-type class (§4.2): identity equality and
partition equality are symmetric and transitive, and both are coarser than
full equality: `obj_full_equal` compares all fields of the object (the
comment in `_NMDedupMultiObjClass`), so full-equal records have the same
identity and the same partition. -/
structure IdxLaws {α : Type} [DecidableEq α] (oc : NMDedupMultiObjClass α)
    (klass : NMDedupMultiIdxTypeClass α) : Prop where
  id_symm : ∀ a b, nm_dedup_multi_idx_type_id_equal klass a b = true →
    nm_dedup_multi_idx_type_id_equal klass b a = true
  id_trans : ∀ a b c, nm_dedup_multi_idx_type_id_equal klass a b = true →
    nm_dedup_multi_idx_type_id_equal klass b c = true →
    nm_dedup_multi_idx_type_id_equal klass a c = true
  full_id : ∀ a b, oc.obj_full_equal a b = true →
    nm_dedup_multi_idx_type_id_equal klass a b = true
  part_symm : ∀ a b, nm_dedup_multi_idx_type_partition_equal klass a b = true →
    nm_dedup_multi_idx_type_partition_equal klass b a = true
  part_trans : ∀ a b c, nm_dedup_multi_idx_type_partition_equal klass a b = true →
    nm_dedup_multi_idx_type_partition_equal klass b c = true →
    nm_dedup_multi_idx_type_partition_equal klass a c = true
  full_part : ∀ a b, oc.obj_full_equal a b = true →
    nm_dedup_multi_idx_type_partition_equal klass a b = true

/-- Every member entry of the instance, head after head. -/
def all_entries {α : Type} (idx_type : NMDedupMultiIdxType α) : List (MemberEntry α) :=
  (idx_type.lst_idx_head.map (fun h => h.lst_entries_head)).flatten

/-- Invariant 5: within a head no two members hold id-equal records. -/
def IdUnique {α : Type} [DecidableEq α] (idx_type : NMDedupMultiIdxType α) : Prop :=
  ∀ h ∈ idx_type.lst_idx_head, h.lst_entries_head.Pairwise
    (fun a b => nm_dedup_multi_idx_type_id_equal idx_type.klass a.obj b.obj = false)

/-- Partition refinement: the members of a head are partition-equal to each
other. -/
def PartitionRefined {α : Type} [DecidableEq α] (idx_type : NMDedupMultiIdxType α) : Prop :=
  ∀ h ∈ idx_type.lst_idx_head, ∀ a ∈ h.lst_entries_head, ∀ b ∈ h.lst_entries_head,
    nm_dedup_multi_idx_type_partition_equal idx_type.klass a.obj b.obj = true

/-- The heads of an instance stand for different partitions: members of
different heads are not partition-equal. -/
def HeadsDistinct {α : Type} [DecidableEq α] (idx_type : NMDedupMultiIdxType α) : Prop :=
  idx_type.lst_idx_head.Pairwise (fun h1 h2 =>
    ∀ a ∈ h1.lst_entries_head, ∀ b ∈ h2.lst_entries_head,
      nm_dedup_multi_idx_type_partition_equal idx_type.klass a.obj b.obj = false)

/-- The invariant of an index-type instance. -/
def IdxInv {α : Type} [DecidableEq α] (idx_type : NMDedupMultiIdxType α) : Prop :=
  IdUnique idx_type ∧ PartitionRefined idx_type ∧ HeadsDistinct idx_type

/-- Invariant 1 on the interning table: no two stored records are
full-equal. -/
def TableCanonical {α : Type} (oc : NMDedupMultiObjClass α) (self : NMDedupMultiIndex α) :
    Prop :=
  self.objs.Pairwise (fun a b => oc.obj_full_equal a b = false)

/-- The heads `l1` result from the heads `l2` by removals: some heads are
dropped, the others keep a sublist of their members. -/
inductive SubHeads {α : Type} : List (HeadEntry α) → List (HeadEntry α) → Prop where
  | nil : SubHeads [] []
  | drop (h : HeadEntry α) {l1 l2 : List (HeadEntry α)} :
      SubHeads l1 l2 → SubHeads l1 (h :: l2)
  | keep {h1 h2 : HeadEntry α} {l1 l2 : List (HeadEntry α)} :
      h1.lst_entries_head.Sublist h2.lst_entries_head → SubHeads l1 l2 →
      SubHeads (h1 :: l1) (h2 :: l2)

/-- Invariant 4, the counters: the counter of the instance is the number of
its heads and the counter of every head is the number of its members. -/
def LenOk {α : Type} (idx_type : NMDedupMultiIdxType α) : Prop :=
  idx_type.len = idx_type.lst_idx_head.length ∧
    ∀ h ∈ idx_type.lst_idx_head, h.len = h.lst_entries_head.length

/-- Invariant 4, no empty head: every head of the instance has a member. -/
def HeadsNonempty {α : Type} (idx_type : NMDedupMultiIdxType α) : Prop :=
  ∀ h ∈ idx_type.lst_idx_head, h.lst_entries_head ≠ []

/-- The records of the heads, head by head. -/
def heads_objs {α : Type} (l : List (HeadEntry α)) : List (List α) :=
  l.map (fun h => h.lst_entries_head.map (fun e => e.obj))

instance LenOk.decidable {α : Type} (idx_type : NMDedupMultiIdxType α) :
    Decidable (LenOk idx_type) := by
  unfold LenOk; infer_instance

instance HeadsNonempty.decidable {α : Type} [DecidableEq α]
    (idx_type : NMDedupMultiIdxType α) : Decidable (HeadsNonempty idx_type) := by
  unfold HeadsNonempty; infer_instance

instance IdUnique.decidable {α : Type} [DecidableEq α] (idx_type : NMDedupMultiIdxType α) :
    Decidable (IdUnique idx_type) := by
  unfold IdUnique; infer_instance

instance PartitionRefined.decidable {α : Type} [DecidableEq α]
    (idx_type : NMDedupMultiIdxType α) : Decidable (PartitionRefined idx_type) := by
  unfold PartitionRefined; infer_instance

instance HeadsDistinct.decidable {α : Type} [DecidableEq α]
    (idx_type : NMDedupMultiIdxType α) : Decidable (HeadsDistinct idx_type) := by
  unfold HeadsDistinct; infer_instance

instance IdxInv.decidable {α : Type} [DecidableEq α] (idx_type : NMDedupMultiIdxType α) :
    Decidable (IdxInv idx_type) := by
  unfold IdxInv; infer_instance

instance TableCanonical.decidable {α : Type} (oc : NMDedupMultiObjClass α)
    (self : NMDedupMultiIndex α) : Decidable (TableCanonical oc self) := by
  unfold TableCanonical; infer_instance

/-! ### The example record type of the design document (§8)

Records `{id, payload}` with identity on `id`, full equality on
`(id, payload)` and the even/odd partitioning on `id mod 2`.  The field `ptr`
is the address of the instance: two records with the same `id` and `payload`
but different `ptr` are distinct candidate instances that are full-equal. -/

/-- An example record instance. -/
structure Rec where
  ptr : Nat
  id : Nat
  payload : String
  deriving DecidableEq, Repr

/-- The object class of the example records. -/
def rec_class : NMDedupMultiObjClass Rec where
  obj_clone := fun r => { r with ptr := r.ptr + 1000 }
  obj_needs_clone := fun _ => false
  obj_full_hash := fun r => r.id + r.payload.length
  obj_full_equal := fun a b => decide (a.id = b.id) && decide (a.payload = b.payload)

/-- The even/odd partitioning index type of the example; records with id 0
are not partitionable. -/
def rec_idx_class : NMDedupMultiIdxTypeClass Rec where
  idx_obj_id_hash := fun r => r.id
  idx_obj_id_equal := fun a b => decide (a.id = b.id)
  idx_obj_partitionable := some (fun r => decide (r.id ≠ 0))
  idx_obj_partition_hash := some (fun r => r.id % 2)
  idx_obj_partition_equal := some (fun a b => decide (a.id % 2 = b.id % 2))

/-- An index type of the example records without partitioning. -/
def rec_idx_class_flat : NMDedupMultiIdxTypeClass Rec where
  idx_obj_id_hash := fun r => r.id
  idx_obj_id_equal := fun a b => decide (a.id = b.id)
  idx_obj_partitionable := none
  idx_obj_partition_hash := none
  idx_obj_partition_equal := none

/-- The multi-index of scenario 3 of §8 after its three adds: the interning
table. -/
def self_example : NMDedupMultiIndex Rec :=
  ⟨[⟨3, 5, "c"⟩, ⟨2, 3, "b"⟩, ⟨1, 1, "a"⟩]⟩

/-- The instance of scenario 3 of §8 after its three adds: the odd partition
holds the records 5, 1, 3 in this order. -/
def idx_example : NMDedupMultiIdxType Rec :=
  ⟨rec_idx_class,
    [⟨[⟨⟨3, 5, "c"⟩, false⟩, ⟨⟨1, 1, "a"⟩, false⟩, ⟨⟨2, 3, "b"⟩, false⟩], 3⟩], 1⟩

/-- An instance with two heads under the even/odd partitioning: the even
partition with the record 2 comes first, the odd partition holds the records
1 and 3, the latter marked dirty. -/
def idx_example_two_heads : NMDedupMultiIdxType Rec :=
  ⟨rec_idx_class,
    [⟨[⟨⟨2, 2, "b"⟩, false⟩], 1⟩,
     ⟨[⟨⟨1, 1, "a"⟩, false⟩, ⟨⟨3, 3, "c"⟩, true⟩], 2⟩], 2⟩

/-! ## Memory, list cells and the iterator (embedded from the header) -/

/-- An address; `NULL` is 0. -/
abbrev Ptr := Nat

/-- The null pointer. -/
def NULL : Ptr := 0

/-- The struct `CList` of c-list.h: a node of a circular doubly linked list. -/
structure CList where
  next : Ptr
  prev : Ptr
  deriving DecidableEq, Repr

/-- The struct `_NMDedupMultiEntry`; `obj` and `head` are addresses. -/
structure NMDedupMultiEntry where
  lst_entries : CList
  obj : Ptr
  is_head : Bool
  dirty : Bool
  head : Ptr
  deriving DecidableEq, Repr

/-- The struct `_NMDedupMultiHeadEntry`; `idx_type` is an address. -/
structure NMDedupMultiHeadEntry where
  lst_entries_head : CList
  idx_type : Ptr
  is_head : Bool
  len : Nat
  lst_idx : CList
  deriving DecidableEq, Repr

/-- What lives at an address: a member entry or a head entry. -/
inductive Cell where
  | entry (e : NMDedupMultiEntry)
  | head (h : NMDedupMultiHeadEntry)
  deriving DecidableEq, Repr

/-- The list node at the start of a cell.  `lst_entries` and
`lst_entries_head` are the first member of their struct, so the address of
the node is the address of the struct and `c_list_entry (p, NMDedupMultiEntry,
lst_entries)` is `p`. -/
def Cell.lst : Cell → CList
  | .entry e => e.lst_entries
  | .head h => h.lst_entries_head

/-- Store a list node at the start of a cell. -/
def Cell.set_lst : Cell → CList → Cell
  | .entry e, l => .entry { e with lst_entries := l }
  | .head h, l => .head { h with lst_entries_head := l }

/-- The memory: the cell at every address. -/
abbrev Mem := Ptr → Cell

/-- The list node at address `p`. -/
def Mem.lst (m : Mem) (p : Ptr) : CList := (m p).lst

/-- The assignment `p->next = q`. -/
def Mem.set_next (m : Mem) (p q : Ptr) : Mem :=
  Function.update m p ((m p).set_lst { (m p).lst with next := q })

/-- The assignment `p->prev = q`. -/
def Mem.set_prev (m : Mem) (p q : Ptr) : Mem :=
  Function.update m p ((m p).set_lst { (m p).lst with prev := q })

/-- Modelled from the spec: `c_list_is_linked` of c-list.h, a file the header
includes and that is not among the sources.  The chain of a head is the
cyclic doubly linked list of §9; a node that is not linked points to
itself. -/
def c_list_is_linked (m : Mem) (what : Ptr) : Bool :=
  decide (what ≠ NULL) && decide ((m.lst what).next ≠ what)

/-- Modelled from the spec: `c_list_is_empty` of c-list.h (not among the
sources): a NULL list, or an anchor of the cyclic chain of §9 that points to
itself. -/
def c_list_is_empty (m : Mem) (list : Ptr) : Bool :=
  decide (list = NULL) || !c_list_is_linked m list

/-- Modelled from the spec: `c_list_unlink` of c-list.h (not among the
sources): a linked node is taken out of the cyclic chain of §9,
`next->prev = prev; prev->next = next`, and is left pointing to itself. -/
def c_list_unlink (m : Mem) (what : Ptr) : Mem :=
  if c_list_is_linked m what then
    let prev := (m.lst what).prev
    let next := (m.lst what).next
    let m1 := m.set_prev next prev
    let m2 := m1.set_next prev next
    (m2.set_next what what).set_prev what what
  else m

/-- Store the `dirty` member of the entry in a cell.  A head has no such
member; the parameter type `const NMDedupMultiEntry *` of
`nm_dedup_multi_entry_set_dirty` keeps heads out, and the model leaves a head
cell as it is. -/
def Cell.set_dirty : Cell → Bool → Cell
  | .entry e, d => .entry { e with dirty := d }
  | .head h, _ => .head h

/-- The inline function `nm_dedup_multi_entry_set_dirty`:
`((NMDedupMultiEntry *) entry)->dirty = dirty`.  The parameter is a `gboolean`
(an `int`), the member is a `bool`: the assignment stores TRUE for every
non-zero value. -/
def nm_dedup_multi_entry_set_dirty (m : Mem) (entry : Ptr) (dirty : Int) : Mem :=
  Function.update m entry ((m entry).set_dirty (decide (dirty ≠ 0)))

/-- The struct `NMDedupMultiIter`. -/
structure NMDedupMultiIter where
  head : Ptr
  current : Ptr
  next : Ptr
  deriving DecidableEq, Repr

/-- The inline function `nm_dedup_multi_iter_init`. -/
def nm_dedup_multi_iter_init (m : Mem) (head : Ptr) : NMDedupMultiIter :=
  { head := head
    current := NULL
    next := if head ≠ NULL ∧ c_list_is_empty m head = false then (m.lst head).next else NULL }

/-- The inline function `nm_dedup_multi_iter_next`: the boolean it returns and
the iterator it leaves. -/
def nm_dedup_multi_iter_next (m : Mem) (iter : NMDedupMultiIter) : Bool × NMDedupMultiIter :=
  if iter.next = NULL then (false, iter)
  else
    let iter1 : NMDedupMultiIter := { iter with current := iter.next }
    if (m.lst iter1.next).next = iter1.head then (true, { iter1 with next := NULL })
    else (true, { iter1 with next := (m.lst iter1.next).next })

/-- The inline function `nm_dedup_multi_iter_rewind`. -/
def nm_dedup_multi_iter_rewind (m : Mem) (iter : NMDedupMultiIter) : NMDedupMultiIter :=
  nm_dedup_multi_iter_init m iter.head

/-- The outcome of the `k`-th call of `nm_dedup_multi_iter_next` in a row
(for `k = 0` the iterator as given). -/
def iter_next_nth (m : Mem) : Nat → NMDedupMultiIter → Bool × NMDedupMultiIter
  | 0, iter => (true, iter)
  | k + 1, iter => nm_dedup_multi_iter_next m (iter_next_nth m k iter).2

/-- The loop of the macro `nm_dedup_multi_iter_for_each` after its init: call
`nm_dedup_multi_iter_next` until it returns FALSE; the result is the list of
`iter.current` seen by the loop body.  `none` when the fuel runs out. -/
def iter_loop (m : Mem) : Nat → NMDedupMultiIter → Option (List Ptr)
  | 0, _ => none
  | fuel + 1, iter =>
    match nm_dedup_multi_iter_next m iter with
    | (false, _) => some []
    | (true, iter1) => (iter_loop m fuel iter1).map (fun r => iter1.current :: r)

/-- The macro `nm_dedup_multi_iter_for_each` with a body that does not touch
the list. -/
def nm_dedup_multi_iter_for_each (m : Mem) (fuel : Nat) (head_entry : Ptr) : Option (List Ptr) :=
  iter_loop m fuel (nm_dedup_multi_iter_init m head_entry)

/-- The loop of `nm_dedup_multi_iter_for_each` with a body that unlinks the
current entry whenever `del` says so.  Gives the entries seen by the body and
the memory at the end. -/
def iter_loop_del (del : Ptr → Bool) : Nat → Mem → NMDedupMultiIter → Option (List Ptr × Mem)
  | 0, _, _ => none
  | fuel + 1, m, iter =>
    match nm_dedup_multi_iter_next m iter with
    | (false, _) => some ([], m)
    | (true, iter1) =>
      let m1 := if del iter1.current then c_list_unlink m iter1.current else m
      (iter_loop_del del fuel m1 iter1).map (fun r => (iter1.current :: r.1, r.2))

/-- The loop of `nm_dedup_multi_iter_for_each` with a body that removes every
entry it is given, the way a removal from the multi-index does: the current
entry is unlinked and freed, and when it was the last member the head is
freed as well.  A freed cell holds arbitrary content, `junk`. -/
def iter_loop_remove_all (junk : Ptr → Cell) :
    Nat → Mem → NMDedupMultiIter → Option (List Ptr × Mem)
  | 0, _, _ => none
  | fuel + 1, m, iter =>
    match nm_dedup_multi_iter_next m iter with
    | (false, _) => some ([], m)
    | (true, iter1) =>
      let m1 := Function.update (c_list_unlink m iter1.current) iter1.current
        (junk iter1.current)
      let m2 := if c_list_is_empty m1 iter1.head then
        Function.update m1 iter1.head (junk iter1.head) else m1
      (iter_loop_remove_all junk fuel m2 iter1).map (fun r => (iter1.current :: r.1, r.2))

/-- The nodes `l` are chained from `p` to `q`: every `next` leads to the
following node and every `prev` back. -/
def IsSeg (m : Mem) : Ptr → List Ptr → Ptr → Prop
  | p, [], q => (m.lst p).next = q ∧ (m.lst q).prev = p
  | p, x :: xs, q => (m.lst p).next = x ∧ (m.lst x).prev = p ∧ IsSeg m x xs q

instance IsSeg.decidable (m : Mem) : (p : Ptr) → (l : List Ptr) → (q : Ptr) →
    Decidable (IsSeg m p l q)
  | p, [], q => inferInstanceAs (Decidable ((m.lst p).next = q ∧ (m.lst q).prev = p))
  | p, x :: xs, q =>
    have := IsSeg.decidable m x xs q
    inferInstanceAs (Decidable ((m.lst p).next = x ∧ (m.lst x).prev = p ∧ IsSeg m x xs q))

/-- The head at address `head` has the member list `l`: the entries are
distinct, non-NULL, other than the anchor, and chained in a circle through
the anchor `head->lst_entries_head`. -/
def IsHeadList (m : Mem) (head : Ptr) (l : List Ptr) : Prop :=
  head ≠ NULL ∧ NULL ∉ l ∧ (head :: l).Nodup ∧ IsSeg m head l head

instance IsHeadList.decidable (m : Mem) (head : Ptr) (l : List Ptr) :
    Decidable (IsHeadList m head l) :=
  inferInstanceAs (Decidable (head ≠ NULL ∧ NULL ∉ l ∧ (head :: l).Nodup ∧ IsSeg m head l head))

/-- An example memory: the head at address 10 with the member entries at 20,
30 and 40, in this order; every other address holds an unlinked entry. -/
def mem_example : Mem := fun p =>
  if p = 10 then .head ⟨⟨20, 40⟩, 1, true, 3, ⟨10, 10⟩⟩
  else if p = 20 then .entry ⟨⟨30, 10⟩, 101, false, false, 10⟩
  else if p = 30 then .entry ⟨⟨40, 20⟩, 102, false, true, 10⟩
  else if p = 40 then .entry ⟨⟨10, 30⟩, 103, false, false, 10⟩
  else .entry ⟨⟨p, p⟩, 0, false, false, 0⟩

end NMDedupMulti

/-! ## The per-interface helper, `src/nm-iface-helper.c` -/

namespace NMIfaceHelper

/-- The members `priority_v4` and `priority_v6`, both `guint32`, of the static
struct `global_opt`.  The other members are written by the option parser
alone and play no part in the code embedded here. -/
structure GlobalOpt where
  priority_v4 : Nat
  priority_v6 : Nat
  deriving DecidableEq, Repr

/-- The GLib constant `G_MAXUINT32`. -/
def G_MAXUINT32 : Int := 4294967295

/-- The initialiser of `global_opt`.  The two default metrics
`NM_PLATFORM_ROUTE_METRIC_DEFAULT_IP4` and `NM_PLATFORM_ROUTE_METRIC_DEFAULT_IP6`
are constants of nm-platform.h, which is not among the sources: they are
parameters. -/
def global_opt_init (NM_PLATFORM_ROUTE_METRIC_DEFAULT_IP4
    NM_PLATFORM_ROUTE_METRIC_DEFAULT_IP6 : Nat) : GlobalOpt :=
  { priority_v4 := NM_PLATFORM_ROUTE_METRIC_DEFAULT_IP4
    priority_v6 := NM_PLATFORM_ROUTE_METRIC_DEFAULT_IP6 }

/-- The cast `(guint32) x` of a `gint64`: the value modulo `2^32`. -/
def cast_guint32 (x : Int) : Nat := (x % 4294967296).toNat

/-- The function `do_early_setup`, as far as the two priorities go: the boolean
it returns and `global_opt` after it.  `parsed` is what
`nm_main_utils_early_setup` (not among the sources) did with the option
table: `none` when it returned FALSE, else the `gint64` values it stored for
--priority4 and --priority6, `none` for an option that is absent, whose
local variable keeps its initial value -1. -/
def do_early_setup (parsed : Option (Option Int × Option Int)) (global_opt : GlobalOpt) :
    Bool × GlobalOpt :=
  let priority64_v4 : Int := -1
  let priority64_v6 : Int := -1
  match parsed with
  | none => (false, global_opt)
  | some (opt_v4, opt_v6) =>
    let priority64_v4 := opt_v4.getD priority64_v4
    let priority64_v6 := opt_v6.getD priority64_v6
    let global_opt1 :=
      if priority64_v4 ≥ 0 ∧ priority64_v4 ≤ G_MAXUINT32 then
        { global_opt with priority_v4 := cast_guint32 priority64_v4 }
      else global_opt
    let global_opt2 :=
      if priority64_v6 ≥ 0 ∧ priority64_v6 ≤ G_MAXUINT32 then
        { global_opt1 with priority_v6 := cast_guint32 priority64_v6 }
      else global_opt1
    (true, global_opt2)

/-- The members of `NMNDiscAddress` (nm-ndisc.h, not among the sources) that
`ndisc_config_changed` reads: the address, a `struct in6_addr` taken as a
number, and three `guint32` times. -/
structure NMNDiscAddress where
  address : Nat
  timestamp : Nat
  lifetime : Nat
  preferred : Nat
  deriving DecidableEq, Repr

/-- The members of `NMPlatformIP6Address` (nm-platform.h, not among the
sources) that `ndisc_config_changed` assigns; the `memset` leaves every other
member zero. -/
structure NMPlatformIP6Address where
  address : Nat
  plen : Nat
  timestamp : Nat
  lifetime : Nat
  preferred : Nat
  addr_source : Nat
  n_ifa_flags : Nat
  deriving DecidableEq, Repr

/-- The constants `ndisc_config_changed` uses in its address part; they are
defined in headers that are not among the sources and come in as
parameters. -/
structure NDiscConsts where
  IFA_F_NOPREFIXROUTE : Nat
  IFA_F_MANAGETEMPADDR : Nat
  NM_SETTING_IP6_CONFIG_PRIVACY_PREFER_TEMP_ADDR : Int
  NM_SETTING_IP6_CONFIG_PRIVACY_PREFER_PUBLIC_ADDR : Int
  NM_NDISC_CONFIG_ADDRESSES : Nat
  NM_IP_CONFIG_SOURCE_NDISC : Nat

/-- The value of `ifa_flags` that `ndisc_config_changed` computes before its
loops. -/
def ndisc_ifa_flags (k : NDiscConsts) (system_support : Int) (tempaddr : Int) : Nat :=
  let ifa_flags : Nat := 0x00
  let ifa_flags := if system_support ≠ 0 then k.IFA_F_NOPREFIXROUTE else ifa_flags
  if tempaddr = k.NM_SETTING_IP6_CONFIG_PRIVACY_PREFER_TEMP_ADDR
      ∨ tempaddr = k.NM_SETTING_IP6_CONFIG_PRIVACY_PREFER_PUBLIC_ADDR then
    ifa_flags ||| k.IFA_F_MANAGETEMPADDR
  else ifa_flags

/-- The body of the address loop of `ndisc_config_changed`: the
`NMPlatformIP6Address` built from one discovered address. -/
def ndisc_address (k : NDiscConsts) (system_support : Int) (ifa_flags : Nat)
    (discovered_address : NMNDiscAddress) : NMPlatformIP6Address :=
  let address : NMPlatformIP6Address := ⟨0, 0, 0, 0, 0, 0, 0⟩
  let address := { address with address := discovered_address.address }
  let address := { address with plen := if system_support ≠ 0 then 64 else 128 }
  let address := { address with timestamp := discovered_address.timestamp }
  let address := { address with lifetime := discovered_address.lifetime }
  let address := { address with preferred := discovered_address.preferred }
  let address :=
    if address.preferred > address.lifetime then
      { address with preferred := address.lifetime }
    else address
  let address := { address with addr_source := k.NM_IP_CONFIG_SOURCE_NDISC }
  { address with n_ifa_flags := ifa_flags }

/-- The address loop of `ndisc_config_changed` over `rdata->addresses[0]` to
`rdata->addresses[addresses_n - 1]` (the array is the list): the arguments of
its calls of `nm_ip6_config_add_address`, in the order of the calls. -/
def ndisc_address_loop (k : NDiscConsts) (system_support : Int) (ifa_flags : Nat) :
    List NMNDiscAddress → List NMPlatformIP6Address
  | [] => []
  | discovered_address :: rest =>
    ndisc_address k system_support ifa_flags discovered_address
      :: ndisc_address_loop k system_support ifa_flags rest

/-- The address part of `ndisc_config_changed`: `none` when the bit
`NM_NDISC_CONFIG_ADDRESSES` of `changed` is clear and the addresses of the
configuration are left alone, else the addresses handed to
`nm_ip6_config_add_address` after the reset, in the order of the calls. -/
def ndisc_config_changed (k : NDiscConsts) (system_support : Int) (tempaddr : Int)
    (rdata_addresses : List NMNDiscAddress) (changed : Nat) :
    Option (List NMPlatformIP6Address) :=
  let ifa_flags := ndisc_ifa_flags k system_support tempaddr
  if changed &&& k.NM_NDISC_CONFIG_ADDRESSES ≠ 0 then
    some (ndisc_address_loop k system_support ifa_flags rdata_addresses)
  else none

/-- The character `s[i]` of a C string given by its characters: past them the
terminating NUL. -/
def c_char_at (s : List Char) (i : Nat) : Char := s.getD i (Char.ofNat 0)

/-- The parsing of --stable-id in `main`: the `stable_type` and the
`stable_id` handed to `nm_lndp_ndisc_new`.  `opt_stable_id` is
`global_opt.stable_id` and `uuid` is `global_opt.uuid`, `none` for a NULL
pointer; `NM_UTILS_STABLE_TYPE_UUID` is a constant of a header that is not
among the sources. -/
def main_stable_id (NM_UTILS_STABLE_TYPE_UUID : Int) (opt_stable_id uuid : Option (List Char)) :
    Int × Option (List Char) :=
  let stable_type : Int := NM_UTILS_STABLE_TYPE_UUID
  let stable_id : Option (List Char) := uuid
  match opt_stable_id with
  | none => (stable_type, stable_id)
  | some s =>
    if (c_char_at s 0 ≥ '0' ∧ c_char_at s 0 ≤ '9') ∧ c_char_at s 1 = ' ' then
      ((Char.toNat (c_char_at s 0) : Int) - (Char.toNat '0' : Int), some (s.drop 2))
    else (stable_type, stable_id)

end NMIfaceHelper

/-! ## The keyfile settings plugin, `src/settings/plugins/keyfile/plugin.c` -/

namespace KeyfilePlugin

/-- A `GKeyFile` as far as `g_key_file_get_value` looks at it: the raw value
of a key of a group, `none` when the group or the key is absent. -/
abbrev GKeyFile := String → String → Option (List Char)

/-- The GLib function `g_key_file_new`: a key file without groups. -/
def g_key_file_new : GKeyFile := fun _ _ => none

/-- The outcome of the GLib function `g_key_file_load_from_file`: the key file
that was read, or an error, with the answer of
`g_error_matches (local_error, G_FILE_ERROR, G_FILE_ERROR_NOENT)`. -/
inductive LoadOutcome where
  | loaded (key_file : GKeyFile)
  | error (noent : Bool)

/-- The function `parse_key_file_allow_none`: its return value and the key
file after it.  `load` is the file system as `g_key_file_load_from_file`
sees it. -/
def parse_key_file_allow_none (conf_file : String) (load : String → LoadOutcome)
    (key_file : GKeyFile) : Bool × GKeyFile :=
  match load conf_file with
  | .loaded key_file1 => (true, key_file1)
  | .error noent => if noent then (true, key_file) else (false, key_file)

/-- The pieces of a string between the semicolons. -/
def split_semicolon : List Char → List (List Char)
  | [] => [[]]
  | c :: cs =>
    if c = ';' then [] :: split_semicolon cs
    else
      match split_semicolon cs with
      | [] => [[c]]
      | w :: ws => (c :: w) :: ws

/-- The GLib function `g_strsplit (string, ";", -1)`: the pieces between the
delimiters, without a limit on their number; after the GLib documentation the
empty string gives an empty vector. -/
def g_strsplit (string : List Char) : List (List Char) :=
  if string = [] then [] else split_semicolon string

/-- The C library function `strncmp`, up to the sign of its result: the two
strings are compared on their first `n` characters at most. -/
def strncmp : List Char → List Char → Nat → Int
  | _, _, 0 => 0
  | [], [], _ + 1 => 0
  | [], _ :: _, _ + 1 => -1
  | _ :: _, [], _ + 1 => 1
  | a :: s1, b :: s2, n + 1 => if a = b then strncmp s1 s2 n else if a < b then -1 else 1

/-- The loop of `get_unmanaged_specs` over the vector `udis`, with the list
`specs` built so far; `g_slist_append` adds at the end.  The two checks
`nm_utils_hwaddr_valid` and `nm_utils_iface_valid_name` are not among the
sources and come in as parameters. -/
def get_unmanaged_specs_loop (nm_utils_hwaddr_valid nm_utils_iface_valid_name : List Char → Bool) :
    List (List Char) → List (List Char) → List (List Char)
  | [], specs => specs
  | udi :: rest, specs =>
    if strncmp udi "mac:".toList 4 = 0 ∧ nm_utils_hwaddr_valid (udi.drop 4) = true then
      get_unmanaged_specs_loop nm_utils_hwaddr_valid nm_utils_iface_valid_name rest
        (specs ++ [udi])
    else if strncmp udi "interface-name:".toList 15 = 0
        ∧ nm_utils_iface_valid_name (udi.drop 15) = true then
      get_unmanaged_specs_loop nm_utils_hwaddr_valid nm_utils_iface_valid_name rest
        (specs ++ [udi])
    else
      get_unmanaged_specs_loop nm_utils_hwaddr_valid nm_utils_iface_valid_name rest specs

/-- The function `get_unmanaged_specs`: the list it returns.  `conf_file` is
`priv->conf_file`, `none` for a NULL pointer. -/
def get_unmanaged_specs (nm_utils_hwaddr_valid nm_utils_iface_valid_name : List Char → Bool)
    (conf_file : Option String) (load : String → LoadOutcome) : List (List Char) :=
  match conf_file with
  | none => []
  | some file =>
    match parse_key_file_allow_none file load g_key_file_new with
    | (false, _) => []
    | (true, key_file) =>
      match key_file "keyfile" "unmanaged-devices" with
      | none => []
      | some str =>
        get_unmanaged_specs_loop nm_utils_hwaddr_valid nm_utils_iface_valid_name
          (g_strsplit str) []

/-- The items that count as an unmanaged specification, stated on prefixes
to compare with the checks of the loop: `mac:` followed by a valid hardware
address, or `interface-name:` followed by a valid interface name. -/
def is_unmanaged_spec (hwaddr_valid iface_valid_name : List Char → Bool) (item : List Char) :
    Bool :=
  ("mac:".toList.isPrefixOf item && hwaddr_valid (item.drop 4))
    || ("interface-name:".toList.isPrefixOf item && iface_valid_name (item.drop 15))

end KeyfilePlugin

namespace NMDedupMulti

open NMDedupMultiIdxMode

/-! ## Theorems -/

/-! ## Lemmas on lists -/

/-- A successful search splits the list at the first hit. -/
theorem find_split {β : Type} {p : β → Bool} {b : β} :
    ∀ {l : List β}, l.find? p = some b →
      ∃ l1 l2, l = l1 ++ b :: l2 ∧ p b = true ∧ ∀ x ∈ l1, p x = false := by
  intro l
  induction l with
  | nil => intro h; simp at h
  | cons x t ih =>
    intro h
    by_cases hx : p x = true
    · rw [List.find?_cons_of_pos _ hx] at h
      cases h
      exact ⟨[], t, rfl, hx, by simp⟩
    · have hx1 : p x = false := by simpa using hx
      rw [List.find?_cons_of_neg _ hx] at h
      obtain ⟨l1, l2, h1, h2, h3⟩ := ih h
      refine ⟨x :: l1, l2, by rw [h1]; rfl, h2, ?_⟩
      intro y hy
      rcases List.mem_cons.1 hy with h4 | h4
      · rw [h4]; exact hx1
      · exact h3 y h4

/-- The search on a list split at its first hit. -/
theorem find_of_split {β : Type} {p : β → Bool} {b : β} {l1 l2 : List β}
    (hb : p b = true) (h1 : ∀ x ∈ l1, p x = false) :
    (l1 ++ b :: l2).find? p = some b := by
  induction l1 with
  | nil => simp [hb]
  | cons x t ih =>
    have hx : p x = false := h1 x (List.mem_cons_self _ _)
    simp only [List.cons_append]
    rw [List.find?_cons_of_neg _ (by simp [hx])]
    exact ih (fun y hy => h1 y (List.mem_cons_of_mem _ hy))

/-- A failed search: no element satisfies the predicate. -/
theorem find_none {β : Type} {p : β → Bool} {l : List β} (h : l.find? p = none) :
    ∀ x ∈ l, p x = false := by
  intro x hx
  have := List.find?_eq_none.1 h x hx
  simpa using this

theorem replace_first_split {β : Type} {p : β → Bool} {b c : β} {l1 l2 : List β}
    (hb : p b = true) (h1 : ∀ x ∈ l1, p x = false) :
    replace_first p c (l1 ++ b :: l2) = l1 ++ c :: l2 := by
  induction l1 with
  | nil => simp [replace_first, hb]
  | cons x t ih =>
    have hx : p x = false := h1 x (List.mem_cons_self _ _)
    have ih1 := ih (fun y hy => h1 y (List.mem_cons_of_mem _ hy))
    simp [replace_first, hx, ih1]

theorem eraseP_split {β : Type} {p : β → Bool} {b : β} {l1 l2 : List β}
    (hb : p b = true) (h1 : ∀ x ∈ l1, p x = false) :
    (l1 ++ b :: l2).eraseP p = l1 ++ l2 := by
  induction l1 with
  | nil => simp [List.eraseP_cons, hb]
  | cons x t ih =>
    have hx : p x = false := h1 x (List.mem_cons_self _ _)
    simp only [List.cons_append, List.eraseP_cons, hx]
    rw [ih (fun y hy => h1 y (List.mem_cons_of_mem _ hy))]
    simp

/-! ## Lemmas on interning -/

/-- The canonical record is full-equal to the candidate. -/
theorem intern_full_equal {α : Type} {oc : NMDedupMultiObjClass α} (ho : ObjLaws oc)
    (self : NMDedupMultiIndex α) (obj : α) :
    oc.obj_full_equal obj (nm_dedup_multi_index_obj_intern oc self obj).2 = true := by
  unfold nm_dedup_multi_index_obj_intern nm_dedup_multi_index_obj_find
  cases hf : self.objs.find? (fun c => oc.obj_full_equal obj c) with
  | some c =>
    obtain ⟨_, _, _, h, _⟩ := find_split hf
    exact h
  | none =>
    by_cases hc : oc.obj_needs_clone obj = true
    · simp [hc, ho.clone_full]
    · simp [hc, ho.full_refl]

/-- The canonical record is stored in the table. -/
theorem intern_mem {α : Type} (oc : NMDedupMultiObjClass α)
    (self : NMDedupMultiIndex α) (obj : α) :
    (nm_dedup_multi_index_obj_intern oc self obj).2
      ∈ (nm_dedup_multi_index_obj_intern oc self obj).1.objs := by
  unfold nm_dedup_multi_index_obj_intern nm_dedup_multi_index_obj_find
  cases hf : self.objs.find? (fun c => oc.obj_full_equal obj c) with
  | some c =>
    obtain ⟨l1, l2, h, _, _⟩ := find_split hf
    simp [h]
  | none => simp

/-- Interning keeps the stored records. -/
theorem intern_subset {α : Type} (oc : NMDedupMultiObjClass α)
    (self : NMDedupMultiIndex α) (obj : α) :
    ∀ x ∈ self.objs, x ∈ (nm_dedup_multi_index_obj_intern oc self obj).1.objs := by
  intro x hx
  unfold nm_dedup_multi_index_obj_intern
  cases nm_dedup_multi_index_obj_find oc self obj with
  | some c => exact hx
  | none => exact List.mem_cons_of_mem _ hx

/-- Interning keeps the table free of full-equal pairs. -/
theorem intern_table_canonical {α : Type} {oc : NMDedupMultiObjClass α} (ho : ObjLaws oc)
    (self : NMDedupMultiIndex α) (obj : α) (ht : TableCanonical oc self) :
    TableCanonical oc (nm_dedup_multi_index_obj_intern oc self obj).1 := by
  unfold nm_dedup_multi_index_obj_intern nm_dedup_multi_index_obj_find
  cases hf : self.objs.find? (fun c => oc.obj_full_equal obj c) with
  | some c => exact ht
  | none =>
    have hn := find_none hf
    have key : ∀ o, oc.obj_full_equal obj o = true →
        TableCanonical oc ⟨o :: self.objs⟩ := by
      intro o ho1
      refine List.pairwise_cons.2 ⟨?_, ht⟩
      intro x hx
      cases hox : oc.obj_full_equal o x with
      | false => rfl
      | true =>
        have := ho.full_trans _ _ _ ho1 hox
        rw [hn x hx] at this
        cases this
    by_cases hc : oc.obj_needs_clone obj = true
    · simpa [hc] using key _ (ho.clone_full obj)
    · simpa [hc] using key _ (ho.full_refl obj)

/-- In a canonical table the stored record that is full-equal to the
candidate is the one interning returns, and the table does not change. -/
theorem intern_of_stored {α : Type} {oc : NMDedupMultiObjClass α} (ho : ObjLaws oc)
    (self : NMDedupMultiIndex α) (obj x : α) (ht : TableCanonical oc self)
    (hx : x ∈ self.objs) (hfx : oc.obj_full_equal obj x = true) :
    nm_dedup_multi_index_obj_intern oc self obj = (self, x) := by
  unfold nm_dedup_multi_index_obj_intern nm_dedup_multi_index_obj_find
  cases hf : self.objs.find? (fun c => oc.obj_full_equal obj c) with
  | none =>
    have := find_none hf x hx
    simp only at this
    rw [hfx] at this
    cases this
  | some c =>
    obtain ⟨l1, l2, h, hc, hl1⟩ := find_split hf
    have hx2 : x ∈ l1 ++ c :: l2 := h ▸ hx
    have hcx : oc.obj_full_equal c x = true := ho.full_trans _ _ _ (ho.full_symm _ _ hc) hfx
    have hp : (l1 ++ c :: l2).Pairwise (fun a b => oc.obj_full_equal a b = false) := by
      have := ht
      unfold TableCanonical at this
      rwa [h] at this
    rcases List.mem_append.1 hx2 with h3 | h3
    · have := hl1 x h3
      simp only at this
      rw [hfx] at this
      cases this
    · rcases List.mem_cons.1 h3 with h4 | h4
      · rw [h4]
      · have := (List.pairwise_cons.1 (List.pairwise_append.1 hp).2.1).1 x h4
        rw [hcx] at this
        cases this

theorem id_equal_refl {α : Type} [DecidableEq α] (klass : NMDedupMultiIdxTypeClass α) (a : α) :
    nm_dedup_multi_idx_type_id_equal klass a a = true := by
  simp [nm_dedup_multi_idx_type_id_equal]

theorem partition_equal_refl {α : Type} [DecidableEq α] (klass : NMDedupMultiIdxTypeClass α)
    (a : α) : nm_dedup_multi_idx_type_partition_equal klass a a = true := by
  unfold nm_dedup_multi_idx_type_partition_equal
  cases klass.idx_obj_partition_equal <;> simp

/-- A record is partition-equal to the candidate it is the canonical copy of,
and the other way round. -/
theorem part_of_full {α : Type} [DecidableEq α] {oc : NMDedupMultiObjClass α}
    {klass : NMDedupMultiIdxTypeClass α} (hi : IdxLaws oc klass) {obj c : α}
    (h : oc.obj_full_equal obj c = true) :
    nm_dedup_multi_idx_type_partition_equal klass c obj = true :=
  hi.part_symm _ _ (hi.full_part _ _ h)

theorem id_of_full {α : Type} [DecidableEq α] {oc : NMDedupMultiObjClass α}
    {klass : NMDedupMultiIdxTypeClass α} (hi : IdxLaws oc klass) {obj c : α}
    (h : oc.obj_full_equal obj c = true) :
    nm_dedup_multi_idx_type_id_equal klass c obj = true :=
  hi.id_symm _ _ (hi.full_id _ _ h)

/-- Records that are full-equal match the same entries. -/
theorem id_equal_congr {α : Type} [DecidableEq α] {oc : NMDedupMultiObjClass α}
    {klass : NMDedupMultiIdxTypeClass α} (hi : IdxLaws oc klass) {a b : α} (x : α)
    (h : nm_dedup_multi_idx_type_id_equal klass a b = true) :
    nm_dedup_multi_idx_type_id_equal klass x a = nm_dedup_multi_idx_type_id_equal klass x b := by
  cases h1 : nm_dedup_multi_idx_type_id_equal klass x b with
  | true => exact hi.id_trans _ _ _ h1 (hi.id_symm _ _ h)
  | false =>
    cases h2 : nm_dedup_multi_idx_type_id_equal klass x a with
    | false => rfl
    | true =>
      have := hi.id_trans _ _ _ h2 h
      rw [h1] at this
      cases this

theorem partition_equal_congr {α : Type} [DecidableEq α] {oc : NMDedupMultiObjClass α}
    {klass : NMDedupMultiIdxTypeClass α} (hi : IdxLaws oc klass) {a b : α} (x : α)
    (h : nm_dedup_multi_idx_type_partition_equal klass a b = true) :
    nm_dedup_multi_idx_type_partition_equal klass x a
      = nm_dedup_multi_idx_type_partition_equal klass x b := by
  cases h1 : nm_dedup_multi_idx_type_partition_equal klass x b with
  | true => exact hi.part_trans _ _ _ h1 (hi.part_symm _ _ h)
  | false =>
    cases h2 : nm_dedup_multi_idx_type_partition_equal klass x a with
    | false => rfl
    | true =>
      have := hi.part_trans _ _ _ h2 h
      rw [h1] at this
      cases this

/-- Symmetry on the negative side. -/
theorem id_equal_false_symm {α : Type} [DecidableEq α] {oc : NMDedupMultiObjClass α}
    {klass : NMDedupMultiIdxTypeClass α} (hi : IdxLaws oc klass) {a b : α}
    (h : nm_dedup_multi_idx_type_id_equal klass a b = false) :
    nm_dedup_multi_idx_type_id_equal klass b a = false := by
  cases h1 : nm_dedup_multi_idx_type_id_equal klass b a with
  | false => rfl
  | true =>
    have := hi.id_symm _ _ h1
    rw [h] at this
    cases this

theorem partition_equal_false_symm {α : Type} [DecidableEq α] {oc : NMDedupMultiObjClass α}
    {klass : NMDedupMultiIdxTypeClass α} (hi : IdxLaws oc klass) {a b : α}
    (h : nm_dedup_multi_idx_type_partition_equal klass a b = false) :
    nm_dedup_multi_idx_type_partition_equal klass b a = false := by
  cases h1 : nm_dedup_multi_idx_type_partition_equal klass b a with
  | false => rfl
  | true =>
    have := hi.part_symm _ _ h1
    rw [h] at this
    cases this

/-! ## Lemmas on `nm_dedup_multi_index_add` -/

theorem lookup_obj_eq {α : Type} [DecidableEq α] (idx_type : NMDedupMultiIdxType α) (obj : α) :
    nm_dedup_multi_index_lookup_obj idx_type obj
      = (partition_members idx_type obj).find? (entry_matches idx_type.klass obj) := by
  unfold nm_dedup_multi_index_lookup_obj partition_members
  cases nm_dedup_multi_index_lookup_head idx_type obj <;> simp

theorem add_klass {α : Type} [DecidableEq α] (oc : NMDedupMultiObjClass α)
    (self : NMDedupMultiIndex α) (idx_type : NMDedupMultiIdxType α) (obj : α)
    (mode : NMDedupMultiIdxMode) :
    (nm_dedup_multi_index_add oc self idx_type obj mode).idx_type.klass = idx_type.klass := by
  unfold nm_dedup_multi_index_add
  split
  · rfl
  · simp only
    split
    · rfl
    · split <;> rfl

/-- A rejected add changes nothing. -/
theorem add_rejected {α : Type} [DecidableEq α] (oc : NMDedupMultiObjClass α)
    (self : NMDedupMultiIndex α) (idx_type : NMDedupMultiIdxType α) (obj : α)
    (mode : NMDedupMultiIdxMode) (hp : obj_partitionable idx_type.klass obj = false) :
    nm_dedup_multi_index_add oc self idx_type obj mode = ⟨self, idx_type, false, none, none⟩ := by
  unfold nm_dedup_multi_index_add
  rw [if_pos hp]

/-- The table, the boolean and the entry of an accepted add. -/
theorem add_accepted {α : Type} [DecidableEq α] (oc : NMDedupMultiObjClass α)
    (self : NMDedupMultiIndex α) (idx_type : NMDedupMultiIdxType α) (obj : α)
    (mode : NMDedupMultiIdxMode) (hp : obj_partitionable idx_type.klass obj = true) :
    (nm_dedup_multi_index_add oc self idx_type obj mode).self
        = (nm_dedup_multi_index_obj_intern oc self obj).1 ∧
    (nm_dedup_multi_index_add oc self idx_type obj mode).ret = true ∧
    (nm_dedup_multi_index_add oc self idx_type obj mode).out_entry
        = some ⟨(nm_dedup_multi_index_obj_intern oc self obj).2, false⟩ := by
  unfold nm_dedup_multi_index_add
  rw [if_neg (by simp [hp])]
  simp only
  split
  · exact ⟨rfl, rfl, rfl⟩
  · split <;> exact ⟨rfl, rfl, rfl⟩

/-- The displaced record of an accepted add: the record of the id-equal member
unless it is the canonical record itself. -/
theorem add_out_obj_old {α : Type} [DecidableEq α] (oc : NMDedupMultiObjClass α)
    (self : NMDedupMultiIndex α) (idx_type : NMDedupMultiIdxType α) (obj : α)
    (mode : NMDedupMultiIdxMode) (hp : obj_partitionable idx_type.klass obj = true) :
    (nm_dedup_multi_index_add oc self idx_type obj mode).out_obj_old
      = match nm_dedup_multi_index_lookup_obj idx_type obj with
        | none => none
        | some e =>
          if e.obj = (nm_dedup_multi_index_obj_intern oc self obj).2 then none else some e.obj := by
  unfold nm_dedup_multi_index_add nm_dedup_multi_index_lookup_obj
  rw [if_neg (by simp [hp])]
  simp only
  cases nm_dedup_multi_index_lookup_head idx_type obj with
  | none => rfl
  | some h =>
    simp only
    cases h.lst_entries_head.find? (entry_matches idx_type.klass obj) <;> rfl

/-- The heads of the instance after an accepted add. -/
theorem add_heads {α : Type} [DecidableEq α] (oc : NMDedupMultiObjClass α)
    (self : NMDedupMultiIndex α) (idx_type : NMDedupMultiIdxType α) (obj : α)
    (mode : NMDedupMultiIdxMode) (hp : obj_partitionable idx_type.klass obj = true) :
    (nm_dedup_multi_index_add oc self idx_type obj mode).idx_type.lst_idx_head
      = match nm_dedup_multi_index_lookup_head idx_type obj with
        | none => idx_type.lst_idx_head
            ++ [⟨[⟨(nm_dedup_multi_index_obj_intern oc self obj).2, false⟩], 1⟩]
        | some h => replace_first (head_matches idx_type.klass obj)
            ⟨entries_add idx_type.klass obj mode
                ⟨(nm_dedup_multi_index_obj_intern oc self obj).2, false⟩ h.lst_entries_head,
              if (h.lst_entries_head.find? (entry_matches idx_type.klass obj)).isSome
              then h.len else h.len + 1⟩
            idx_type.lst_idx_head := by
  unfold nm_dedup_multi_index_add entries_add
  rw [if_neg (by simp [hp])]
  simp only
  cases nm_dedup_multi_index_lookup_head idx_type obj with
  | none => rfl
  | some h =>
    simp only
    cases h.lst_entries_head.find? (entry_matches idx_type.klass obj) <;> rfl

theorem head_matches_cons {α : Type} [DecidableEq α] (klass : NMDedupMultiIdxTypeClass α)
    (obj : α) (f : MemberEntry α) (t : List (MemberEntry α)) (n : Nat) :
    head_matches klass obj ⟨f :: t, n⟩
      = nm_dedup_multi_idx_type_partition_equal klass f.obj obj := rfl

theorem head_matches_nonempty {α : Type} [DecidableEq α] {klass : NMDedupMultiIdxTypeClass α}
    {obj : α} {h : HeadEntry α} (hm : head_matches klass obj h = true) :
    ∃ f t, h.lst_entries_head = f :: t ∧
      nm_dedup_multi_idx_type_partition_equal klass f.obj obj = true := by
  unfold head_matches at hm
  cases hl : h.lst_entries_head with
  | nil => rw [hl] at hm; cases hm
  | cons f t => rw [hl] at hm; exact ⟨f, t, rfl, hm⟩

/-- The members after an add are the new entry and members from before. -/
theorem mem_entries_add {α : Type} [DecidableEq α] (klass : NMDedupMultiIdxTypeClass α)
    (obj : α) (mode : NMDedupMultiIdxMode) (e : MemberEntry α) (l : List (MemberEntry α))
    (x : MemberEntry α) (hx : x ∈ entries_add klass obj mode e l) : x = e ∨ x ∈ l := by
  unfold entries_add at hx
  cases hf : l.find? (entry_matches klass obj) with
  | none =>
    rw [hf] at hx
    cases mode <;> simp [entry_link] at hx <;> tauto
  | some e1 =>
    rw [hf] at hx
    obtain ⟨l1, l2, h1, h2, h3⟩ := find_split hf
    rw [h1] at hx ⊢
    rw [eraseP_split h2 h3, replace_first_split h2 h3] at hx
    cases mode <;> simp [entry_link, mode_is_force] at hx ⊢ <;> tauto

/-- The head of the partition of `obj` still matches `obj` after the add. -/
theorem head_matches_entries_add {α : Type} [DecidableEq α]
    (klass : NMDedupMultiIdxTypeClass α) (obj c : α) (mode : NMDedupMultiIdxMode)
    (l : List (MemberEntry α)) (n n1 : Nat)
    (hc : nm_dedup_multi_idx_type_partition_equal klass c obj = true)
    (hl : head_matches klass obj ⟨l, n⟩ = true)
    (hall : mode = NM_DEDUP_MULTI_IDX_MODE_APPEND_FORCE →
      (l.find? (entry_matches klass obj)).isSome = true →
      ∀ x ∈ l, nm_dedup_multi_idx_type_partition_equal klass x.obj obj = true) :
    head_matches klass obj ⟨entries_add klass obj mode ⟨c, false⟩ l, n1⟩ = true := by
  obtain ⟨f, t, hft, hf⟩ := head_matches_nonempty hl
  simp only at hft
  subst hft
  unfold entries_add
  cases hfind : (f :: t).find? (entry_matches klass obj) with
  | none =>
    cases mode <;> simp only [entry_link, List.cons_append, head_matches_cons, hc, hf]
  | some e1 =>
    obtain ⟨l1, l2, h1, h2, h3⟩ := find_split hfind
    simp only
    rw [h1, eraseP_split h2 h3, replace_first_split h2 h3]
    cases l1 with
    | nil =>
      cases mode
      · simp [mode_is_force, head_matches_cons, hc]
      · simp [mode_is_force, entry_link, head_matches_cons, hc]
      · simp [mode_is_force, head_matches_cons, hc]
      · simp only [mode_is_force, entry_link, List.nil_append, reduceIte]
        cases l2 with
        | nil => simp only [List.nil_append, head_matches_cons, hc]
        | cons y ys =>
          simp only [List.cons_append, head_matches_cons]
          apply hall rfl (by rw [hfind]; rfl)
          rw [h1]
          simp
    | cons z zs =>
      have hz : z = f := by
        simp only [List.cons_append, List.cons.injEq] at h1
        exact h1.1.symm
      subst hz
      cases mode <;>
        simp [mode_is_force, entry_link, head_matches_cons, hc, hf]

/-- The member list of the partition of `obj` after an accepted add. -/
theorem members_after_add {α : Type} [DecidableEq α] {oc : NMDedupMultiObjClass α}
    (ho : ObjLaws oc) (self : NMDedupMultiIndex α) (idx_type : NMDedupMultiIdxType α)
    (hi : IdxLaws oc idx_type.klass) (obj : α) (mode : NMDedupMultiIdxMode)
    (hp : obj_partitionable idx_type.klass obj = true)
    (hall : mode = NM_DEDUP_MULTI_IDX_MODE_APPEND_FORCE →
      (nm_dedup_multi_index_lookup_obj idx_type obj).isSome = true →
      ∀ x ∈ partition_members idx_type obj,
        nm_dedup_multi_idx_type_partition_equal idx_type.klass x.obj obj = true) :
    partition_members (nm_dedup_multi_index_add oc self idx_type obj mode).idx_type obj
      = entries_add idx_type.klass obj mode
          ⟨(nm_dedup_multi_index_obj_intern oc self obj).2, false⟩
          (partition_members idx_type obj) := by
  have hc := part_of_full hi (intern_full_equal ho self obj)
  unfold nm_dedup_multi_index_lookup_obj partition_members at hall
  unfold partition_members
  unfold nm_dedup_multi_index_lookup_head at hall ⊢
  rw [add_klass, add_heads oc self idx_type obj mode hp]
  unfold nm_dedup_multi_index_lookup_head
  cases hh : idx_type.lst_idx_head.find? (head_matches idx_type.klass obj) with
  | none =>
    have hn := find_none hh
    have : (idx_type.lst_idx_head
        ++ [(⟨[⟨(nm_dedup_multi_index_obj_intern oc self obj).2, false⟩], 1⟩ : HeadEntry α)]).find?
          (head_matches idx_type.klass obj)
        = some ⟨[⟨(nm_dedup_multi_index_obj_intern oc self obj).2, false⟩], 1⟩ := by
      have := @find_of_split _ (head_matches idx_type.klass obj)
        (⟨[⟨(nm_dedup_multi_index_obj_intern oc self obj).2, false⟩], 1⟩ : HeadEntry α)
        idx_type.lst_idx_head [] (by rw [head_matches_cons]; exact hc) hn
      exact this
    simp only [this]
    cases mode <;> simp [entries_add, entry_link]
  | some h =>
    rw [hh] at hall
    simp only at hall
    obtain ⟨hs1, hs2, h1, h2, h3⟩ := find_split hh
    simp only
    rw [h1, replace_first_split h2 h3]
    rw [find_of_split _ h3]
    exact head_matches_entries_add idx_type.klass obj _ mode h.lst_entries_head h.len _ hc h2 hall

/-! ## The invariant of an instance is kept by every operation -/

/-- The invariant only reads the class and the heads. -/
theorem idxinv_congr {α : Type} [DecidableEq α] (a b : NMDedupMultiIdxType α)
    (hk : a.klass = b.klass) (hh : a.lst_idx_head = b.lst_idx_head) (h : IdxInv a) :
    IdxInv b := by
  unfold IdxInv IdUnique PartitionRefined HeadsDistinct at *
  rw [← hk, ← hh]
  exact h

/-- An element added to a list against whose members it is unrelated, at any
of the three places an add may put it. -/
theorem pairwise_insert {β : Type} {R : β → β → Prop} {l1 l2 : List β} {y : β}
    (hp : (l1 ++ l2).Pairwise R) (hy : ∀ x ∈ l1 ++ l2, R x y ∧ R y x) :
    (l1 ++ y :: l2).Pairwise R ∧ (y :: (l1 ++ l2)).Pairwise R ∧
      ((l1 ++ l2) ++ [y]).Pairwise R := by
  obtain ⟨hp1, hp2, hp12⟩ := List.pairwise_append.1 hp
  refine ⟨?_, ?_, ?_⟩
  · refine List.pairwise_append.2 ⟨hp1, List.pairwise_cons.2 ⟨?_, hp2⟩, ?_⟩
    · intro b hb
      exact (hy b (List.mem_append_right _ hb)).2
    · intro a ha b hb
      rcases List.mem_cons.1 hb with h | h
      · rw [h]; exact (hy a (List.mem_append_left _ ha)).1
      · exact hp12 a ha b h
  · exact List.pairwise_cons.2 ⟨fun b hb => (hy b hb).2, hp⟩
  · refine List.pairwise_append.2 ⟨hp, List.pairwise_singleton _ _, ?_⟩
    intro a ha b hb
    simp only [List.mem_singleton] at hb
    rw [hb]
    exact (hy a ha).1

/-- Identity uniqueness of a member list is kept by an add. -/
theorem pairwise_entries_add {α : Type} [DecidableEq α] {oc : NMDedupMultiObjClass α}
    {klass : NMDedupMultiIdxTypeClass α} (hi : IdxLaws oc klass) (obj c : α)
    (mode : NMDedupMultiIdxMode) (l : List (MemberEntry α))
    (hc : nm_dedup_multi_idx_type_id_equal klass c obj = true)
    (hp : l.Pairwise (fun a b => nm_dedup_multi_idx_type_id_equal klass a.obj b.obj = false)) :
    (entries_add klass obj mode ⟨c, false⟩ l).Pairwise
      (fun a b => nm_dedup_multi_idx_type_id_equal klass a.obj b.obj = false) := by
  have hfresh : ∀ x : MemberEntry α, nm_dedup_multi_idx_type_id_equal klass x.obj obj = false →
      nm_dedup_multi_idx_type_id_equal klass x.obj c = false ∧
      nm_dedup_multi_idx_type_id_equal klass c x.obj = false := by
    intro x hx
    have h1 : nm_dedup_multi_idx_type_id_equal klass x.obj c = false := by
      rw [id_equal_congr hi x.obj hc]; exact hx
    exact ⟨h1, id_equal_false_symm hi h1⟩
  unfold entries_add
  cases hf : l.find? (entry_matches klass obj) with
  | none =>
    have hn := find_none hf
    have := @pairwise_insert _ _ [] l (⟨c, false⟩ : MemberEntry α) (by simpa using hp)
      (by
        intro x hx
        exact hfresh x (hn x (by simpa using hx)))
    cases mode
    · exact this.2.1
    · exact this.2.1
    · exact this.2.2
    · exact this.2.2
  | some e1 =>
    obtain ⟨l1, l2, h1, h2, h3⟩ := find_split hf
    have he1 : nm_dedup_multi_idx_type_id_equal klass e1.obj obj = true := h2
    subst h1
    simp only
    rw [eraseP_split h2 h3, replace_first_split h2 h3]
    have hsub : (l1 ++ l2).Pairwise
        (fun a b => nm_dedup_multi_idx_type_id_equal klass a.obj b.obj = false) :=
      hp.sublist (List.Sublist.append_left (List.sublist_cons_self _ _) _)
    obtain ⟨_, hp2, hp12⟩ := List.pairwise_append.1 hp
    have hy : ∀ x ∈ l1 ++ l2,
        nm_dedup_multi_idx_type_id_equal klass x.obj c = false ∧
        nm_dedup_multi_idx_type_id_equal klass c x.obj = false := by
      intro x hx
      apply hfresh
      rw [← id_equal_congr hi x.obj he1]
      rcases List.mem_append.1 hx with h | h
      · exact hp12 x h e1 (List.mem_cons_self _ _)
      · exact id_equal_false_symm hi ((List.pairwise_cons.1 hp2).1 x h)
    have := @pairwise_insert _ _ l1 l2 (⟨c, false⟩ : MemberEntry α) hsub hy
    cases mode
    · exact this.1
    · exact this.2.1
    · exact this.1
    · exact this.2.2

/-- Under partition refinement every member of the head that matches `obj`
is partition-equal to `obj`. -/
theorem members_part_obj {α : Type} [DecidableEq α] {oc : NMDedupMultiObjClass α}
    {klass : NMDedupMultiIdxTypeClass α} (hi : IdxLaws oc klass) {obj : α} {h : HeadEntry α}
    (hm : head_matches klass obj h = true)
    (hr : ∀ a ∈ h.lst_entries_head, ∀ b ∈ h.lst_entries_head,
      nm_dedup_multi_idx_type_partition_equal klass a.obj b.obj = true) :
    ∀ x ∈ h.lst_entries_head,
      nm_dedup_multi_idx_type_partition_equal klass x.obj obj = true := by
  obtain ⟨f, t, hft, hf⟩ := head_matches_nonempty hm
  intro x hx
  exact hi.part_trans _ _ _ (hr x hx f (by rw [hft]; exact List.mem_cons_self _ _)) hf

/-- Partition-equal to the same record, hence to each other. -/
theorem part_of_common {α : Type} [DecidableEq α] {oc : NMDedupMultiObjClass α}
    {klass : NMDedupMultiIdxTypeClass α} (hi : IdxLaws oc klass) {obj a b : α}
    (ha : nm_dedup_multi_idx_type_partition_equal klass a obj = true)
    (hb : nm_dedup_multi_idx_type_partition_equal klass b obj = true) :
    nm_dedup_multi_idx_type_partition_equal klass a b = true :=
  hi.part_trans _ _ _ ha (hi.part_symm _ _ hb)

/-- Replacing the head of the partition of `obj` by a head whose members are
identity-unique and partition-equal to `obj` keeps the invariant. -/
theorem inv_replace {α : Type} [DecidableEq α] {oc : NMDedupMultiObjClass α}
    {klass : NMDedupMultiIdxTypeClass α} (hi : IdxLaws oc klass) (obj : α)
    (hs1 hs2 : List (HeadEntry α)) (h h1 : HeadEntry α) (n n1 : Nat)
    (hinv : IdxInv ⟨klass, hs1 ++ h :: hs2, n⟩) (hm : head_matches klass obj h = true)
    (hu : h1.lst_entries_head.Pairwise
      (fun a b => nm_dedup_multi_idx_type_id_equal klass a.obj b.obj = false))
    (hp : ∀ x ∈ h1.lst_entries_head,
      nm_dedup_multi_idx_type_partition_equal klass x.obj obj = true) :
    IdxInv ⟨klass, hs1 ++ h1 :: hs2, n1⟩ := by
  obtain ⟨hU, hP, hD⟩ := hinv
  unfold IdUnique at hU
  unfold PartitionRefined at hP
  unfold HeadsDistinct at hD
  simp only at hU hP hD
  have hmem : ∀ g, g ∈ hs1 ++ h1 :: hs2 → g = h1 ∨ g ∈ hs1 ++ h :: hs2 := by
    intro g hg
    simp only [List.mem_append, List.mem_cons] at hg ⊢
    tauto
  have hhin : h ∈ hs1 ++ h :: hs2 := by simp
  have hold := members_part_obj hi hm (hP h hhin)
  obtain ⟨f, t, hft, hf⟩ := head_matches_nonempty hm
  have hfin : f ∈ h.lst_entries_head := by rw [hft]; exact List.mem_cons_self _ _
  -- a record partition-equal to a member of the new head is so to `f`
  have hto : ∀ (a : α) (b : MemberEntry α), b ∈ h1.lst_entries_head →
      nm_dedup_multi_idx_type_partition_equal klass a b.obj = true →
      nm_dedup_multi_idx_type_partition_equal klass a f.obj = true := by
    intro a b hb hab
    exact hi.part_trans _ _ _ (hi.part_trans _ _ _ hab (hp b hb)) (hi.part_symm _ _ hf)
  refine ⟨?_, ?_, ?_⟩
  · intro g hg
    rcases hmem g hg with h2 | h2
    · rw [h2]; exact hu
    · exact hU g h2
  · intro g hg
    rcases hmem g hg with h2 | h2
    · rw [h2]
      intro a ha b hb
      exact part_of_common hi (hp a ha) (hp b hb)
    · exact hP g h2
  · show (hs1 ++ h1 :: hs2).Pairwise _
    obtain ⟨hd1, hd2, hd12⟩ := List.pairwise_append.1 hD
    obtain ⟨hdh, hd2t⟩ := List.pairwise_cons.1 hd2
    refine List.pairwise_append.2 ⟨hd1, List.pairwise_cons.2 ⟨?_, hd2t⟩, ?_⟩
    · intro g hg a ha b hb
      cases hab : nm_dedup_multi_idx_type_partition_equal klass a.obj b.obj with
      | false => rfl
      | true =>
        have h3 := hto b.obj a ha (hi.part_symm _ _ hab)
        have := hdh g hg f hfin b hb
        rw [hi.part_symm _ _ h3] at this
        cases this
    · intro g hg g2 hg2
      rcases List.mem_cons.1 hg2 with h2 | h2
      · rw [h2]
        intro a ha b hb
        cases hab : nm_dedup_multi_idx_type_partition_equal klass a.obj b.obj with
        | false => rfl
        | true =>
          have h3 := hto a.obj b hb hab
          have := hd12 g hg h (List.mem_cons_self _ _) a ha f hfin
          rw [h3] at this
          cases this
      · exact hd12 g hg g2 (List.mem_cons_of_mem _ h2)

/-- A new head for a record no head matches keeps the invariant. -/
theorem inv_append {α : Type} [DecidableEq α] {oc : NMDedupMultiObjClass α}
    {klass : NMDedupMultiIdxTypeClass α} (hi : IdxLaws oc klass) (obj c : α)
    (hs : List (HeadEntry α)) (n n1 : Nat)
    (hinv : IdxInv ⟨klass, hs, n⟩) (hn : ∀ g ∈ hs, head_matches klass obj g = false)
    (hc : nm_dedup_multi_idx_type_partition_equal klass c obj = true) :
    IdxInv ⟨klass, hs ++ [⟨[⟨c, false⟩], 1⟩], n1⟩ := by
  obtain ⟨hU, hP, hD⟩ := hinv
  unfold IdUnique at hU
  unfold PartitionRefined at hP
  unfold HeadsDistinct at hD
  simp only at hU hP hD
  refine ⟨?_, ?_, ?_⟩
  · intro g hg
    rcases List.mem_append.1 hg with h2 | h2
    · exact hU g h2
    · simp only [List.mem_singleton] at h2
      rw [h2]
      exact List.pairwise_singleton _ _
  · intro g hg
    rcases List.mem_append.1 hg with h2 | h2
    · exact hP g h2
    · simp only [List.mem_singleton] at h2
      rw [h2]
      intro a ha b hb
      simp only [List.mem_singleton] at ha hb
      rw [ha, hb]
      exact partition_equal_refl _ _
  · show (hs ++ [_]).Pairwise _
    refine List.pairwise_append.2 ⟨hD, List.pairwise_singleton _ _, ?_⟩
    intro g hg g2 hg2 a ha b hb
    simp only [List.mem_singleton] at hg2
    rw [hg2] at hb
    simp only [List.mem_singleton] at hb
    rw [hb]
    cases hab : nm_dedup_multi_idx_type_partition_equal klass a.obj c with
    | false => rfl
    | true =>
      have hgn := hn g hg
      unfold head_matches at hgn
      cases hl : g.lst_entries_head with
      | nil => rw [hl] at ha; cases ha
      | cons f t =>
        rw [hl] at hgn
        simp only at hgn
        have hfa := hP g hg f (by rw [hl]; exact List.mem_cons_self _ _) a ha
        have := hi.part_trans _ _ _ (hi.part_trans _ _ _ hfa hab) hc
        rw [hgn] at this
        cases this

/-- The invariant is kept by `nm_dedup_multi_index_add`. -/
theorem add_inv {α : Type} [DecidableEq α] {oc : NMDedupMultiObjClass α} (ho : ObjLaws oc)
    (self : NMDedupMultiIndex α) (idx_type : NMDedupMultiIdxType α)
    (hi : IdxLaws oc idx_type.klass) (obj : α) (mode : NMDedupMultiIdxMode)
    (hinv : IdxInv idx_type) :
    IdxInv (nm_dedup_multi_index_add oc self idx_type obj mode).idx_type := by
  cases hp : obj_partitionable idx_type.klass obj with
  | false => rw [add_rejected oc self idx_type obj mode hp]; exact hinv
  | true =>
    have hfull := intern_full_equal ho self obj
    have hcp := part_of_full hi hfull
    have hci := id_of_full hi hfull
    have hheads := add_heads oc self idx_type obj mode hp
    have hklass := add_klass oc self idx_type obj mode
    unfold nm_dedup_multi_index_lookup_head at hheads
    cases hh : idx_type.lst_idx_head.find? (head_matches idx_type.klass obj) with
    | none =>
      rw [hh] at hheads
      simp only at hheads
      exact idxinv_congr ⟨idx_type.klass, _, 0⟩ _ hklass.symm hheads.symm
        (inv_append hi obj _ idx_type.lst_idx_head idx_type.len 0 hinv (find_none hh) hcp)
    | some h =>
      rw [hh] at hheads
      simp only at hheads
      obtain ⟨hs1, hs2, h1, h2, h3⟩ := find_split hh
      rw [h1, replace_first_split h2 h3] at hheads
      have hinv1 : IdxInv ⟨idx_type.klass, hs1 ++ h :: hs2, idx_type.len⟩ :=
        idxinv_congr idx_type _ rfl h1 hinv
      have hhin : h ∈ hs1 ++ h :: hs2 := by simp
      have hold := members_part_obj hi h2 (hinv1.2.1 h hhin)
      refine idxinv_congr ⟨idx_type.klass, _, 0⟩ _ hklass.symm hheads.symm
        (inv_replace hi obj hs1 hs2 h _ idx_type.len 0 hinv1 h2 ?_ ?_)
      · exact pairwise_entries_add hi obj _ mode _ hci (hinv1.1 h hhin)
      · intro x hx
        rcases mem_entries_add _ _ _ _ _ x hx with h4 | h4
        · rw [h4]; exact hcp
        · exact hold x h4

theorem SubHeads.refl {α : Type} : ∀ (l : List (HeadEntry α)), SubHeads l l
  | [] => SubHeads.nil
  | _ :: t => SubHeads.keep (List.Sublist.refl _) (SubHeads.refl t)

theorem SubHeads.nil_left {α : Type} : ∀ (l : List (HeadEntry α)), SubHeads [] l
  | [] => SubHeads.nil
  | h :: t => SubHeads.drop h (SubHeads.nil_left t)

/-- Every head left after removals comes from a head from before. -/
theorem SubHeads.mem {α : Type} {l1 l2 : List (HeadEntry α)} (hs : SubHeads l1 l2) :
    ∀ g ∈ l1, ∃ g2 ∈ l2, g.lst_entries_head.Sublist g2.lst_entries_head := by
  induction hs with
  | nil => intro g hg; cases hg
  | drop h _ ih =>
    intro g hg
    obtain ⟨g2, h1, h2⟩ := ih g hg
    exact ⟨g2, List.mem_cons_of_mem _ h1, h2⟩
  | keep hsub _ ih =>
    intro g hg
    rcases List.mem_cons.1 hg with h3 | h3
    · rw [h3]; exact ⟨_, List.mem_cons_self _ _, hsub⟩
    · obtain ⟨g2, h1, h2⟩ := ih g h3
      exact ⟨g2, List.mem_cons_of_mem _ h1, h2⟩

/-- Removals keep the invariant. -/
theorem inv_subheads {α : Type} [DecidableEq α] (klass : NMDedupMultiIdxTypeClass α)
    {l1 l2 : List (HeadEntry α)} (n n1 : Nat) (hs : SubHeads l1 l2)
    (hinv : IdxInv ⟨klass, l2, n⟩) : IdxInv ⟨klass, l1, n1⟩ := by
  obtain ⟨hU, hP, hD⟩ := hinv
  unfold IdUnique at hU
  unfold PartitionRefined at hP
  unfold HeadsDistinct at hD
  simp only at hU hP hD
  refine ⟨?_, ?_, ?_⟩
  · intro g hg
    obtain ⟨g2, h1, h2⟩ := hs.mem g hg
    exact (hU g2 h1).sublist h2
  · intro g hg a ha b hb
    obtain ⟨g2, h1, h2⟩ := hs.mem g hg
    exact hP g2 h1 a (h2.subset ha) b (h2.subset hb)
  · show l1.Pairwise _
    clear hU hP
    induction hs with
    | nil => exact List.Pairwise.nil
    | drop h _ ih => exact ih (List.pairwise_cons.1 hD).2
    | keep hsub hs1 ih =>
      obtain ⟨hd1, hd2⟩ := List.pairwise_cons.1 hD
      refine List.pairwise_cons.2 ⟨?_, ih hd2⟩
      intro g hg a ha b hb
      obtain ⟨g2, h1, h2⟩ := hs1.mem g hg
      exact hd1 g2 h1 a (hsub.subset ha) b (h2.subset hb)

theorem heads_remove_entry_sub {α : Type} [DecidableEq α] (entry : MemberEntry α) :
    ∀ (l : List (HeadEntry α)), SubHeads (heads_remove_entry entry l).1 l
  | [] => SubHeads.nil
  | h :: t => by
    unfold heads_remove_entry
    by_cases h1 : entry ∈ h.lst_entries_head
    · rw [if_pos h1]
      by_cases h2 : (h.lst_entries_head.erase entry).isEmpty = true
      · rw [if_pos h2]
        exact SubHeads.drop h (SubHeads.refl t)
      · rw [if_neg h2]
        exact SubHeads.keep (List.erase_sublist _ _) (SubHeads.refl t)
    · rw [if_neg h1]
      exact SubHeads.keep (List.Sublist.refl _) (heads_remove_entry_sub entry t)

theorem eraseP_sub {α : Type} (p : HeadEntry α → Bool) :
    ∀ (l : List (HeadEntry α)), SubHeads (l.eraseP p) l
  | [] => SubHeads.nil
  | h :: t => by
    rw [List.eraseP_cons]
    by_cases h1 : p h = true
    · simp only [h1, if_true]
      exact SubHeads.drop h (SubHeads.refl t)
    · simp only [h1]
      exact SubHeads.keep (List.Sublist.refl _) (eraseP_sub p t)

theorem remove_entry_inv {α : Type} [DecidableEq α] (idx_type : NMDedupMultiIdxType α)
    (entry : MemberEntry α) (hinv : IdxInv idx_type) :
    IdxInv (nm_dedup_multi_index_remove_entry idx_type entry).1 :=
  inv_subheads idx_type.klass idx_type.len _ (heads_remove_entry_sub entry _) hinv

theorem remove_obj_inv {α : Type} [DecidableEq α] (idx_type : NMDedupMultiIdxType α)
    (obj : α) (hinv : IdxInv idx_type) :
    IdxInv (nm_dedup_multi_index_remove_obj idx_type obj).1 := by
  unfold nm_dedup_multi_index_remove_obj
  cases nm_dedup_multi_index_lookup_obj idx_type obj with
  | none => exact hinv
  | some e => exact remove_entry_inv idx_type e hinv

theorem remove_head_inv {α : Type} [DecidableEq α] (idx_type : NMDedupMultiIdxType α)
    (obj : α) (hinv : IdxInv idx_type) :
    IdxInv (nm_dedup_multi_index_remove_head idx_type obj).1 := by
  unfold nm_dedup_multi_index_remove_head
  cases nm_dedup_multi_index_lookup_head idx_type obj with
  | none => exact hinv
  | some h => exact inv_subheads idx_type.klass idx_type.len _ (eraseP_sub _ _) hinv

theorem remove_idx_inv {α : Type} [DecidableEq α] (idx_type : NMDedupMultiIdxType α)
    (hinv : IdxInv idx_type) : IdxInv (nm_dedup_multi_index_remove_idx idx_type).1 :=
  inv_subheads idx_type.klass idx_type.len _ (SubHeads.nil_left _) hinv

theorem remove_entry_klass {α : Type} [DecidableEq α] (idx_type : NMDedupMultiIdxType α)
    (entry : MemberEntry α) :
    (nm_dedup_multi_index_remove_entry idx_type entry).1.klass = idx_type.klass := rfl

theorem remove_obj_klass {α : Type} [DecidableEq α] (idx_type : NMDedupMultiIdxType α)
    (obj : α) : (nm_dedup_multi_index_remove_obj idx_type obj).1.klass = idx_type.klass := by
  unfold nm_dedup_multi_index_remove_obj
  cases nm_dedup_multi_index_lookup_obj idx_type obj <;> rfl

theorem remove_head_klass {α : Type} [DecidableEq α] (idx_type : NMDedupMultiIdxType α)
    (obj : α) : (nm_dedup_multi_index_remove_head idx_type obj).1.klass = idx_type.klass := by
  unfold nm_dedup_multi_index_remove_head
  cases nm_dedup_multi_index_lookup_head idx_type obj <;> rfl

/-- One operation keeps the class and the invariant of the instance. -/
theorem apply_inv {α : Type} [DecidableEq α] {oc : NMDedupMultiObjClass α} (ho : ObjLaws oc)
    (st : NMDedupMultiIndex α × NMDedupMultiIdxType α) (op : Op α)
    (hi : IdxLaws oc st.2.klass) (hinv : IdxInv st.2) :
    (Op.apply oc st op).2.klass = st.2.klass ∧ IdxInv (Op.apply oc st op).2 := by
  cases op with
  | add obj mode => exact ⟨add_klass oc st.1 st.2 obj mode, add_inv ho st.1 st.2 hi obj mode hinv⟩
  | remove_entry e => exact ⟨remove_entry_klass st.2 e, remove_entry_inv st.2 e hinv⟩
  | remove_obj obj => exact ⟨remove_obj_klass st.2 obj, remove_obj_inv st.2 obj hinv⟩
  | remove_head obj => exact ⟨remove_head_klass st.2 obj, remove_head_inv st.2 obj hinv⟩
  | remove_idx => exact ⟨rfl, remove_idx_inv st.2 hinv⟩

/-- A sequence of operations keeps the class and the invariant. -/
theorem run_ops_inv {α : Type} [DecidableEq α] {oc : NMDedupMultiObjClass α} (ho : ObjLaws oc)
    (ops : List (Op α)) :
    ∀ (st : NMDedupMultiIndex α × NMDedupMultiIdxType α), IdxLaws oc st.2.klass → IdxInv st.2 →
      (run_ops oc st ops).2.klass = st.2.klass ∧ IdxInv (run_ops oc st ops).2 := by
  induction ops with
  | nil => intro st _ hinv; exact ⟨rfl, hinv⟩
  | cons op t ih =>
    intro st hi hinv
    obtain ⟨h1, h2⟩ := apply_inv ho st op hi hinv
    have := ih (Op.apply oc st op) (h1 ▸ hi) h2
    exact ⟨this.1.trans h1, this.2⟩

/-- A fresh instance satisfies the invariant. -/
theorem init_inv {α : Type} [DecidableEq α] (klass : NMDedupMultiIdxTypeClass α) :
    IdxInv (nm_dedup_multi_idx_type_init klass) := by
  refine ⟨?_, ?_, ?_⟩
  · intro g hg; cases hg
  · intro g hg; cases hg
  · exact List.Pairwise.nil

/-! ## The partition of a record in a well-formed instance -/

theorem partition_members_pairwise {α : Type} [DecidableEq α]
    (idx_type : NMDedupMultiIdxType α) (obj : α) (hU : IdUnique idx_type) :
    (partition_members idx_type obj).Pairwise
      (fun a b => nm_dedup_multi_idx_type_id_equal idx_type.klass a.obj b.obj = false) := by
  unfold partition_members nm_dedup_multi_index_lookup_head
  cases hh : idx_type.lst_idx_head.find? (head_matches idx_type.klass obj) with
  | none => exact List.Pairwise.nil
  | some h =>
    obtain ⟨l1, l2, h1, _, _⟩ := find_split hh
    exact hU h (by rw [h1]; simp)

theorem partition_members_part {α : Type} [DecidableEq α] {oc : NMDedupMultiObjClass α}
    (idx_type : NMDedupMultiIdxType α) (hi : IdxLaws oc idx_type.klass) (obj : α)
    (hP : PartitionRefined idx_type) :
    ∀ x ∈ partition_members idx_type obj,
      nm_dedup_multi_idx_type_partition_equal idx_type.klass x.obj obj = true := by
  unfold partition_members nm_dedup_multi_index_lookup_head
  cases hh : idx_type.lst_idx_head.find? (head_matches idx_type.klass obj) with
  | none => intro x hx; cases hx
  | some h =>
    obtain ⟨l1, l2, h1, h2, _⟩ := find_split hh
    exact members_part_obj hi h2 (hP h (by rw [h1]; simp))

/-- In an identity-unique member list the member id-equal to `obj` is the only
one. -/
theorem unique_match {α : Type} [DecidableEq α] {oc : NMDedupMultiObjClass α}
    {klass : NMDedupMultiIdxTypeClass α} (hi : IdxLaws oc klass) (obj : α)
    {l1 l2 : List (MemberEntry α)} {e : MemberEntry α}
    (hp : (l1 ++ e :: l2).Pairwise
      (fun a b => nm_dedup_multi_idx_type_id_equal klass a.obj b.obj = false))
    (he : entry_matches klass obj e = true) :
    (∀ x ∈ l1, entry_matches klass obj x = false) ∧
      (∀ x ∈ l2, entry_matches klass obj x = false) := by
  obtain ⟨_, hp2, hp12⟩ := List.pairwise_append.1 hp
  unfold entry_matches at he ⊢
  constructor
  · intro x hx
    rw [← id_equal_congr hi x.obj he]
    exact hp12 x hx e (List.mem_cons_self _ _)
  · intro x hx
    rw [← id_equal_congr hi x.obj he]
    exact id_equal_false_symm hi ((List.pairwise_cons.1 hp2).1 x hx)

/-- In an identity-unique member list a member id-equal to `obj` is what the
search finds, and it is counted once. -/
theorem find_count_unique {α : Type} [DecidableEq α] {oc : NMDedupMultiObjClass α}
    {klass : NMDedupMultiIdxTypeClass α} (hi : IdxLaws oc klass) (obj : α)
    {l : List (MemberEntry α)} {e : MemberEntry α}
    (hp : l.Pairwise (fun a b => nm_dedup_multi_idx_type_id_equal klass a.obj b.obj = false))
    (hmem : e ∈ l) (he : entry_matches klass obj e = true) :
    l.find? (entry_matches klass obj) = some e ∧ l.countP (entry_matches klass obj) = 1 := by
  obtain ⟨l1, l2, h⟩ := List.append_of_mem hmem
  subst h
  obtain ⟨h1, h2⟩ := unique_match hi obj hp he
  refine ⟨find_of_split he h1, ?_⟩
  rw [List.countP_append, List.countP_cons_of_pos _ _ he]
  have c1 : l1.countP (entry_matches klass obj) = 0 := by
    rw [List.countP_eq_zero]
    intro x hx
    simp [h1 x hx]
  have c2 : l2.countP (entry_matches klass obj) = 0 := by
    rw [List.countP_eq_zero]
    intro x hx
    simp [h2 x hx]
  omega

/-- The new entry is among the members after the add. -/
theorem new_mem_entries_add {α : Type} [DecidableEq α] (klass : NMDedupMultiIdxTypeClass α)
    (obj : α) (mode : NMDedupMultiIdxMode) (e : MemberEntry α) (l : List (MemberEntry α)) :
    e ∈ entries_add klass obj mode e l := by
  unfold entries_add
  cases hf : l.find? (entry_matches klass obj) with
  | none => cases mode <;> simp [entry_link]
  | some e1 =>
    obtain ⟨l1, l2, h1, h2, h3⟩ := find_split hf
    simp only
    rw [h1, eraseP_split h2 h3, replace_first_split h2 h3]
    cases mode <;> simp [entry_link, mode_is_force]

/-- After an accepted add on a well-formed instance the partition of `obj`
has exactly one member id-equal to `obj`, the entry of the canonical record. -/
theorem add_lookup_count {α : Type} [DecidableEq α] {oc : NMDedupMultiObjClass α}
    (ho : ObjLaws oc) (self : NMDedupMultiIndex α) (idx_type : NMDedupMultiIdxType α)
    (hi : IdxLaws oc idx_type.klass) (obj : α) (mode : NMDedupMultiIdxMode)
    (hinv : IdxInv idx_type) (hp : obj_partitionable idx_type.klass obj = true) :
    nm_dedup_multi_index_lookup_obj
        (nm_dedup_multi_index_add oc self idx_type obj mode).idx_type obj
      = some ⟨(nm_dedup_multi_index_obj_intern oc self obj).2, false⟩ ∧
    (partition_members (nm_dedup_multi_index_add oc self idx_type obj mode).idx_type obj).countP
        (entry_matches idx_type.klass obj) = 1 := by
  have hinv1 := add_inv ho self idx_type hi obj mode hinv
  have hk := add_klass oc self idx_type obj mode
  have hpw := partition_members_pairwise _ obj hinv1.1
  rw [hk] at hpw
  have hm := members_after_add ho self idx_type hi obj mode hp
    (fun _ _ => partition_members_part idx_type hi obj hinv.2.1)
  have hin := new_mem_entries_add idx_type.klass obj mode
    ⟨(nm_dedup_multi_index_obj_intern oc self obj).2, false⟩ (partition_members idx_type obj)
  rw [← hm] at hin
  have hmatch : entry_matches idx_type.klass obj
      ⟨(nm_dedup_multi_index_obj_intern oc self obj).2, false⟩ = true :=
    id_of_full hi (intern_full_equal ho self obj)
  have := find_count_unique hi obj hpw hin hmatch
  rw [lookup_obj_eq, hk]
  exact this

/-! ## The example classes keep the contracts -/

theorem rec_obj_laws : ObjLaws rec_class where
  full_refl := by intro a; simp [rec_class]
  full_symm := by
    intro a b h
    simp only [rec_class, Bool.and_eq_true, decide_eq_true_eq] at h ⊢
    exact ⟨h.1.symm, h.2.symm⟩
  full_trans := by
    intro a b c h1 h2
    simp only [rec_class, Bool.and_eq_true, decide_eq_true_eq] at h1 h2 ⊢
    exact ⟨h1.1.trans h2.1, h1.2.trans h2.2⟩
  clone_full := by intro a; simp [rec_class]

theorem rec_idx_laws : IdxLaws rec_class rec_idx_class where
  id_symm := by
    intro a b h
    simp only [nm_dedup_multi_idx_type_id_equal, rec_idx_class, Bool.or_eq_true,
      decide_eq_true_eq] at h ⊢
    rcases h with h | h
    · exact Or.inl h.symm
    · exact Or.inr h.symm
  id_trans := by
    intro a b c h1 h2
    simp only [nm_dedup_multi_idx_type_id_equal, rec_idx_class, Bool.or_eq_true,
      decide_eq_true_eq] at h1 h2 ⊢
    right
    rcases h1 with h1 | h1 <;> rcases h2 with h2 | h2
    · rw [h1, h2]
    · rw [h1, h2]
    · rw [h1, h2]
    · rw [h1, h2]
  full_id := by
    intro a b h
    simp only [rec_class, Bool.and_eq_true, decide_eq_true_eq] at h
    simp only [nm_dedup_multi_idx_type_id_equal, rec_idx_class, Bool.or_eq_true,
      decide_eq_true_eq]
    exact Or.inr h.1
  part_symm := by
    intro a b h
    simp only [nm_dedup_multi_idx_type_partition_equal, rec_idx_class, Bool.or_eq_true,
      decide_eq_true_eq] at h ⊢
    rcases h with h | h
    · exact Or.inl h.symm
    · exact Or.inr h.symm
  part_trans := by
    intro a b c h1 h2
    simp only [nm_dedup_multi_idx_type_partition_equal, rec_idx_class, Bool.or_eq_true,
      decide_eq_true_eq] at h1 h2 ⊢
    right
    rcases h1 with h1 | h1 <;> rcases h2 with h2 | h2
    · rw [h1, h2]
    · rw [h1, h2]
    · rw [h1, h2]
    · rw [h1, h2]
  full_part := by
    intro a b h
    simp only [rec_class, Bool.and_eq_true, decide_eq_true_eq] at h
    simp only [nm_dedup_multi_idx_type_partition_equal, rec_idx_class, Bool.or_eq_true,
      decide_eq_true_eq]
    exact Or.inr (by rw [h.1])

/-! ## The claims on `nm_dedup_multi_index_add` -/

/-- C1: when the partition of the record `obj` has no member id-equal to `obj`,
an accepted `nm_dedup_multi_index_add` makes the entry of the canonical copy of
`obj` the first member of that partition for the modes PREPEND and
PREPEND_FORCE and the last member for APPEND and APPEND_FORCE; the members
from before keep their order and the partition grows by exactly one. -/
theorem add_new_record_first_or_last {α : Type} [DecidableEq α] {oc : NMDedupMultiObjClass α}
    (ho : ObjLaws oc) (self : NMDedupMultiIndex α) (idx_type : NMDedupMultiIdxType α)
    (hi : IdxLaws oc idx_type.klass) (obj : α) (mode : NMDedupMultiIdxMode)
    (hp : obj_partitionable idx_type.klass obj = true)
    (hnew : nm_dedup_multi_index_lookup_obj idx_type obj = none) :
    (nm_dedup_multi_index_add oc self idx_type obj mode).out_entry
        = some ⟨(nm_dedup_multi_index_obj_intern oc self obj).2, false⟩ ∧
    oc.obj_full_equal obj (nm_dedup_multi_index_obj_intern oc self obj).2 = true ∧
    ((mode = NM_DEDUP_MULTI_IDX_MODE_PREPEND ∨ mode = NM_DEDUP_MULTI_IDX_MODE_PREPEND_FORCE) →
      partition_members (nm_dedup_multi_index_add oc self idx_type obj mode).idx_type obj
        = ⟨(nm_dedup_multi_index_obj_intern oc self obj).2, false⟩
            :: partition_members idx_type obj) ∧
    ((mode = NM_DEDUP_MULTI_IDX_MODE_APPEND ∨ mode = NM_DEDUP_MULTI_IDX_MODE_APPEND_FORCE) →
      partition_members (nm_dedup_multi_index_add oc self idx_type obj mode).idx_type obj
        = partition_members idx_type obj
            ++ [⟨(nm_dedup_multi_index_obj_intern oc self obj).2, false⟩]) ∧
    (partition_members (nm_dedup_multi_index_add oc self idx_type obj mode).idx_type obj).length
      = (partition_members idx_type obj).length + 1 := by
  have hm := members_after_add ho self idx_type hi obj mode hp
    (fun _ hs => by rw [hnew] at hs; cases hs)
  have hnone : (partition_members idx_type obj).find? (entry_matches idx_type.klass obj) = none := by
    rw [← lookup_obj_eq]; exact hnew
  unfold entries_add at hm
  rw [hnone] at hm
  simp only at hm
  refine ⟨(add_accepted oc self idx_type obj mode hp).2.2, intern_full_equal ho self obj,
    ?_, ?_, ?_⟩
  · intro hmode
    rw [hm]
    rcases hmode with h | h <;> rw [h] <;> rfl
  · intro hmode
    rw [hm]
    rcases hmode with h | h <;> rw [h] <;> rfl
  · rw [hm]
    cases mode <;> simp [entry_link]

/-- Witness of C1: scenario 3 of §8, the record 7 prepended to the odd
partition 5, 1, 3. -/
theorem add_new_record_first_or_last_witness :
    partition_members
        (nm_dedup_multi_index_add rec_class self_example idx_example ⟨4, 7, "d"⟩
          NM_DEDUP_MULTI_IDX_MODE_PREPEND).idx_type ⟨4, 7, "d"⟩
      = [⟨⟨4, 7, "d"⟩, false⟩, ⟨⟨3, 5, "c"⟩, false⟩, ⟨⟨1, 1, "a"⟩, false⟩,
          ⟨⟨2, 3, "b"⟩, false⟩] :=
  (add_new_record_first_or_last rec_obj_laws self_example idx_example rec_idx_laws
    ⟨4, 7, "d"⟩ NM_DEDUP_MULTI_IDX_MODE_PREPEND (by decide) (by decide)).2.2.1 (Or.inl rfl)

/-- C2: when the partition of `obj` holds the entry `e` whose record is
id-equal to `obj`, `nm_dedup_multi_index_add` with the mode PREPEND or APPEND
leaves the sequence of members as it is: `e` keeps its position, no member is
added or removed, the other members are untouched, and the entry at the
position of `e` holds the canonical copy of `obj`. -/
theorem add_existing_keeps_position {α : Type} [DecidableEq α] {oc : NMDedupMultiObjClass α}
    (ho : ObjLaws oc) (self : NMDedupMultiIndex α) (idx_type : NMDedupMultiIdxType α)
    (hi : IdxLaws oc idx_type.klass) (obj : α) (mode : NMDedupMultiIdxMode)
    (hU : IdUnique idx_type)
    (hp : obj_partitionable idx_type.klass obj = true)
    (hmode : mode = NM_DEDUP_MULTI_IDX_MODE_PREPEND ∨ mode = NM_DEDUP_MULTI_IDX_MODE_APPEND)
    (l1 l2 : List (MemberEntry α)) (e : MemberEntry α)
    (hmem : partition_members idx_type obj = l1 ++ e :: l2)
    (he : nm_dedup_multi_idx_type_id_equal idx_type.klass e.obj obj = true) :
    partition_members (nm_dedup_multi_index_add oc self idx_type obj mode).idx_type obj
        = l1 ++ ⟨(nm_dedup_multi_index_obj_intern oc self obj).2, false⟩ :: l2 ∧
    oc.obj_full_equal obj (nm_dedup_multi_index_obj_intern oc self obj).2 = true ∧
    (nm_dedup_multi_index_add oc self idx_type obj mode).out_entry
        = some ⟨(nm_dedup_multi_index_obj_intern oc self obj).2, false⟩ := by
  have hm := members_after_add ho self idx_type hi obj mode hp
    (fun h _ => by rcases hmode with h1 | h1 <;> rw [h1] at h <;> cases h)
  have hpw := partition_members_pairwise idx_type obj hU
  rw [hmem] at hpw
  obtain ⟨h1, _⟩ := unique_match hi obj hpw he
  have hfind := @find_of_split _ (entry_matches idx_type.klass obj) e l1 l2 he h1
  unfold entries_add at hm
  rw [hmem, hfind] at hm
  simp only at hm
  refine ⟨?_, intern_full_equal ho self obj, (add_accepted oc self idx_type obj mode hp).2.2⟩
  rw [hm]
  rcases hmode with h | h <;> rw [h] <;>
    simp only [mode_is_force] <;> exact replace_first_split he h1

/-- Witness of C2: scenario 2 of §8 on the partition 5, 1, 3: the record
`{1, "y"}` appended, the entry of identity 1 stays in the middle. -/
theorem add_existing_keeps_position_witness :
    partition_members
        (nm_dedup_multi_index_add rec_class self_example idx_example ⟨4, 1, "y"⟩
          NM_DEDUP_MULTI_IDX_MODE_APPEND).idx_type ⟨4, 1, "y"⟩
      = [⟨⟨3, 5, "c"⟩, false⟩] ++ ⟨⟨4, 1, "y"⟩, false⟩ :: [⟨⟨2, 3, "b"⟩, false⟩] :=
  (add_existing_keeps_position rec_obj_laws self_example idx_example rec_idx_laws
    ⟨4, 1, "y"⟩ NM_DEDUP_MULTI_IDX_MODE_APPEND (by decide) (by decide) (Or.inr rfl)
    [⟨⟨3, 5, "c"⟩, false⟩] [⟨⟨2, 3, "b"⟩, false⟩] ⟨⟨1, 1, "a"⟩, false⟩ (by decide)
    (by decide)).1

/-- C3: when the partition of `obj` holds the entry `e` whose record is
id-equal to `obj`, `nm_dedup_multi_index_add` with PREPEND_FORCE moves that
entry to the first position and with APPEND_FORCE to the last position; the
number of members and the order of the other members do not change. -/
theorem add_existing_force_moves {α : Type} [DecidableEq α] {oc : NMDedupMultiObjClass α}
    (ho : ObjLaws oc) (self : NMDedupMultiIndex α) (idx_type : NMDedupMultiIdxType α)
    (hi : IdxLaws oc idx_type.klass) (obj : α) (mode : NMDedupMultiIdxMode)
    (hinv : IdxInv idx_type)
    (hp : obj_partitionable idx_type.klass obj = true)
    (l1 l2 : List (MemberEntry α)) (e : MemberEntry α)
    (hmem : partition_members idx_type obj = l1 ++ e :: l2)
    (he : nm_dedup_multi_idx_type_id_equal idx_type.klass e.obj obj = true) :
    (mode = NM_DEDUP_MULTI_IDX_MODE_PREPEND_FORCE →
      partition_members (nm_dedup_multi_index_add oc self idx_type obj mode).idx_type obj
        = ⟨(nm_dedup_multi_index_obj_intern oc self obj).2, false⟩ :: (l1 ++ l2)) ∧
    (mode = NM_DEDUP_MULTI_IDX_MODE_APPEND_FORCE →
      partition_members (nm_dedup_multi_index_add oc self idx_type obj mode).idx_type obj
        = (l1 ++ l2) ++ [⟨(nm_dedup_multi_index_obj_intern oc self obj).2, false⟩]) ∧
    (mode_is_force mode = true →
      (partition_members (nm_dedup_multi_index_add oc self idx_type obj mode).idx_type
          obj).length = (partition_members idx_type obj).length) ∧
    nm_dedup_multi_idx_type_id_equal idx_type.klass
      (nm_dedup_multi_index_obj_intern oc self obj).2 e.obj = true := by
  have hm := members_after_add ho self idx_type hi obj mode hp
    (fun _ _ => partition_members_part idx_type hi obj hinv.2.1)
  have hpw := partition_members_pairwise idx_type obj hinv.1
  rw [hmem] at hpw
  obtain ⟨h1, _⟩ := unique_match hi obj hpw he
  have hfind := @find_of_split _ (entry_matches idx_type.klass obj) e l1 l2 he h1
  unfold entries_add at hm
  rw [hmem, hfind] at hm
  simp only at hm
  have hes : (l1 ++ e :: l2).eraseP (entry_matches idx_type.klass obj) = l1 ++ l2 :=
    eraseP_split he h1
  rw [hes] at hm
  refine ⟨?_, ?_, ?_, ?_⟩
  · intro h
    rw [hm, h]
    rfl
  · intro h
    rw [hm, h]
    rfl
  · intro h
    rw [hm, hmem, h]
    cases mode
    · simp [mode_is_force] at h
    · simp [entry_link]; omega
    · simp [mode_is_force] at h
    · simp [entry_link]
  · exact hi.id_trans _ _ _ (id_of_full hi (intern_full_equal ho self obj)) (hi.id_symm _ _ he)

/-- Witness of C3: scenario 4 of §8, the partition 5, 1, 3 followed by
append_force of 1 is 5, 3, 1. -/
theorem add_existing_force_moves_witness :
    partition_members
        (nm_dedup_multi_index_add rec_class self_example idx_example ⟨4, 1, "a"⟩
          NM_DEDUP_MULTI_IDX_MODE_APPEND_FORCE).idx_type ⟨4, 1, "a"⟩
      = [⟨⟨3, 5, "c"⟩, false⟩, ⟨⟨2, 3, "b"⟩, false⟩, ⟨⟨1, 1, "a"⟩, false⟩] :=
  (add_existing_force_moves rec_obj_laws self_example idx_example rec_idx_laws
    ⟨4, 1, "a"⟩ NM_DEDUP_MULTI_IDX_MODE_APPEND_FORCE (by decide) (by decide)
    [⟨⟨3, 5, "c"⟩, false⟩] [⟨⟨2, 3, "b"⟩, false⟩] ⟨⟨1, 1, "a"⟩, false⟩ (by decide)
    (by decide)).2.1 rfl

/-- Identity uniqueness over the whole of a well-formed instance: two of its
entries are never both id-equal and partition-equal. -/
theorem all_entries_unique {α : Type} [DecidableEq α] (idx_type : NMDedupMultiIdxType α)
    (hinv : IdxInv idx_type) :
    (all_entries idx_type).Pairwise (fun a b =>
      ¬ (nm_dedup_multi_idx_type_id_equal idx_type.klass a.obj b.obj = true ∧
         nm_dedup_multi_idx_type_partition_equal idx_type.klass a.obj b.obj = true)) := by
  obtain ⟨hU, _, hD⟩ := hinv
  unfold all_entries
  rw [List.pairwise_flatten]
  constructor
  · intro l hl
    obtain ⟨h, hh, rfl⟩ := List.mem_map.1 hl
    refine (hU h hh).imp ?_
    intro a b hab hc
    rw [hab] at hc
    cases hc.1
  · rw [List.pairwise_map]
    refine List.Pairwise.imp ?_ hD
    intro h1 h2 h12 a ha b hb hc
    rw [h12 a ha b hb] at hc
    cases hc.2

/-- C5: identity uniqueness.  After every sequence of add and remove
operations on a fresh instance, no head holds two members with id-equal
records, and no two entries of the instance are both id-equal and
partition-equal, so each (instance, partition) pair has at most one entry per
identity; and adding a partitionable record twice in the same mode leaves
exactly one member entry for it in its partition. -/
theorem identity_unique_after_ops {α : Type} [DecidableEq α] {oc : NMDedupMultiObjClass α}
    (ho : ObjLaws oc) (klass : NMDedupMultiIdxTypeClass α) (hi : IdxLaws oc klass)
    (self : NMDedupMultiIndex α) (ops : List (Op α)) :
    IdUnique (run_ops oc (self, nm_dedup_multi_idx_type_init klass) ops).2 ∧
    (all_entries (run_ops oc (self, nm_dedup_multi_idx_type_init klass) ops).2).Pairwise
      (fun a b =>
        ¬ (nm_dedup_multi_idx_type_id_equal klass a.obj b.obj = true ∧
           nm_dedup_multi_idx_type_partition_equal klass a.obj b.obj = true)) ∧
    ∀ (obj : α) (mode : NMDedupMultiIdxMode), obj_partitionable klass obj = true →
      (partition_members
          (run_ops oc (run_ops oc (self, nm_dedup_multi_idx_type_init klass) ops)
            [Op.add obj mode, Op.add obj mode]).2 obj).countP (entry_matches klass obj) = 1 := by
  obtain ⟨hk, hinv⟩ := run_ops_inv ho ops (self, nm_dedup_multi_idx_type_init klass) hi
    (init_inv klass)
  have hk1 : (run_ops oc (self, nm_dedup_multi_idx_type_init klass) ops).2.klass = klass := hk
  refine ⟨hinv.1, ?_, ?_⟩
  · have := all_entries_unique _ hinv
    rw [hk1] at this
    exact this
  · intro obj mode hp
    generalize run_ops oc (self, nm_dedup_multi_idx_type_init klass) ops = st at hk1 hinv
    obtain ⟨s, idx⟩ := st
    simp only at hk1 hinv
    subst hk1
    simp only [run_ops, List.foldl, Op.apply]
    have hinv1 := add_inv ho s idx hi obj mode hinv
    have hk2 := add_klass oc s idx obj mode
    have := (add_lookup_count ho (nm_dedup_multi_index_add oc s idx obj mode).self
      (nm_dedup_multi_index_add oc s idx obj mode).idx_type (hk2 ▸ hi) obj mode hinv1
      (hk2 ▸ hp)).2
    rw [hk2] at this
    exact this

/-- Witness of C5: after the three adds of scenario 3 and a removal, adding
the record 1 twice leaves one entry for it. -/
theorem identity_unique_after_ops_witness :
    (partition_members
        (run_ops rec_class
          (run_ops rec_class
            (nm_dedup_multi_index_new, nm_dedup_multi_idx_type_init rec_idx_class)
            [Op.add ⟨1, 1, "a"⟩ NM_DEDUP_MULTI_IDX_MODE_APPEND,
             Op.add ⟨2, 3, "b"⟩ NM_DEDUP_MULTI_IDX_MODE_APPEND,
             Op.add ⟨3, 5, "c"⟩ NM_DEDUP_MULTI_IDX_MODE_PREPEND,
             Op.remove_obj ⟨2, 3, "b"⟩])
          [Op.add ⟨4, 1, "a"⟩ NM_DEDUP_MULTI_IDX_MODE_APPEND_FORCE,
           Op.add ⟨4, 1, "a"⟩ NM_DEDUP_MULTI_IDX_MODE_APPEND_FORCE]).2
        ⟨4, 1, "a"⟩).countP (entry_matches rec_idx_class ⟨4, 1, "a"⟩) = 1 :=
  (identity_unique_after_ops rec_obj_laws rec_idx_class rec_idx_laws nm_dedup_multi_index_new
    [Op.add ⟨1, 1, "a"⟩ NM_DEDUP_MULTI_IDX_MODE_APPEND,
     Op.add ⟨2, 3, "b"⟩ NM_DEDUP_MULTI_IDX_MODE_APPEND,
     Op.add ⟨3, 5, "c"⟩ NM_DEDUP_MULTI_IDX_MODE_PREPEND,
     Op.remove_obj ⟨2, 3, "b"⟩]).2.2 ⟨4, 1, "a"⟩ NM_DEDUP_MULTI_IDX_MODE_APPEND_FORCE
    (by decide)

/-- C6: replace.  When the entry `e` of the partition of `obj` holds a record
that is id-equal but not full-equal to `obj`, an accepted add reports the
record `e` referenced through `out_obj_old`, the entry it returns holds the
canonical copy of `obj`, that entry is what a lookup of `obj` finds
afterwards, and the partition has exactly one entry of that identity. -/
theorem add_replaces_record {α : Type} [DecidableEq α] {oc : NMDedupMultiObjClass α}
    (ho : ObjLaws oc) (self : NMDedupMultiIndex α) (idx_type : NMDedupMultiIdxType α)
    (hi : IdxLaws oc idx_type.klass) (obj : α) (mode : NMDedupMultiIdxMode)
    (hinv : IdxInv idx_type)
    (hp : obj_partitionable idx_type.klass obj = true) (e : MemberEntry α)
    (hlook : nm_dedup_multi_index_lookup_obj idx_type obj = some e)
    (hne : oc.obj_full_equal obj e.obj = false) :
    (nm_dedup_multi_index_add oc self idx_type obj mode).out_obj_old = some e.obj ∧
    (nm_dedup_multi_index_add oc self idx_type obj mode).out_entry
        = some ⟨(nm_dedup_multi_index_obj_intern oc self obj).2, false⟩ ∧
    oc.obj_full_equal obj (nm_dedup_multi_index_obj_intern oc self obj).2 = true ∧
    nm_dedup_multi_index_lookup_obj
        (nm_dedup_multi_index_add oc self idx_type obj mode).idx_type obj
      = some ⟨(nm_dedup_multi_index_obj_intern oc self obj).2, false⟩ ∧
    (partition_members (nm_dedup_multi_index_add oc self idx_type obj mode).idx_type obj).countP
        (entry_matches idx_type.klass obj) = 1 := by
  have hfull := intern_full_equal ho self obj
  have hlc := add_lookup_count ho self idx_type hi obj mode hinv hp
  refine ⟨?_, (add_accepted oc self idx_type obj mode hp).2.2, hfull, hlc.1, hlc.2⟩
  rw [add_out_obj_old oc self idx_type obj mode hp, hlook]
  simp only
  rw [if_neg]
  intro hc
  rw [← hc, hne] at hfull
  cases hfull

/-- Witness of C6: scenario 2 of §8, `{1, "y"}` added over `{1, "a"}`. -/
theorem add_replaces_record_witness :
    (nm_dedup_multi_index_add rec_class self_example idx_example ⟨4, 1, "y"⟩
        NM_DEDUP_MULTI_IDX_MODE_APPEND).out_obj_old = some ⟨1, 1, "a"⟩ ∧
    (nm_dedup_multi_index_add rec_class self_example idx_example ⟨4, 1, "y"⟩
        NM_DEDUP_MULTI_IDX_MODE_APPEND).out_entry = some ⟨⟨4, 1, "y"⟩, false⟩ :=
  ⟨(add_replaces_record rec_obj_laws self_example idx_example rec_idx_laws ⟨4, 1, "y"⟩
      NM_DEDUP_MULTI_IDX_MODE_APPEND (by decide) (by decide) ⟨⟨1, 1, "a"⟩, false⟩ (by decide)
      (by decide)).1,
    by decide⟩

/-- C7: dedup without displacement.  When the candidate `obj` is full-equal to
the canonical record referenced by the entry `e` of its partition (the
candidate may be another instance), an accepted add reports no displaced
record, the entry keeps referencing that same canonical instance, the
interning table does not change, and the partition still has exactly one
entry of that identity. -/
theorem add_full_equal_no_displacement {α : Type} [DecidableEq α]
    {oc : NMDedupMultiObjClass α} (ho : ObjLaws oc) (self : NMDedupMultiIndex α)
    (idx_type : NMDedupMultiIdxType α) (hi : IdxLaws oc idx_type.klass) (obj : α)
    (mode : NMDedupMultiIdxMode) (hinv : IdxInv idx_type) (ht : TableCanonical oc self)
    (hp : obj_partitionable idx_type.klass obj = true) (e : MemberEntry α)
    (hlook : nm_dedup_multi_index_lookup_obj idx_type obj = some e)
    (hstored : e.obj ∈ self.objs)
    (hfe : oc.obj_full_equal obj e.obj = true) :
    (nm_dedup_multi_index_add oc self idx_type obj mode).out_obj_old = none ∧
    (nm_dedup_multi_index_add oc self idx_type obj mode).out_entry = some ⟨e.obj, false⟩ ∧
    (nm_dedup_multi_index_add oc self idx_type obj mode).self = self ∧
    nm_dedup_multi_index_lookup_obj
        (nm_dedup_multi_index_add oc self idx_type obj mode).idx_type obj
      = some ⟨e.obj, false⟩ ∧
    (partition_members (nm_dedup_multi_index_add oc self idx_type obj mode).idx_type obj).countP
        (entry_matches idx_type.klass obj) = 1 := by
  have hint := intern_of_stored ho self obj e.obj ht hstored hfe
  have hlc := add_lookup_count ho self idx_type hi obj mode hinv hp
  have hacc := add_accepted oc self idx_type obj mode hp
  rw [hint] at hlc hacc
  refine ⟨?_, hacc.2.2, hacc.1, hlc.1, hlc.2⟩
  rw [add_out_obj_old oc self idx_type obj mode hp, hlook, hint]
  simp

/-- Witness of C7: scenario 1 of §8, a second instance of `{1, "a"}` added. -/
theorem add_full_equal_no_displacement_witness :
    (nm_dedup_multi_index_add rec_class self_example idx_example ⟨4, 1, "a"⟩
        NM_DEDUP_MULTI_IDX_MODE_APPEND).out_obj_old = none ∧
    (nm_dedup_multi_index_add rec_class self_example idx_example ⟨4, 1, "a"⟩
        NM_DEDUP_MULTI_IDX_MODE_APPEND).out_entry = some ⟨⟨1, 1, "a"⟩, false⟩ :=
  ⟨(add_full_equal_no_displacement rec_obj_laws self_example idx_example rec_idx_laws
      ⟨4, 1, "a"⟩ NM_DEDUP_MULTI_IDX_MODE_APPEND (by decide) (by decide) (by decide)
      ⟨⟨1, 1, "a"⟩, false⟩ (by decide) (by decide) (by decide)).1,
    by decide⟩

/-- C8: non-partitionable rejection.  When the class of the instance defines
`idx_obj_partitionable` and it returns FALSE for `obj`, the add returns FALSE
in every mode, reports no entry and no displaced record, and leaves the
interning table and the instance (heads, entries, order, counters) as they
were. -/
theorem add_rejects_non_partitionable {α : Type} [DecidableEq α]
    (oc : NMDedupMultiObjClass α) (self : NMDedupMultiIndex α)
    (idx_type : NMDedupMultiIdxType α) (obj : α) (mode : NMDedupMultiIdxMode)
    (f : α → Bool) (hk : idx_type.klass.idx_obj_partitionable = some f)
    (hf : f obj = false) :
    (nm_dedup_multi_index_add oc self idx_type obj mode).ret = false ∧
    (nm_dedup_multi_index_add oc self idx_type obj mode).out_entry = none ∧
    (nm_dedup_multi_index_add oc self idx_type obj mode).out_obj_old = none ∧
    (nm_dedup_multi_index_add oc self idx_type obj mode).self = self ∧
    (nm_dedup_multi_index_add oc self idx_type obj mode).idx_type = idx_type := by
  have hp : obj_partitionable idx_type.klass obj = false := by
    unfold obj_partitionable
    rw [hk]
    exact hf
  rw [add_rejected oc self idx_type obj mode hp]
  exact ⟨rfl, rfl, rfl, rfl, rfl⟩

/-- Witness of C8: the record with id 0 is not partitionable in the example. -/
theorem add_rejects_non_partitionable_witness :
    (nm_dedup_multi_index_add rec_class self_example idx_example ⟨4, 0, "z"⟩
        NM_DEDUP_MULTI_IDX_MODE_APPEND_FORCE).ret = false ∧
    (nm_dedup_multi_index_add rec_class self_example idx_example ⟨4, 0, "z"⟩
        NM_DEDUP_MULTI_IDX_MODE_APPEND_FORCE).idx_type = idx_example :=
  ⟨(add_rejects_non_partitionable rec_class self_example idx_example ⟨4, 0, "z"⟩
      NM_DEDUP_MULTI_IDX_MODE_APPEND_FORCE (fun r => decide (r.id ≠ 0)) rfl (by decide)).1,
    (add_rejects_non_partitionable rec_class self_example idx_example ⟨4, 0, "z"⟩
      NM_DEDUP_MULTI_IDX_MODE_APPEND_FORCE (fun r => decide (r.id ≠ 0)) rfl (by decide)).2.2.2.2⟩

/-! ## Lemmas on the list memory and the iterator -/

theorem Cell.lst_set_lst (c : Cell) (l : CList) : (c.set_lst l).lst = l := by
  cases c <;> rfl

theorem Mem.next_set_next (m : Mem) (p q r : Ptr) :
    ((m.set_next p q).lst r).next = if r = p then q else (m.lst r).next := by
  unfold Mem.set_next Mem.lst
  by_cases h : r = p
  · subst h; simp [Cell.lst_set_lst]
  · simp [Function.update_noteq h, h]

theorem Mem.prev_set_next (m : Mem) (p q r : Ptr) :
    ((m.set_next p q).lst r).prev = (m.lst r).prev := by
  unfold Mem.set_next Mem.lst
  by_cases h : r = p
  · subst h; simp [Cell.lst_set_lst]
  · simp [Function.update_noteq h]

theorem Mem.next_set_prev (m : Mem) (p q r : Ptr) :
    ((m.set_prev p q).lst r).next = (m.lst r).next := by
  unfold Mem.set_prev Mem.lst
  by_cases h : r = p
  · subst h; simp [Cell.lst_set_lst]
  · simp [Function.update_noteq h]

theorem Mem.prev_set_prev (m : Mem) (p q r : Ptr) :
    ((m.set_prev p q).lst r).prev = if r = p then q else (m.lst r).prev := by
  unfold Mem.set_prev Mem.lst
  by_cases h : r = p
  · subst h; simp [Cell.lst_set_lst]
  · simp [Function.update_noteq h, h]

/-- The successor of the start of a segment. -/
theorem IsSeg.next_eq {m : Mem} {p q : Ptr} {l : List Ptr} (h : IsSeg m p l q) :
    (m.lst p).next = (l ++ [q]).headD NULL := by
  cases l with
  | nil => exact h.1
  | cons x xs => exact h.1

/-- A segment through `l1 ++ x :: l2` is a segment to `x` and one from `x`. -/
theorem IsSeg.split {m : Mem} {q x : Ptr} {l2 : List Ptr} :
    ∀ {l1 : List Ptr} {p : Ptr}, IsSeg m p (l1 ++ x :: l2) q →
      IsSeg m p l1 x ∧ IsSeg m x l2 q := by
  intro l1
  induction l1 with
  | nil =>
    intro p h
    exact ⟨⟨h.1, h.2.1⟩, h.2.2⟩
  | cons z zs ih =>
    intro p h
    have := ih h.2.2
    exact ⟨⟨h.1, h.2.1, this.1⟩, this.2⟩

/-- The predecessor of the end of a segment. -/
theorem IsSeg.prev_eq {m : Mem} {q : Ptr} :
    ∀ {l : List Ptr} {p : Ptr}, IsSeg m p l q → (m.lst q).prev = (p :: l).getLast (by simp) := by
  intro l
  induction l with
  | nil => intro p h; exact h.2
  | cons z zs ih =>
    intro p h
    rw [ih h.2.2]
    simp [List.getLast_cons]

/-- A segment only depends on the links of its own nodes. -/
theorem IsSeg.frame {m m1 : Mem} {q : Ptr} :
    ∀ {l : List Ptr} {p : Ptr}, IsSeg m p l q →
      (∀ r, r ∈ p :: l → (m1.lst r).next = (m.lst r).next) →
      (∀ r, r ∈ l ++ [q] → (m1.lst r).prev = (m.lst r).prev) →
      IsSeg m1 p l q := by
  intro l
  induction l with
  | nil =>
    intro p h hn hp
    exact ⟨by rw [hn p (by simp)]; exact h.1, by rw [hp q (by simp)]; exact h.2⟩
  | cons z zs ih =>
    intro p h hn hp
    refine ⟨by rw [hn p (by simp)]; exact h.1, by rw [hp z (by simp)]; exact h.2.1, ?_⟩
    exact ih h.2.2 (fun r hr => hn r (List.mem_cons_of_mem _ hr))
      (fun r hr => hp r (by simp at hr ⊢; tauto))

/-- Taking `x` out of a chain: if the memory `m1` links the predecessor of `x`
to its successor and agrees with `m` away from them, the chain without `x`
is a segment of `m1`. -/
theorem IsSeg.bridge {m m1 : Mem} {q x : Ptr} {l2 : List Ptr}
    (h2 : IsSeg m x l2 q) (hq : q ∉ l2) (hxq : x ≠ q) :
    ∀ {l1 : List Ptr} {p : Ptr}, IsSeg m p l1 x → (p :: (l1 ++ x :: l2)).Nodup → q ∉ l1 →
      (∀ r, r ≠ (p :: l1).getLast (by simp) → r ≠ x → (m1.lst r).next = (m.lst r).next) →
      (∀ r, r ≠ (l2 ++ [q]).headD NULL → r ≠ x → (m1.lst r).prev = (m.lst r).prev) →
      (m1.lst ((p :: l1).getLast (by simp))).next = (l2 ++ [q]).headD NULL →
      (m1.lst ((l2 ++ [q]).headD NULL)).prev = (p :: l1).getLast (by simp) →
      IsSeg m1 p (l1 ++ l2) q := by
  intro l1
  induction l1 with
  | nil =>
    intro p h1 hnd _ hn hp han hbp
    simp only [List.nil_append, List.getLast_singleton] at *
    have hnd2 : (x :: l2).Nodup := (List.nodup_cons.1 hnd).2
    have hpx : p ∉ x :: l2 := (List.nodup_cons.1 hnd).1
    cases l2 with
    | nil => exact ⟨by simpa using han, by simpa using hbp⟩
    | cons y ys =>
      simp only [List.cons_append, List.headD_cons] at han hbp hp
      refine ⟨han, hbp, ?_⟩
      apply IsSeg.frame h2.2.2
      · intro r hr
        apply hn
        · rintro rfl; exact hpx (List.mem_cons_of_mem _ hr)
        · rintro rfl; exact (List.nodup_cons.1 hnd2).1 hr
      · intro r hr
        have hys : (y :: ys).Nodup := (List.nodup_cons.1 hnd2).2
        apply hp
        · rintro rfl
          rcases List.mem_append.1 hr with h | h
          · exact (List.nodup_cons.1 hys).1 h
          · simp at h; subst h; exact hq (List.mem_cons_self _ _)
        · rintro rfl
          rcases List.mem_append.1 hr with h | h
          · exact (List.nodup_cons.1 hnd2).1 (List.mem_cons_of_mem _ h)
          · simp at h; exact hxq h
  | cons z zs ih =>
    intro p h1 hnd hq1 hn hp han hbp
    have hnd1 : (z :: (zs ++ x :: l2)).Nodup := (List.nodup_cons.1 hnd).2
    have hpn : p ∉ z :: (zs ++ x :: l2) := (List.nodup_cons.1 hnd).1
    have hlast : (p :: z :: zs).getLast (by simp) = (z :: zs).getLast (by simp) := by
      simp [List.getLast_cons]
    have hzlast : (z :: zs).getLast (by simp) ∈ z :: zs := List.getLast_mem _
    rw [hlast] at hn han hbp
    refine ⟨?_, ?_, ?_⟩
    · rw [hn p]
      · exact h1.1
      · intro hc
        apply hpn
        rw [hc]
        rcases List.mem_cons.1 hzlast with h | h
        · rw [h]; exact List.mem_cons_self _ _
        · exact List.mem_cons_of_mem _ (List.mem_append_left _ h)
      · rintro rfl; exact hpn (List.mem_cons_of_mem _ (by simp))
    · rw [hp z]
      · exact h1.2.1
      · intro hc
        have hzin : z ∈ l2 ++ [q] := by
          rw [hc]
          cases l2 with
          | nil => simp
          | cons y ys => simp
        rcases List.mem_append.1 hzin with h | h
        · exact (List.nodup_cons.1 hnd1).1 (List.mem_append_right _ (List.mem_cons_of_mem _ h))
        · simp at h; subst h; exact hq1 (List.mem_cons_self _ _)
      · rintro rfl; exact (List.nodup_cons.1 hnd1).1 (by simp)
    · exact ih h1.2.2 hnd1 (fun h => hq1 (List.mem_cons_of_mem _ h)) hn hp han hbp

theorem headD_append_singleton_mem (l : List Ptr) (q : Ptr) :
    (l ++ [q]).headD NULL ∈ l ++ [q] := by
  cases l <;> simp

/-- Unlinking a member leaves the head with the other members, in order. -/
theorem IsHeadList.unlink {m : Mem} {h x : Ptr} {l1 l2 : List Ptr}
    (hl : IsHeadList m h (l1 ++ x :: l2)) : IsHeadList (c_list_unlink m x) h (l1 ++ l2) := by
  obtain ⟨hh, hnull, hnd, hseg⟩ := hl
  obtain ⟨h1, h2⟩ := IsSeg.split hseg
  have hxin : x ∈ l1 ++ x :: l2 := by simp
  have hx0 : x ≠ NULL := fun hc => hnull (hc ▸ hxin)
  have hhn : h ∉ l1 ++ x :: l2 := (List.nodup_cons.1 hnd).1
  have hnd1 : (l1 ++ x :: l2).Nodup := (List.nodup_cons.1 hnd).2
  have hxh : x ≠ h := fun hc => hhn (hc ▸ hxin)
  have hxl2 : x ∉ l2 := by
    have := (List.nodup_append.1 hnd1).2.1
    exact (List.nodup_cons.1 this).1
  have hxl1 : x ∉ l1 := by
    intro hc
    exact (List.nodup_append.1 hnd1).2.2 hc (List.mem_cons_self _ _)
  have hb : (m.lst x).next = (l2 ++ [h]).headD NULL := h2.next_eq
  have ha : (m.lst x).prev = (h :: l1).getLast (by simp) := h1.prev_eq
  have hbx : (l2 ++ [h]).headD NULL ≠ x := by
    intro hc
    have := headD_append_singleton_mem l2 h
    rw [hc] at this
    rcases List.mem_append.1 this with h3 | h3
    · exact hxl2 h3
    · simp at h3; exact hxh h3
  have hax : (h :: l1).getLast (by simp) ≠ x := by
    intro hc
    have := List.getLast_mem (l := h :: l1) (by simp)
    rw [hc] at this
    rcases List.mem_cons.1 this with h3 | h3
    · exact hxh h3
    · exact hxl1 h3
  have hlinked : c_list_is_linked m x = true := by
    unfold c_list_is_linked
    rw [hb, decide_eq_true hx0, decide_eq_true hbx]
    rfl
  refine ⟨hh, ?_, ?_, ?_⟩
  · intro hc
    apply hnull
    rcases List.mem_append.1 hc with h3 | h3
    · exact List.mem_append_left _ h3
    · exact List.mem_append_right _ (List.mem_cons_of_mem _ h3)
  · refine List.nodup_cons.2 ⟨?_, ?_⟩
    · intro hc
      apply hhn
      rcases List.mem_append.1 hc with h3 | h3
      · exact List.mem_append_left _ h3
      · exact List.mem_append_right _ (List.mem_cons_of_mem _ h3)
    · exact hnd1.sublist (List.Sublist.append_left (List.sublist_cons_self _ _) _)
  · unfold c_list_unlink
    rw [if_pos hlinked]
    apply IsSeg.bridge h2 (fun hc => hhn (List.mem_append_right _ (List.mem_cons_of_mem _ hc)))
      hxh h1 hnd (fun hc => hhn (List.mem_append_left _ hc))
    · intro r hr hrx
      simp only [Mem.next_set_prev, Mem.next_set_next, ha, hb, if_neg hrx, if_neg hr]
    · intro r hr hrx
      simp only [Mem.prev_set_prev, Mem.prev_set_next, ha, hb, if_neg hrx, if_neg hr]
    · simp only [Mem.next_set_prev, Mem.next_set_next, ha, hb, if_neg hax, if_true]
    · simp only [Mem.prev_set_prev, Mem.prev_set_next, ha, hb, if_neg hbx, if_true]

/-- The iterator right after `nm_dedup_multi_iter_init` on a head with the
member list `l`. -/
theorem iter_init_eq {m : Mem} {h : Ptr} {l : List Ptr} (hl : IsHeadList m h l) :
    nm_dedup_multi_iter_init m h = ⟨h, NULL, l.headD NULL⟩ := by
  obtain ⟨hh, _, hnd, hseg⟩ := hl
  have hn := hseg.next_eq
  unfold nm_dedup_multi_iter_init c_list_is_empty c_list_is_linked
  cases l with
  | nil =>
    simp only [List.nil_append, List.headD_cons] at hn
    simp [hn]
  | cons x xs =>
    simp only [List.cons_append, List.headD_cons] at hn
    have hxh : x ≠ h := by
      intro hc
      exact (List.nodup_cons.1 hnd).1 (hc ▸ List.mem_cons_self _ _)
    simp [hn, hh, hxh]

/-- One call of `nm_dedup_multi_iter_next` on an iterator whose `next` is the
start of a chain that ends in the anchor. -/
theorem iter_next_step {m : Mem} {h x c : Ptr} {xs : List Ptr}
    (hseg : IsSeg m x xs h) (hh : h ∉ xs) (hx : x ≠ NULL) :
    nm_dedup_multi_iter_next m ⟨h, c, x⟩ = (true, ⟨h, x, xs.headD NULL⟩) := by
  have hn := hseg.next_eq
  unfold nm_dedup_multi_iter_next
  cases xs with
  | nil =>
    simp only [List.nil_append, List.headD_cons] at hn
    simp [hx, hn]
  | cons y ys =>
    simp only [List.cons_append, List.headD_cons] at hn
    have hyh : y ≠ h := fun hc => hh (hc ▸ List.mem_cons_self _ _)
    simp [hx, hn, hyh]

/-- An iterator whose `next` is NULL is exhausted. -/
theorem iter_next_stop (m : Mem) (h c : Ptr) :
    nm_dedup_multi_iter_next m ⟨h, c, NULL⟩ = (false, ⟨h, c, NULL⟩) := by
  simp [nm_dedup_multi_iter_next]

/-- The chain from the `k`-th member on. -/
theorem IsHeadList.seg_drop {m : Mem} {h : Ptr} {l : List Ptr} (hl : IsHeadList m h l)
    (k : Nat) (hk : k < l.length) :
    IsSeg m (l.get ⟨k, hk⟩) (l.drop (k + 1)) h ∧ h ∉ l.drop (k + 1) ∧ l.get ⟨k, hk⟩ ≠ NULL := by
  obtain ⟨_, hnull, hnd, hseg⟩ := hl
  have hsplit : l = l.take k ++ l.get ⟨k, hk⟩ :: l.drop (k + 1) := by
    simp
  refine ⟨?_, ?_, ?_⟩
  · rw [hsplit] at hseg
    have := (IsSeg.split hseg).2
    exact this
  · intro hc
    exact (List.nodup_cons.1 hnd).1 (List.mem_of_mem_drop hc)
  · intro hc
    exact hnull (hc ▸ List.get_mem l k hk)

/-- The iterator after `k` calls of next on a head with member list `l`. -/
theorem iter_next_nth_eq {m : Mem} {h : Ptr} {l : List Ptr} (hl : IsHeadList m h l) :
    ∀ k (hk : k < l.length), iter_next_nth m (k + 1) (nm_dedup_multi_iter_init m h)
      = (true, ⟨h, l.get ⟨k, hk⟩, (l.drop (k + 1)).headD NULL⟩) := by
  intro k
  induction k with
  | zero =>
    intro hk
    obtain ⟨hs, hh, hx⟩ := hl.seg_drop 0 hk
    simp only [iter_next_nth]
    rw [iter_init_eq hl]
    have : l.headD NULL = l.get ⟨0, hk⟩ := by
      cases l with
      | nil => simp at hk
      | cons x xs => rfl
    rw [this]
    exact iter_next_step hs hh hx
  | succ k ih =>
    intro hk
    obtain ⟨hs, hh, hx⟩ := hl.seg_drop (k + 1) hk
    have hk1 : k < l.length := Nat.lt_of_succ_lt hk
    rw [iter_next_nth, ih hk1]
    have : (l.drop (k + 1)).headD NULL = l.get ⟨k + 1, hk⟩ := by
      rw [List.drop_eq_getElem_cons hk]
      rfl
    simp only [this]
    exact iter_next_step hs hh hx

/-- The loop over a chain yields the chain. -/
theorem iter_loop_eq {m : Mem} {h : Ptr} :
    ∀ (l : List Ptr) (p c : Ptr) (fuel : Nat), IsSeg m p l h → h ∉ l → NULL ∉ l →
      l.length < fuel → iter_loop m fuel ⟨h, c, l.headD NULL⟩ = some l := by
  intro l
  induction l with
  | nil =>
    intro p c fuel _ _ _ hf
    cases fuel with
    | zero => simp at hf
    | succ f => simp [iter_loop, iter_next_stop]
  | cons x xs ih =>
    intro p c fuel hs hh hn hf
    cases fuel with
    | zero => simp at hf
    | succ f =>
      have hx : x ≠ NULL := fun hc => hn (hc ▸ List.mem_cons_self _ _)
      have hh1 : h ∉ xs := fun hc => hh (List.mem_cons_of_mem _ hc)
      simp only [iter_loop, List.headD_cons]
      rw [iter_next_step hs.2.2 hh1 hx]
      simp only
      rw [ih x x f hs.2.2 hh1 (fun hc => hn (List.mem_cons_of_mem _ hc))
        (by simpa using hf)]
      rfl

/-- The deleting loop over the rest of a chain yields the rest, and leaves the
members that were kept. -/
theorem iter_loop_del_eq (del : Ptr → Bool) {h : Ptr} :
    ∀ (rest kept : List Ptr) (m : Mem) (c : Ptr) (fuel : Nat),
      IsHeadList m h (kept ++ rest) → rest.length < fuel →
      ∃ m1, iter_loop_del del fuel m ⟨h, c, rest.headD NULL⟩ = some (rest, m1) ∧
        IsHeadList m1 h (kept ++ rest.filter (fun e => !del e)) := by
  intro rest
  induction rest with
  | nil =>
    intro kept m c fuel hl hf
    cases fuel with
    | zero => simp at hf
    | succ f =>
      refine ⟨m, ?_, by simpa using hl⟩
      simp [iter_loop_del, iter_next_stop]
  | cons x xs ih =>
    intro kept m c fuel hl hf
    cases fuel with
    | zero => simp at hf
    | succ f =>
      have hf1 : xs.length < f := by simpa using hf
      have hseg : IsSeg m x xs h := (IsSeg.split hl.2.2.2).2
      have hxin : x ∈ kept ++ x :: xs := by simp
      have hx : x ≠ NULL := fun hc => hl.2.1 (hc ▸ hxin)
      have hh : h ∉ xs := fun hc =>
        (List.nodup_cons.1 hl.2.2.1).1 (List.mem_append_right _ (List.mem_cons_of_mem _ hc))
      simp only [iter_loop_del, List.headD_cons]
      rw [iter_next_step hseg hh hx]
      simp only
      by_cases hd : del x = true
      · obtain ⟨m1, h1, h2⟩ := ih kept (c_list_unlink m x) x f hl.unlink hf1
        refine ⟨m1, ?_, ?_⟩
        · rw [if_pos hd, h1]; rfl
        · simpa [List.filter_cons, hd] using h2
      · have hl1 : IsHeadList m h ((kept ++ [x]) ++ xs) := by simpa using hl
        obtain ⟨m1, h1, h2⟩ := ih (kept ++ [x]) m x f hl1 hf1
        refine ⟨m1, ?_, ?_⟩
        · rw [if_neg hd, h1]; rfl
        · simpa [List.filter_cons, hd] using h2

/-- C9: on a head whose member list is `l = [e1, ..., en]` and is not modified,
after `nm_dedup_multi_iter_init` the `k`-th call of `nm_dedup_multi_iter_next`
(`1 ≤ k ≤ n`) returns TRUE with `iter.current = e_k`, call `n + 1` returns
FALSE, and the loop `nm_dedup_multi_iter_for_each` terminates (with any fuel
above `n`) having visited exactly `e1, ..., en` in list order. -/
theorem iter_visits_every_member_in_order (m : Mem) (head : Ptr) (l : List Ptr)
    (hl : IsHeadList m head l) :
    (∀ k (hk : k < l.length),
        (iter_next_nth m (k + 1) (nm_dedup_multi_iter_init m head)).1 = true ∧
        (iter_next_nth m (k + 1) (nm_dedup_multi_iter_init m head)).2.current
          = l.get ⟨k, hk⟩) ∧
    (iter_next_nth m (l.length + 1) (nm_dedup_multi_iter_init m head)).1 = false ∧
    (∀ fuel, l.length < fuel → nm_dedup_multi_iter_for_each m fuel head = some l) := by
  refine ⟨?_, ?_, ?_⟩
  · intro k hk
    rw [iter_next_nth_eq hl k hk]
    exact ⟨rfl, rfl⟩
  · cases hlen : l.length with
    | zero =>
      have hnil : l = [] := List.length_eq_zero.1 hlen
      subst hnil
      simp only [iter_next_nth]
      rw [iter_init_eq hl]
      simp [iter_next_stop]
    | succ n =>
      have hn : n < l.length := by omega
      rw [iter_next_nth, iter_next_nth_eq hl n hn]
      have : l.drop (n + 1) = [] := by
        apply List.drop_eq_nil_of_le
        omega
      simp only [this, List.headD_nil]
      rw [iter_next_stop]
  · intro fuel hf
    unfold nm_dedup_multi_iter_for_each
    rw [iter_init_eq hl]
    exact iter_loop_eq l head NULL fuel hl.2.2.2
      (fun hc => (List.nodup_cons.1 hl.2.2.1).1 hc) hl.2.1 hf

/-- Witness of C9: the head at address 10 of the example memory. -/
theorem iter_visits_every_member_in_order_witness :
    IsHeadList mem_example 10 [20, 30, 40] ∧
      nm_dedup_multi_iter_for_each mem_example 4 10 = some [20, 30, 40] :=
  ⟨by decide,
    (iter_visits_every_member_in_order mem_example 10 [20, 30, 40] (by decide)).2.2 4
      (by decide)⟩

/-- C10: on a head with member list `l = [e1, ..., en]`, for every choice `del`
of the yielded entries to delete, the loop whose body unlinks `iter.current`
(and nothing else) whenever `del` chooses it still yields `e1, ..., en` in
order, each once, and then stops on a FALSE return (with any fuel above `n`);
the head is left with the members that were not deleted, in order. -/
theorem iter_survives_deleting_current (m : Mem) (head : Ptr) (l : List Ptr)
    (del : Ptr → Bool) (hl : IsHeadList m head l) :
    ∀ fuel, l.length < fuel →
      ∃ m1, iter_loop_del del fuel m (nm_dedup_multi_iter_init m head) = some (l, m1) ∧
        IsHeadList m1 head (l.filter (fun e => !del e)) := by
  intro fuel hf
  rw [iter_init_eq hl]
  have := iter_loop_del_eq del l [] m NULL fuel (by simpa using hl) hf
  simpa using this

/-- Witness of C10: deleting the first and the last member of the example head
while iterating. -/
theorem iter_survives_deleting_current_witness :
    IsHeadList mem_example 10 [20, 30, 40] ∧
      ∃ m1, iter_loop_del (fun p => decide (p = 20) || decide (p = 40)) 4 mem_example
          (nm_dedup_multi_iter_init mem_example 10) = some ([20, 30, 40], m1) ∧
        IsHeadList m1 10 [30] :=
  ⟨by decide,
    iter_survives_deleting_current mem_example 10 [20, 30, 40]
      (fun p => decide (p = 20) || decide (p = 40)) (by decide) 4 (by decide)⟩

/-! ## The iterator at its ends, rewind, the equality wrappers, the dirty flag -/

/-- The iterator keeps its head through `nm_dedup_multi_iter_next`. -/
theorem iter_next_head (m : Mem) (iter : NMDedupMultiIter) :
    (nm_dedup_multi_iter_next m iter).2.head = iter.head := by
  unfold nm_dedup_multi_iter_next
  split
  · rfl
  · simp only
    split <;> rfl

theorem iter_next_nth_head (m : Mem) (iter : NMDedupMultiIter) :
    ∀ k, (iter_next_nth m k iter).2.head = iter.head
  | 0 => rfl
  | k + 1 => by
    rw [iter_next_nth, iter_next_head]
    exact iter_next_nth_head m iter k

/-- An exhausted iterator stays exhausted. -/
theorem iter_next_nth_stop (m : Mem) (h c : Ptr) :
    ∀ k, 0 < k → iter_next_nth m k ⟨h, c, NULL⟩ = (false, ⟨h, c, NULL⟩)
  | 0, hk => by cases hk
  | 1, _ => by simp [iter_next_nth, iter_next_stop]
  | k + 2, _ => by
    rw [iter_next_nth, iter_next_nth_stop m h c (k + 1) (Nat.succ_pos k)]
    exact iter_next_stop m h c

/-- C11: for an iterator initialised with a NULL head or with a head whose
member list is empty, `iter.current` and `iter.next` are NULL, the first call
of `nm_dedup_multi_iter_next` returns FALSE and so does every later call (the
iterator does not change), and the loop `nm_dedup_multi_iter_for_each` ends
at once without an entry. -/
theorem iter_empty_yields_nothing (m : Mem) (head : Ptr)
    (hempty : head = NULL ∨ IsHeadList m head []) :
    nm_dedup_multi_iter_init m head = ⟨head, NULL, NULL⟩ ∧
    nm_dedup_multi_iter_next m (nm_dedup_multi_iter_init m head)
      = (false, ⟨head, NULL, NULL⟩) ∧
    (∀ k, 0 < k →
      iter_next_nth m k (nm_dedup_multi_iter_init m head) = (false, ⟨head, NULL, NULL⟩)) ∧
    (∀ fuel, 0 < fuel → nm_dedup_multi_iter_for_each m fuel head = some []) := by
  have hinit : nm_dedup_multi_iter_init m head = ⟨head, NULL, NULL⟩ := by
    rcases hempty with h | h
    · subst h
      simp [nm_dedup_multi_iter_init]
    · exact iter_init_eq h
  refine ⟨hinit, ?_, ?_, ?_⟩
  · rw [hinit]; exact iter_next_stop m head NULL
  · intro k hk
    rw [hinit]; exact iter_next_nth_stop m head NULL k hk
  · intro fuel hf
    unfold nm_dedup_multi_iter_for_each
    rw [hinit]
    cases fuel with
    | zero => cases hf
    | succ f => simp [iter_loop, iter_next_stop]

/-- Witness of C11: the NULL head, and the head at address 50 of the example
memory, whose anchor points to itself. -/
theorem iter_empty_yields_nothing_witness :
    nm_dedup_multi_iter_for_each mem_example 1 NULL = some [] ∧
      IsHeadList mem_example 50 [] ∧
      nm_dedup_multi_iter_next mem_example (nm_dedup_multi_iter_init mem_example 50)
        = (false, ⟨50, NULL, NULL⟩) :=
  ⟨(iter_empty_yields_nothing mem_example NULL (Or.inl rfl)).2.2.2 1 (by decide),
    by decide,
    (iter_empty_yields_nothing mem_example 50 (Or.inr (by decide))).2.1⟩

/-- C12: `nm_dedup_multi_iter_rewind` gives exactly the state
`nm_dedup_multi_iter_init` gives for the head of the iterator: the head kept,
`current` NULL, `next` the first member or NULL.  This holds however far the
iteration had advanced (the `k` calls of next keep the head), rewinding twice
is rewinding once, and the loop after a rewind yields all the members of the
head again from the first. -/
theorem iter_rewind_restarts (m : Mem) (iter : NMDedupMultiIter) (l : List Ptr)
    (hl : IsHeadList m iter.head l) :
    nm_dedup_multi_iter_rewind m iter = nm_dedup_multi_iter_init m iter.head ∧
    nm_dedup_multi_iter_rewind m iter = ⟨iter.head, NULL, l.headD NULL⟩ ∧
    (∀ k, nm_dedup_multi_iter_rewind m (iter_next_nth m k iter).2
      = nm_dedup_multi_iter_init m iter.head) ∧
    nm_dedup_multi_iter_rewind m (nm_dedup_multi_iter_rewind m iter)
      = nm_dedup_multi_iter_rewind m iter ∧
    (∀ fuel, l.length < fuel →
      iter_loop m fuel (nm_dedup_multi_iter_rewind m iter) = some l) := by
  refine ⟨rfl, iter_init_eq hl, ?_, rfl, ?_⟩
  · intro k
    unfold nm_dedup_multi_iter_rewind
    rw [iter_next_nth_head]
  · intro fuel hf
    unfold nm_dedup_multi_iter_rewind
    rw [iter_init_eq hl]
    exact iter_loop_eq l iter.head NULL fuel hl.2.2.2
      (fun hc => (List.nodup_cons.1 hl.2.2.1).1 hc) hl.2.1 hf

/-- Witness of C12: rewinding the iterator of the example head after two
calls of next. -/
theorem iter_rewind_restarts_witness :
    IsHeadList mem_example 10 [20, 30, 40] ∧
      nm_dedup_multi_iter_rewind mem_example
          (iter_next_nth mem_example 2 (nm_dedup_multi_iter_init mem_example 10)).2
        = ⟨10, NULL, 20⟩ ∧
      iter_loop mem_example 4
          (nm_dedup_multi_iter_rewind mem_example
            (iter_next_nth mem_example 2 (nm_dedup_multi_iter_init mem_example 10)).2)
        = some [20, 30, 40] :=
  ⟨by decide,
    (iter_rewind_restarts mem_example
      (iter_next_nth mem_example 2 (nm_dedup_multi_iter_init mem_example 10)).2
      [20, 30, 40] (by decide)).2.1,
    (iter_rewind_restarts mem_example
      (iter_next_nth mem_example 2 (nm_dedup_multi_iter_init mem_example 10)).2
      [20, 30, 40] (by decide)).2.2.2.2 4 (by decide)⟩

/-- C13: for a class without `idx_obj_partition_equal`,
`nm_dedup_multi_idx_type_partition_equal` returns TRUE for all records,
whatever their partition hashes; every non-empty head then is the head of
every record, the single implicit partition. -/
theorem partition_equal_without_partitioning {α : Type} [DecidableEq α]
    (klass : NMDedupMultiIdxTypeClass α) (hk : klass.idx_obj_partition_equal = none) :
    (∀ a b : α, nm_dedup_multi_idx_type_partition_equal klass a b = true) ∧
    (∀ (obj : α) (e : MemberEntry α) (t : List (MemberEntry α)) (n : Nat),
      head_matches klass obj ⟨e :: t, n⟩ = true) := by
  have h1 : ∀ a b : α, nm_dedup_multi_idx_type_partition_equal klass a b = true := by
    intro a b
    unfold nm_dedup_multi_idx_type_partition_equal
    rw [hk]
  exact ⟨h1, fun obj e t n => h1 e.obj obj⟩

/-- Witness of C13: the example class without partitioning, an odd and an even
record. -/
theorem partition_equal_without_partitioning_witness :
    nm_dedup_multi_idx_type_partition_equal rec_idx_class_flat
      (⟨1, 1, "a"⟩ : Rec) ⟨2, 2, "b"⟩ = true :=
  (partition_equal_without_partitioning rec_idx_class_flat rfl).1 ⟨1, 1, "a"⟩ ⟨2, 2, "b"⟩

/-- C14: identity equality refines partition equality.  If for the callbacks of
the class `idx_obj_id_equal (a, b)` implies `idx_obj_partition_equal (a, b)`
(a condition that is void when the class omits partitioning), then
`nm_dedup_multi_idx_type_id_equal` implies
`nm_dedup_multi_idx_type_partition_equal`. -/
theorem id_equal_refines_partition_equal {α : Type} [DecidableEq α]
    (klass : NMDedupMultiIdxTypeClass α)
    (href : ∀ f, klass.idx_obj_partition_equal = some f →
      ∀ a b : α, klass.idx_obj_id_equal a b = true → f a b = true)
    (a b : α) (hid : nm_dedup_multi_idx_type_id_equal klass a b = true) :
    nm_dedup_multi_idx_type_partition_equal klass a b = true := by
  unfold nm_dedup_multi_idx_type_partition_equal
  unfold nm_dedup_multi_idx_type_id_equal at hid
  cases hp : klass.idx_obj_partition_equal with
  | none => rfl
  | some f =>
    simp only [Bool.or_eq_true, decide_eq_true_eq] at hid ⊢
    rcases hid with h | h
    · exact Or.inl h
    · exact Or.inr (href f hp a b h)

/-- Witness of C14: in the example class equal ids have equal parity. -/
theorem id_equal_refines_partition_equal_witness :
    nm_dedup_multi_idx_type_partition_equal rec_idx_class
      (⟨1, 3, "a"⟩ : Rec) ⟨2, 3, "b"⟩ = true :=
  id_equal_refines_partition_equal rec_idx_class
    (by
      intro f hf a b hab
      have hf1 : f = fun a b => decide (a.id % 2 = b.id % 2) :=
        (Option.some.inj hf).symm
      subst hf1
      simp only [rec_idx_class, decide_eq_true_eq] at hab ⊢
      rw [hab])
    ⟨1, 3, "a"⟩ ⟨2, 3, "b"⟩ (by decide)

theorem Cell.lst_set_dirty (c : Cell) (d : Bool) : (c.set_dirty d).lst = c.lst := by
  cases c <;> rfl

/-- Setting the dirty flag leaves every list node as it is. -/
theorem set_dirty_lst (m : Mem) (entry : Ptr) (dirty : Int) (q : Ptr) :
    (nm_dedup_multi_entry_set_dirty m entry dirty).lst q = m.lst q := by
  unfold nm_dedup_multi_entry_set_dirty Mem.lst
  by_cases h : q = entry
  · subst h; simp [Cell.lst_set_dirty]
  · simp [Function.update_noteq h]

/-- Memories with the same list nodes have the same heads. -/
theorem IsHeadList.congr {m m1 : Mem} (h : ∀ q, m1.lst q = m.lst q) {head : Ptr}
    {l : List Ptr} (hl : IsHeadList m head l) : IsHeadList m1 head l :=
  ⟨hl.1, hl.2.1, hl.2.2.1,
    IsSeg.frame hl.2.2.2 (fun r _ => by rw [h r]) (fun r _ => by rw [h r])⟩

/-- C15: `nm_dedup_multi_entry_set_dirty (e, d)` on a member entry sets
`e.dirty` to TRUE iff `d` is non-zero and leaves `obj`, `head`, `is_head` and
the list links of `e` as they are, as well as every other cell; so every head
keeps its member list (membership and positions), and every id-equality or
partition-equality test on the record of `e` gives what it gave. -/
theorem entry_set_dirty_only_dirty (m : Mem) (entry : Ptr) (e : NMDedupMultiEntry)
    (dirty : Int) (he : m entry = Cell.entry e) :
    (∃ e1 : NMDedupMultiEntry,
      nm_dedup_multi_entry_set_dirty m entry dirty entry = Cell.entry e1 ∧
      (e1.dirty = true ↔ dirty ≠ 0) ∧
      e1.obj = e.obj ∧ e1.head = e.head ∧ e1.is_head = e.is_head ∧
      e1.lst_entries = e.lst_entries ∧
      (∀ (klass : NMDedupMultiIdxTypeClass Ptr) (x : Ptr),
        nm_dedup_multi_idx_type_id_equal klass e1.obj x
          = nm_dedup_multi_idx_type_id_equal klass e.obj x ∧
        nm_dedup_multi_idx_type_partition_equal klass e1.obj x
          = nm_dedup_multi_idx_type_partition_equal klass e.obj x)) ∧
    (∀ q, q ≠ entry → nm_dedup_multi_entry_set_dirty m entry dirty q = m q) ∧
    (∀ head l, IsHeadList (nm_dedup_multi_entry_set_dirty m entry dirty) head l
      ↔ IsHeadList m head l) := by
  refine ⟨⟨{ e with dirty := decide (dirty ≠ 0) }, ?_, ?_, rfl, rfl, rfl, rfl, ?_⟩, ?_, ?_⟩
  · unfold nm_dedup_multi_entry_set_dirty
    rw [Function.update_same, he]
    rfl
  · simp
  · intro klass x
    exact ⟨rfl, rfl⟩
  · intro q hq
    unfold nm_dedup_multi_entry_set_dirty
    exact Function.update_noteq hq _ _
  · intro head l
    constructor
    · exact IsHeadList.congr (fun q => (set_dirty_lst m entry dirty q).symm)
    · exact IsHeadList.congr (fun q => set_dirty_lst m entry dirty q)

/-- Witness of C15: the entry at address 30 of the example memory is dirty;
called with 0 the flag is cleared, called with 256 it is set, and the head
keeps its three members. -/
theorem entry_set_dirty_only_dirty_witness :
    nm_dedup_multi_entry_set_dirty mem_example 30 0 30
        = Cell.entry ⟨⟨40, 20⟩, 102, false, false, 10⟩ ∧
      nm_dedup_multi_entry_set_dirty mem_example 20 256 20
        = Cell.entry ⟨⟨30, 10⟩, 101, false, true, 10⟩ ∧
      IsHeadList (nm_dedup_multi_entry_set_dirty mem_example 30 0) 10 [20, 30, 40] :=
  ⟨by decide, by decide,
    ((entry_set_dirty_only_dirty mem_example 30 ⟨⟨40, 20⟩, 102, false, true, 10⟩ 0
      (by decide)).2.2 10 [20, 30, 40]).2 (by decide)⟩

/-! ## The counters and the heads under every public operation -/

theorem mem_replace_first {β : Type} {p : β → Bool} {b x : β} :
    ∀ {l : List β}, x ∈ replace_first p b l → x = b ∨ x ∈ l
  | [], h => by cases h
  | y :: t, h => by
    unfold replace_first at h
    by_cases hy : p y = true
    · rw [if_pos hy] at h
      rcases List.mem_cons.1 h with h1 | h1
      · exact Or.inl h1
      · exact Or.inr (List.mem_cons_of_mem _ h1)
    · rw [if_neg hy] at h
      rcases List.mem_cons.1 h with h1 | h1
      · exact Or.inr (h1 ▸ List.mem_cons_self _ _)
      · rcases mem_replace_first h1 with h2 | h2
        · exact Or.inl h2
        · exact Or.inr (List.mem_cons_of_mem _ h2)

theorem length_replace_first {β : Type} (p : β → Bool) (b : β) :
    ∀ (l : List β), (replace_first p b l).length = l.length
  | [] => rfl
  | y :: t => by
    unfold replace_first
    by_cases hy : p y = true
    · rw [if_pos hy]; rfl
    · rw [if_neg hy]
      simp [length_replace_first p b t]

theorem find_mem {β : Type} {p : β → Bool} {b : β} {l : List β} (h : l.find? p = some b) :
    b ∈ l := by
  obtain ⟨l1, l2, h1, _, _⟩ := find_split h
  rw [h1]; simp

/-- The number of members after an add: one more unless an id-equal member
was there. -/
theorem length_entries_add {α : Type} [DecidableEq α] (klass : NMDedupMultiIdxTypeClass α)
    (obj : α) (mode : NMDedupMultiIdxMode) (e : MemberEntry α) (l : List (MemberEntry α)) :
    (entries_add klass obj mode e l).length
      = if (l.find? (entry_matches klass obj)).isSome then l.length else l.length + 1 := by
  unfold entries_add
  cases hf : l.find? (entry_matches klass obj) with
  | none => cases mode <;> simp [entry_link]
  | some e1 =>
    obtain ⟨l1, l2, h1, h2, h3⟩ := find_split hf
    simp only
    rw [h1, eraseP_split h2 h3, replace_first_split h2 h3]
    cases mode <;> first | (simp [entry_link, mode_is_force]; done) | (simp [entry_link, mode_is_force]; omega)

/-- The counter of the instance after an accepted add. -/
theorem add_len {α : Type} [DecidableEq α] (oc : NMDedupMultiObjClass α)
    (self : NMDedupMultiIndex α) (idx_type : NMDedupMultiIdxType α) (obj : α)
    (mode : NMDedupMultiIdxMode) (hp : obj_partitionable idx_type.klass obj = true) :
    (nm_dedup_multi_index_add oc self idx_type obj mode).idx_type.len
      = match nm_dedup_multi_index_lookup_head idx_type obj with
        | none => idx_type.len + 1
        | some _ => idx_type.len := by
  unfold nm_dedup_multi_index_add
  rw [if_neg (by simp [hp])]
  simp only
  cases nm_dedup_multi_index_lookup_head idx_type obj with
  | none => rfl
  | some h =>
    simp only
    cases h.lst_entries_head.find? (entry_matches idx_type.klass obj) <;> rfl

/-- The counters and the non-empty heads are kept by
`nm_dedup_multi_index_add`. -/
theorem add_heads_ok {α : Type} [DecidableEq α] (oc : NMDedupMultiObjClass α)
    (self : NMDedupMultiIndex α) (idx_type : NMDedupMultiIdxType α) (obj : α)
    (mode : NMDedupMultiIdxMode) (hl : LenOk idx_type) (hn : HeadsNonempty idx_type) :
    LenOk (nm_dedup_multi_index_add oc self idx_type obj mode).idx_type ∧
      HeadsNonempty (nm_dedup_multi_index_add oc self idx_type obj mode).idx_type := by
  cases hp : obj_partitionable idx_type.klass obj with
  | false => rw [add_rejected oc self idx_type obj mode hp]; exact ⟨hl, hn⟩
  | true =>
    have hheads := add_heads oc self idx_type obj mode hp
    have hlen := add_len oc self idx_type obj mode hp
    unfold LenOk HeadsNonempty
    rw [hheads, hlen]
    cases hh : nm_dedup_multi_index_lookup_head idx_type obj with
    | none =>
      simp only
      refine ⟨⟨by simp [hl.1], ?_⟩, ?_⟩
      · intro g hg
        rcases List.mem_append.1 hg with h1 | h1
        · exact hl.2 g h1
        · simp only [List.mem_singleton] at h1
          rw [h1]; rfl
      · intro g hg
        rcases List.mem_append.1 hg with h1 | h1
        · exact hn g h1
        · simp only [List.mem_singleton] at h1
          rw [h1]; simp
    | some h =>
      simp only
      have hin : h ∈ idx_type.lst_idx_head := find_mem hh
      refine ⟨⟨by rw [length_replace_first]; exact hl.1, ?_⟩, ?_⟩
      · intro g hg
        rcases mem_replace_first hg with h1 | h1
        · rw [h1]
          simp only [length_entries_add, hl.2 h hin]
        · exact hl.2 g h1
      · intro g hg
        rcases mem_replace_first hg with h1 | h1
        · rw [h1]
          simp only
          exact List.ne_nil_of_mem (new_mem_entries_add _ _ _ _ _)
        · exact hn g h1

/-- The counters and the non-empty heads through the removal of an entry. -/
theorem heads_remove_entry_ok {α : Type} [DecidableEq α] (entry : MemberEntry α) :
    ∀ (l : List (HeadEntry α)),
      (∀ h ∈ l, h.len = h.lst_entries_head.length) →
      (∀ h ∈ l, h.lst_entries_head ≠ []) →
      (∀ h ∈ (heads_remove_entry entry l).1, h.len = h.lst_entries_head.length) ∧
      (∀ h ∈ (heads_remove_entry entry l).1, h.lst_entries_head ≠ []) ∧
      (heads_remove_entry entry l).1.length + (heads_remove_entry entry l).2.2 = l.length
  | [], _, _ => by simp [heads_remove_entry]
  | h :: t, hlen, hne => by
    unfold heads_remove_entry
    have hlt : ∀ g ∈ t, g.len = g.lst_entries_head.length :=
      fun g hg => hlen g (List.mem_cons_of_mem _ hg)
    have hnt : ∀ g ∈ t, g.lst_entries_head ≠ [] :=
      fun g hg => hne g (List.mem_cons_of_mem _ hg)
    by_cases h1 : entry ∈ h.lst_entries_head
    · rw [if_pos h1]
      by_cases h2 : (h.lst_entries_head.erase entry).isEmpty = true
      · rw [if_pos h2]
        exact ⟨hlt, hnt, rfl⟩
      · rw [if_neg h2]
        refine ⟨?_, ?_, rfl⟩
        · intro g hg
          rcases List.mem_cons.1 hg with h3 | h3
          · rw [h3]
            simp only
            rw [List.length_erase_of_mem h1, hlen h (List.mem_cons_self _ _)]
          · exact hlt g h3
        · intro g hg
          rcases List.mem_cons.1 hg with h3 | h3
          · rw [h3]
            simp only
            intro hc
            rw [hc] at h2
            exact h2 rfl
          · exact hnt g h3
    · rw [if_neg h1]
      obtain ⟨ih1, ih2, ih3⟩ := heads_remove_entry_ok entry t hlt hnt
      refine ⟨?_, ?_, ?_⟩
      · intro g hg
        rcases List.mem_cons.1 hg with h3 | h3
        · rw [h3]; exact hlen h (List.mem_cons_self _ _)
        · exact ih1 g h3
      · intro g hg
        rcases List.mem_cons.1 hg with h3 | h3
        · rw [h3]; exact hne h (List.mem_cons_self _ _)
        · exact ih2 g h3
      · simp only [List.length_cons]
        omega

theorem remove_entry_heads_ok {α : Type} [DecidableEq α] (idx_type : NMDedupMultiIdxType α)
    (entry : MemberEntry α) (hl : LenOk idx_type) (hn : HeadsNonempty idx_type) :
    LenOk (nm_dedup_multi_index_remove_entry idx_type entry).1 ∧
      HeadsNonempty (nm_dedup_multi_index_remove_entry idx_type entry).1 := by
  obtain ⟨h1, h2, h3⟩ := heads_remove_entry_ok entry idx_type.lst_idx_head hl.2 hn
  refine ⟨⟨?_, h1⟩, h2⟩
  show idx_type.len - (heads_remove_entry entry idx_type.lst_idx_head).2.2
    = (heads_remove_entry entry idx_type.lst_idx_head).1.length
  rw [hl.1]
  omega

theorem remove_obj_heads_ok {α : Type} [DecidableEq α] (idx_type : NMDedupMultiIdxType α)
    (obj : α) (hl : LenOk idx_type) (hn : HeadsNonempty idx_type) :
    LenOk (nm_dedup_multi_index_remove_obj idx_type obj).1 ∧
      HeadsNonempty (nm_dedup_multi_index_remove_obj idx_type obj).1 := by
  unfold nm_dedup_multi_index_remove_obj
  cases nm_dedup_multi_index_lookup_obj idx_type obj with
  | none => exact ⟨hl, hn⟩
  | some e => exact remove_entry_heads_ok idx_type e hl hn

theorem remove_head_heads_ok {α : Type} [DecidableEq α] (idx_type : NMDedupMultiIdxType α)
    (obj : α) (hl : LenOk idx_type) (hn : HeadsNonempty idx_type) :
    LenOk (nm_dedup_multi_index_remove_head idx_type obj).1 ∧
      HeadsNonempty (nm_dedup_multi_index_remove_head idx_type obj).1 := by
  unfold nm_dedup_multi_index_remove_head
  cases hh : nm_dedup_multi_index_lookup_head idx_type obj with
  | none => exact ⟨hl, hn⟩
  | some h =>
    obtain ⟨l1, l2, h1, h2, h3⟩ := find_split hh
    refine ⟨⟨?_, ?_⟩, ?_⟩
    · show idx_type.len - 1 = (idx_type.lst_idx_head.eraseP _).length
      rw [hl.1, h1, eraseP_split h2 h3]
      simp
    · intro g hg
      exact hl.2 g (List.mem_of_mem_eraseP hg)
    · intro g hg
      exact hn g (List.mem_of_mem_eraseP hg)

theorem remove_idx_heads_ok {α : Type} (idx_type : NMDedupMultiIdxType α) :
    LenOk (nm_dedup_multi_index_remove_idx idx_type).1 ∧
      HeadsNonempty (nm_dedup_multi_index_remove_idx idx_type).1 := by
  refine ⟨⟨rfl, ?_⟩, ?_⟩
  · intro g hg; cases hg
  · intro g hg; cases hg

/-- The clean and the dirty members of a list add up to the list. -/
theorem length_filter_dirty {α : Type} :
    ∀ (l : List (MemberEntry α)),
      (l.filter (fun e => !e.dirty)).length + (l.filter (fun e => e.dirty)).length = l.length
  | [] => rfl
  | e :: t => by
    have ih := length_filter_dirty t
    cases hd : e.dirty <;> simp [List.filter_cons, hd] <;> omega

/-- A head that survives the sweep: its members are the clean members from
before, marked as asked, and its counter went down by the dirty ones. -/
theorem head_dirty_remove_some {α : Type} {b : Bool} {h g : HeadEntry α}
    (hg : head_dirty_remove b h = some g) :
    h.lst_entries_head.filter (fun e => !e.dirty) ≠ [] ∧
    g.lst_entries_head = (h.lst_entries_head.filter (fun e => !e.dirty)).map
      (fun e => { e with dirty := b }) ∧
    g.len = h.len - (h.lst_entries_head.filter (fun e => e.dirty)).length := by
  unfold head_dirty_remove at hg
  by_cases hc : (h.lst_entries_head.filter (fun e => !e.dirty)).isEmpty = true
  · rw [if_pos hc] at hg; cases hg
  · rw [if_neg hc] at hg
    cases hg
    refine ⟨?_, rfl, rfl⟩
    intro h0
    rw [h0] at hc
    exact hc rfl

theorem dirty_remove_idx_heads_ok {α : Type} (idx_type : NMDedupMultiIdxType α) (b : Bool)
    (hl : LenOk idx_type) :
    LenOk (nm_dedup_multi_index_dirty_remove_idx idx_type b).1 ∧
      HeadsNonempty (nm_dedup_multi_index_dirty_remove_idx idx_type b).1 := by
  refine ⟨⟨?_, ?_⟩, ?_⟩
  · show idx_type.len - (idx_type.lst_idx_head.length
        - (idx_type.lst_idx_head.filterMap (head_dirty_remove b)).length)
      = (idx_type.lst_idx_head.filterMap (head_dirty_remove b)).length
    have := List.length_filterMap_le (head_dirty_remove b) idx_type.lst_idx_head
    rw [hl.1]
    omega
  · intro g hg
    obtain ⟨h, hh, hgh⟩ := List.mem_filterMap.1 hg
    obtain ⟨_, h2, h3⟩ := head_dirty_remove_some hgh
    rw [h2, h3, hl.2 h hh, List.length_map]
    have := length_filter_dirty h.lst_entries_head
    omega
  · intro g hg
    obtain ⟨h, hh, hgh⟩ := List.mem_filterMap.1 hg
    obtain ⟨h1, h2, _⟩ := head_dirty_remove_some hgh
    rw [h2]
    intro hc
    exact h1 (List.map_eq_nil_iff.1 hc)

theorem dirty_set_idx_heads_ok {α : Type} (idx_type : NMDedupMultiIdxType α)
    (hl : LenOk idx_type) (hn : HeadsNonempty idx_type) :
    LenOk (nm_dedup_multi_index_dirty_set_idx idx_type) ∧
      HeadsNonempty (nm_dedup_multi_index_dirty_set_idx idx_type) := by
  refine ⟨⟨?_, ?_⟩, ?_⟩
  · show idx_type.len = (idx_type.lst_idx_head.map head_set_dirty).length
    rw [List.length_map]; exact hl.1
  · intro g hg
    obtain ⟨h, hh, rfl⟩ := List.mem_map.1 hg
    simp only [head_set_dirty, List.length_map]
    exact hl.2 h hh
  · intro g hg
    obtain ⟨h, hh, rfl⟩ := List.mem_map.1 hg
    simp only [head_set_dirty]
    intro hc
    exact hn h hh (List.map_eq_nil_iff.1 hc)

theorem dirty_set_head_heads_ok {α : Type} [DecidableEq α] (idx_type : NMDedupMultiIdxType α)
    (obj : α) (hl : LenOk idx_type) (hn : HeadsNonempty idx_type) :
    LenOk (nm_dedup_multi_index_dirty_set_head idx_type obj) ∧
      HeadsNonempty (nm_dedup_multi_index_dirty_set_head idx_type obj) := by
  unfold nm_dedup_multi_index_dirty_set_head
  cases hh : nm_dedup_multi_index_lookup_head idx_type obj with
  | none => exact ⟨hl, hn⟩
  | some h =>
    have hin : h ∈ idx_type.lst_idx_head := find_mem hh
    refine ⟨⟨?_, ?_⟩, ?_⟩
    · show idx_type.len = (replace_first _ _ idx_type.lst_idx_head).length
      rw [length_replace_first]; exact hl.1
    · intro g hg
      rcases mem_replace_first hg with h1 | h1
      · rw [h1]
        simp only [head_set_dirty, List.length_map]
        exact hl.2 h hin
      · exact hl.2 g h1
    · intro g hg
      rcases mem_replace_first hg with h1 | h1
      · rw [h1]
        simp only [head_set_dirty]
        intro hc
        exact hn h hin (List.map_eq_nil_iff.1 hc)
      · exact hn g h1

/-- One public operation keeps the counters right and the heads non-empty. -/
theorem public_apply_heads_ok {α : Type} [DecidableEq α] (oc : NMDedupMultiObjClass α)
    (st : NMDedupMultiIndex α × NMDedupMultiIdxType α) (op : PublicOp α)
    (hl : LenOk st.2) (hn : HeadsNonempty st.2) :
    LenOk (PublicOp.apply oc st op).2 ∧ HeadsNonempty (PublicOp.apply oc st op).2 := by
  cases op with
  | op o =>
    cases o with
    | add obj mode => exact add_heads_ok oc st.1 st.2 obj mode hl hn
    | remove_entry e => exact remove_entry_heads_ok st.2 e hl hn
    | remove_obj obj => exact remove_obj_heads_ok st.2 obj hl hn
    | remove_head obj => exact remove_head_heads_ok st.2 obj hl hn
    | remove_idx => exact remove_idx_heads_ok st.2
  | dirty_set_head obj => exact dirty_set_head_heads_ok st.2 obj hl hn
  | dirty_set_idx => exact dirty_set_idx_heads_ok st.2 hl hn
  | dirty_remove_idx b => exact dirty_remove_idx_heads_ok st.2 b hl

/-- A sequence of public operations keeps the counters right and the heads
non-empty. -/
theorem run_public_heads_ok {α : Type} [DecidableEq α] (oc : NMDedupMultiObjClass α)
    (ops : List (PublicOp α)) :
    ∀ (st : NMDedupMultiIndex α × NMDedupMultiIdxType α), LenOk st.2 → HeadsNonempty st.2 →
      LenOk (run_public oc st ops).2 ∧ HeadsNonempty (run_public oc st ops).2 := by
  induction ops with
  | nil => intro st hl hn; exact ⟨hl, hn⟩
  | cons op t ih =>
    intro st hl hn
    obtain ⟨h1, h2⟩ := public_apply_heads_ok oc st op hl hn
    exact ih (PublicOp.apply oc st op) h1 h2

theorem init_heads_ok {α : Type} (klass : NMDedupMultiIdxTypeClass α) :
    LenOk (nm_dedup_multi_idx_type_init klass) ∧
      HeadsNonempty (nm_dedup_multi_idx_type_init klass) := by
  refine ⟨⟨rfl, ?_⟩, ?_⟩
  · intro g hg; cases hg
  · intro g hg; cases hg

/-! ## The invariant under the dirty-sweep operations -/

/-- The invariant of an instance only reads the records of its heads. -/
theorem inv_same_objs {α : Type} [DecidableEq α] (klass : NMDedupMultiIdxTypeClass α)
    {l1 l2 : List (HeadEntry α)} (n n1 : Nat) (hobjs : heads_objs l1 = heads_objs l2)
    (hinv : IdxInv ⟨klass, l2, n⟩) : IdxInv ⟨klass, l1, n1⟩ := by
  obtain ⟨hU, hP, hD⟩ := hinv
  unfold IdUnique at hU
  unfold PartitionRefined at hP
  unfold HeadsDistinct at hD
  simp only at hU hP hD
  have hfrom : ∀ g ∈ l1, ∃ g2 ∈ l2,
      g.lst_entries_head.map (fun e => e.obj) = g2.lst_entries_head.map (fun e => e.obj) := by
    intro g hg
    have : g.lst_entries_head.map (fun e => e.obj) ∈ heads_objs l1 :=
      List.mem_map.2 ⟨g, hg, rfl⟩
    rw [hobjs] at this
    obtain ⟨g2, h1, h2⟩ := List.mem_map.1 this
    exact ⟨g2, h1, h2.symm⟩
  refine ⟨?_, ?_, ?_⟩
  · intro g hg
    obtain ⟨g2, h1, h2⟩ := hfrom g hg
    have h3 := hU g2 h1
    have h4 : (g2.lst_entries_head.map (fun e => e.obj)).Pairwise
        (fun a b => nm_dedup_multi_idx_type_id_equal klass a b = false) :=
      List.pairwise_map.2 h3
    rw [← h2] at h4
    exact List.pairwise_map.1 h4
  · intro g hg a ha b hb
    obtain ⟨g2, h1, h2⟩ := hfrom g hg
    have ha1 : a.obj ∈ g2.lst_entries_head.map (fun e => e.obj) :=
      h2 ▸ List.mem_map.2 ⟨a, ha, rfl⟩
    have hb1 : b.obj ∈ g2.lst_entries_head.map (fun e => e.obj) :=
      h2 ▸ List.mem_map.2 ⟨b, hb, rfl⟩
    obtain ⟨a2, ha2, ha3⟩ := List.mem_map.1 ha1
    obtain ⟨b2, hb2, hb3⟩ := List.mem_map.1 hb1
    rw [← ha3, ← hb3]
    exact hP g2 h1 a2 ha2 b2 hb2
  · show l1.Pairwise _
    have h4 : (heads_objs l2).Pairwise (fun x y => ∀ a ∈ x, ∀ b ∈ y,
        nm_dedup_multi_idx_type_partition_equal klass a b = false) := by
      unfold heads_objs
      rw [List.pairwise_map]
      refine List.Pairwise.imp ?_ hD
      intro h1 h2 h12 a ha b hb
      obtain ⟨a2, ha2, ha3⟩ := List.mem_map.1 ha
      obtain ⟨b2, hb2, hb3⟩ := List.mem_map.1 hb
      rw [← ha3, ← hb3]
      exact h12 a2 ha2 b2 hb2
    rw [← hobjs] at h4
    unfold heads_objs at h4
    rw [List.pairwise_map] at h4
    refine List.Pairwise.imp ?_ h4
    intro h1 h2 h12 a ha b hb
    exact h12 a.obj (List.mem_map.2 ⟨a, ha, rfl⟩) b.obj (List.mem_map.2 ⟨b, hb, rfl⟩)

theorem head_set_dirty_objs {α : Type} (h : HeadEntry α) :
    (head_set_dirty h).lst_entries_head.map (fun e => e.obj)
      = h.lst_entries_head.map (fun e => e.obj) := by
  simp [head_set_dirty, List.map_map, Function.comp_def]

theorem dirty_set_idx_inv {α : Type} [DecidableEq α] (idx_type : NMDedupMultiIdxType α)
    (hinv : IdxInv idx_type) : IdxInv (nm_dedup_multi_index_dirty_set_idx idx_type) := by
  refine inv_same_objs idx_type.klass idx_type.len idx_type.len ?_ hinv
  unfold heads_objs
  rw [List.map_map]
  apply List.map_congr_left
  intro h _
  exact head_set_dirty_objs h

theorem dirty_set_head_inv {α : Type} [DecidableEq α] (idx_type : NMDedupMultiIdxType α)
    (obj : α) (hinv : IdxInv idx_type) :
    IdxInv (nm_dedup_multi_index_dirty_set_head idx_type obj) := by
  unfold nm_dedup_multi_index_dirty_set_head
  cases hh : nm_dedup_multi_index_lookup_head idx_type obj with
  | none => exact hinv
  | some h =>
    obtain ⟨l1, l2, h1, h2, h3⟩ := find_split hh
    refine inv_same_objs idx_type.klass idx_type.len idx_type.len ?_ hinv
    rw [h1, replace_first_split h2 h3]
    unfold heads_objs
    simp [head_set_dirty_objs]

/-- The sweep drops heads and members, and then only rewrites dirty flags. -/
theorem dirty_remove_sub {α : Type} (b : Bool) :
    ∀ (l : List (HeadEntry α)), ∃ l1, SubHeads l1 l ∧
      heads_objs (l.filterMap (head_dirty_remove b)) = heads_objs l1
  | [] => ⟨[], SubHeads.nil, rfl⟩
  | h :: t => by
    obtain ⟨t1, ht1, ht2⟩ := dirty_remove_sub b t
    cases hg : head_dirty_remove b h with
    | none =>
      refine ⟨t1, SubHeads.drop h ht1, ?_⟩
      rw [List.filterMap_cons_none hg]
      exact ht2
    | some g =>
      obtain ⟨_, h2, _⟩ := head_dirty_remove_some hg
      refine ⟨⟨h.lst_entries_head.filter (fun e => !e.dirty), 0⟩ :: t1,
        SubHeads.keep (List.filter_sublist _) ht1, ?_⟩
      rw [List.filterMap_cons_some hg]
      unfold heads_objs at ht2 ⊢
      simp only [List.map_cons, ht2, h2, List.map_map, Function.comp_def]

theorem dirty_remove_idx_inv {α : Type} [DecidableEq α] (idx_type : NMDedupMultiIdxType α)
    (b : Bool) (hinv : IdxInv idx_type) :
    IdxInv (nm_dedup_multi_index_dirty_remove_idx idx_type b).1 := by
  obtain ⟨l1, h1, h2⟩ := dirty_remove_sub b idx_type.lst_idx_head
  exact inv_same_objs idx_type.klass 0 _ h2 (inv_subheads idx_type.klass idx_type.len 0 h1 hinv)

theorem dirty_set_head_klass {α : Type} [DecidableEq α] (idx_type : NMDedupMultiIdxType α)
    (obj : α) : (nm_dedup_multi_index_dirty_set_head idx_type obj).klass = idx_type.klass := by
  unfold nm_dedup_multi_index_dirty_set_head
  cases nm_dedup_multi_index_lookup_head idx_type obj <;> rfl

/-- One public operation keeps the class and the invariant of the instance. -/
theorem public_apply_inv {α : Type} [DecidableEq α] {oc : NMDedupMultiObjClass α}
    (ho : ObjLaws oc) (st : NMDedupMultiIndex α × NMDedupMultiIdxType α) (op : PublicOp α)
    (hi : IdxLaws oc st.2.klass) (hinv : IdxInv st.2) :
    (PublicOp.apply oc st op).2.klass = st.2.klass ∧ IdxInv (PublicOp.apply oc st op).2 := by
  cases op with
  | op o => exact apply_inv ho st o hi hinv
  | dirty_set_head obj => exact ⟨dirty_set_head_klass st.2 obj, dirty_set_head_inv st.2 obj hinv⟩
  | dirty_set_idx => exact ⟨rfl, dirty_set_idx_inv st.2 hinv⟩
  | dirty_remove_idx b => exact ⟨rfl, dirty_remove_idx_inv st.2 b hinv⟩

/-- A sequence of public operations keeps the class and the invariant. -/
theorem run_public_inv {α : Type} [DecidableEq α] {oc : NMDedupMultiObjClass α}
    (ho : ObjLaws oc) (ops : List (PublicOp α)) :
    ∀ (st : NMDedupMultiIndex α × NMDedupMultiIdxType α), IdxLaws oc st.2.klass → IdxInv st.2 →
      (run_public oc st ops).2.klass = st.2.klass ∧ IdxInv (run_public oc st ops).2 := by
  induction ops with
  | nil => intro st _ hinv; exact ⟨rfl, hinv⟩
  | cons op t ih =>
    intro st hi hinv
    obtain ⟨h1, h2⟩ := public_apply_inv ho st op hi hinv
    have := ih (PublicOp.apply oc st op) (h1 ▸ hi) h2
    exact ⟨this.1.trans h1, this.2⟩

/-! ## Lookups in a well-formed instance -/

/-- In a well-formed instance at most one head matches a record: the heads
around the head of its partition do not match it. -/
theorem head_match_unique {α : Type} [DecidableEq α] {oc : NMDedupMultiObjClass α}
    {klass : NMDedupMultiIdxTypeClass α} (hi : IdxLaws oc klass) (obj : α)
    {hs1 hs2 : List (HeadEntry α)} {h : HeadEntry α} {n : Nat}
    (hinv : IdxInv ⟨klass, hs1 ++ h :: hs2, n⟩) (hm : head_matches klass obj h = true) :
    ∀ g ∈ hs1 ++ hs2, head_matches klass obj g = false := by
  obtain ⟨_, _, hD⟩ := hinv
  unfold HeadsDistinct at hD
  simp only at hD
  obtain ⟨f, t, hft, hf⟩ := head_matches_nonempty hm
  have hfin : f ∈ h.lst_entries_head := by rw [hft]; exact List.mem_cons_self _ _
  obtain ⟨hd1, hd2, hd12⟩ := List.pairwise_append.1 hD
  intro g hg
  cases hgm : head_matches klass obj g with
  | false => rfl
  | true =>
    obtain ⟨f2, t2, hft2, hf2⟩ := head_matches_nonempty hgm
    have hf2in : f2 ∈ g.lst_entries_head := by rw [hft2]; exact List.mem_cons_self _ _
    have hpe := part_of_common hi hf2 hf
    rcases List.mem_append.1 hg with h1 | h1
    · have := hd12 g h1 h (List.mem_cons_self _ _) f2 hf2in f hfin
      rw [hpe] at this
      cases this
    · have := (List.pairwise_cons.1 hd2).1 g h1 f hfin f2 hf2in
      rw [hi.part_symm _ _ hpe] at this
      cases this

/-- In a well-formed instance the head lookup finds any head that matches the
record, wherever it stands. -/
theorem lookup_head_of_mem {α : Type} [DecidableEq α] {oc : NMDedupMultiObjClass α}
    (idx_type : NMDedupMultiIdxType α) (hi : IdxLaws oc idx_type.klass) (obj : α)
    (hinv : IdxInv idx_type) (h : HeadEntry α) (hin : h ∈ idx_type.lst_idx_head)
    (hm : head_matches idx_type.klass obj h = true) :
    nm_dedup_multi_index_lookup_head idx_type obj = some h := by
  obtain ⟨hs1, hs2, hsplit⟩ := List.append_of_mem hin
  have hinv1 : IdxInv ⟨idx_type.klass, hs1 ++ h :: hs2, idx_type.len⟩ :=
    idxinv_congr idx_type _ rfl hsplit hinv
  have hu := head_match_unique hi obj hinv1 hm
  unfold nm_dedup_multi_index_lookup_head
  rw [hsplit]
  exact find_of_split hm (fun x hx => hu x (List.mem_append_left _ hx))

/-- A record without a head: no head matches it. -/
theorem lookup_head_none {α : Type} [DecidableEq α] (idx_type : NMDedupMultiIdxType α)
    (obj : α) (h : ∀ g ∈ idx_type.lst_idx_head, head_matches idx_type.klass obj g = false) :
    nm_dedup_multi_index_lookup_head idx_type obj = none := by
  unfold nm_dedup_multi_index_lookup_head
  rw [List.find?_eq_none]
  intro g hg
  simp [h g hg]

/-! ## Lookup, empty heads, counters, the add/remove round trip -/

/-- C17: in a well-formed instance (identity-unique heads that stand for
different partitions, the invariant of every instance),
`nm_dedup_multi_index_lookup_obj` returns the member entry `e` exactly when
`e` is a member of a head of the instance, the record of `e` is
partition-equal to the record looked up (`e` is in its partition) and the
record of `e` is id-equal to it; it returns no entry exactly when no member
of the partition is id-equal to the record.  The call changes nothing: the
multi-index (its interning table) and the instance (its heads, their members
and dirty bits) are after the call what they were before. -/
theorem lookup_obj_finds_the_member {α : Type} [DecidableEq α] {oc : NMDedupMultiObjClass α}
    (self : NMDedupMultiIndex α) (idx_type : NMDedupMultiIdxType α)
    (hi : IdxLaws oc idx_type.klass) (hinv : IdxInv idx_type) (obj : α) :
    (∀ e, (nm_dedup_multi_index_lookup_obj_call self idx_type obj).entry = some e ↔
      ((∃ h ∈ idx_type.lst_idx_head, e ∈ h.lst_entries_head) ∧
        nm_dedup_multi_idx_type_partition_equal idx_type.klass e.obj obj = true ∧
        nm_dedup_multi_idx_type_id_equal idx_type.klass e.obj obj = true)) ∧
    ((nm_dedup_multi_index_lookup_obj_call self idx_type obj).entry = none ↔
      ∀ h ∈ idx_type.lst_idx_head, ∀ e ∈ h.lst_entries_head,
        nm_dedup_multi_idx_type_partition_equal idx_type.klass e.obj obj = true →
        nm_dedup_multi_idx_type_id_equal idx_type.klass e.obj obj = false) ∧
    (nm_dedup_multi_index_lookup_obj_call self idx_type obj).self = self ∧
    (nm_dedup_multi_index_lookup_obj_call self idx_type obj).idx_type = idx_type := by
  have hsome : ∀ e, nm_dedup_multi_index_lookup_obj idx_type obj = some e ↔
      ((∃ h ∈ idx_type.lst_idx_head, e ∈ h.lst_entries_head) ∧
        nm_dedup_multi_idx_type_partition_equal idx_type.klass e.obj obj = true ∧
        nm_dedup_multi_idx_type_id_equal idx_type.klass e.obj obj = true) := by
    intro e
    constructor
    · intro hl
      unfold nm_dedup_multi_index_lookup_obj at hl
      cases hh : nm_dedup_multi_index_lookup_head idx_type obj with
      | none =>
        rw [hh] at hl
        cases hl
      | some h =>
        rw [hh] at hl
        simp only at hl
        unfold nm_dedup_multi_index_lookup_head at hh
        obtain ⟨hs1, hs2, hsplit, hm, _⟩ := find_split hh
        obtain ⟨l1, l2, hlsplit, hid, _⟩ := find_split hl
        have hin : h ∈ idx_type.lst_idx_head := by rw [hsplit]; simp
        have he : e ∈ h.lst_entries_head := by rw [hlsplit]; simp
        exact ⟨⟨h, hin, he⟩, members_part_obj hi hm (hinv.2.1 h hin) e he, hid⟩
    · rintro ⟨⟨h, hin, he⟩, hpe, hid⟩
      have hm : head_matches idx_type.klass obj h = true := by
        unfold head_matches
        cases hl : h.lst_entries_head with
        | nil =>
          rw [hl] at he
          cases he
        | cons f t =>
          simp only
          have hf : f ∈ h.lst_entries_head := by rw [hl]; exact List.mem_cons_self _ _
          exact hi.part_trans _ _ _ (hinv.2.1 h hin f hf e he) hpe
      have hh := lookup_head_of_mem idx_type hi obj hinv h hin hm
      unfold nm_dedup_multi_index_lookup_obj
      rw [hh]
      exact (find_count_unique hi obj (hinv.1 h hin) he hid).1
  refine ⟨hsome, ?_, rfl, rfl⟩
  show nm_dedup_multi_index_lookup_obj idx_type obj = none ↔ _
  constructor
  · intro hn h hin e he hpe
    cases hid : nm_dedup_multi_idx_type_id_equal idx_type.klass e.obj obj with
    | false => rfl
    | true =>
      have := (hsome e).2 ⟨⟨h, hin, he⟩, hpe, hid⟩
      rw [hn] at this
      cases this
  · intro hall
    cases hl : nm_dedup_multi_index_lookup_obj idx_type obj with
    | none => rfl
    | some e =>
      obtain ⟨⟨h, hin, he⟩, hpe, hid⟩ := (hsome e).1 hl
      rw [hall h hin e he hpe] at hid
      cases hid

/-- Witness of C17: in the instance with two heads, looking up a record with
id 3 finds the entry of `{3, "c"}`, the second member of the second head; a
record with id 9 has no entry. -/
theorem lookup_obj_finds_the_member_witness :
    IdxInv idx_example_two_heads ∧
    (nm_dedup_multi_index_lookup_obj_call self_example idx_example_two_heads
      ⟨9, 3, "z"⟩).entry = some ⟨⟨3, 3, "c"⟩, true⟩ ∧
    (nm_dedup_multi_index_lookup_obj_call self_example idx_example_two_heads
      ⟨9, 9, "z"⟩).entry = none :=
  ⟨by decide,
    ((lookup_obj_finds_the_member self_example idx_example_two_heads rec_idx_laws (by decide)
      ⟨9, 3, "z"⟩).1 ⟨⟨3, 3, "c"⟩, true⟩).2
      ⟨⟨⟨[⟨⟨1, 1, "a"⟩, false⟩, ⟨⟨3, 3, "c"⟩, true⟩], 2⟩, by decide, by decide⟩,
        by decide, by decide⟩,
    (lookup_obj_finds_the_member self_example idx_example_two_heads rec_idx_laws (by decide)
      ⟨9, 9, "z"⟩).2.1.2 (by decide)⟩

/-- The removal of an entry that no head before `h` holds acts on `h`. -/
theorem heads_remove_entry_split {α : Type} [DecidableEq α] (entry : MemberEntry α)
    (h : HeadEntry α) (hs2 : List (HeadEntry α)) (hin : entry ∈ h.lst_entries_head) :
    ∀ (hs1 : List (HeadEntry α)), (∀ g ∈ hs1, entry ∉ g.lst_entries_head) →
      heads_remove_entry entry (hs1 ++ h :: hs2)
        = if (h.lst_entries_head.erase entry).isEmpty then (hs1 ++ hs2, 1, 1)
          else (hs1 ++ ⟨h.lst_entries_head.erase entry, h.len - 1⟩ :: hs2, 1, 0)
  | [], _ => by
    simp only [List.nil_append]
    unfold heads_remove_entry
    rw [if_pos hin]
  | g :: t, hg => by
    have ih := heads_remove_entry_split entry h hs2 hin t
      (fun x hx => hg x (List.mem_cons_of_mem _ hx))
    simp only [List.cons_append]
    unfold heads_remove_entry
    rw [if_neg (hg g (List.mem_cons_self _ _)), ih]
    split <;> rfl

/-- In a well-formed instance an entry of the head of the partition of `obj`
is in no other head. -/
theorem entry_not_in_other_head {α : Type} [DecidableEq α] {oc : NMDedupMultiObjClass α}
    {klass : NMDedupMultiIdxTypeClass α} (hi : IdxLaws oc klass) (obj : α)
    {hs1 hs2 : List (HeadEntry α)} {h : HeadEntry α} {n : Nat}
    (hinv : IdxInv ⟨klass, hs1 ++ h :: hs2, n⟩) (hm : head_matches klass obj h = true)
    (e : MemberEntry α)
    (he : nm_dedup_multi_idx_type_partition_equal klass e.obj obj = true) :
    ∀ g ∈ hs1 ++ hs2, e ∉ g.lst_entries_head := by
  intro g hg hc
  have hu := head_match_unique hi obj hinv hm g hg
  have hgin : g ∈ hs1 ++ h :: hs2 := by
    rcases List.mem_append.1 hg with h1 | h1
    · exact List.mem_append_left _ h1
    · exact List.mem_append_right _ (List.mem_cons_of_mem _ h1)
  have hP := hinv.2.1 g hgin
  unfold head_matches at hu
  cases hl : g.lst_entries_head with
  | nil => rw [hl] at hc; cases hc
  | cons f t =>
    rw [hl] at hu
    simp only at hu
    have := hi.part_trans _ _ _ (hP f (by rw [hl]; exact List.mem_cons_self _ _) e hc) he
    rw [hu] at this
    cases this

/-- C18: after every sequence of public operations on a fresh instance (add,
the four removals, the dirty marks, `dirty_remove_idx`) every head has at least
one member; and when the partition of a record has one member left, removing
it (by `remove_entry` or by `remove_obj` of its record) removes the head, so
that `nm_dedup_multi_index_lookup_head` finds no head for that partition. -/
theorem heads_never_empty {α : Type} [DecidableEq α] {oc : NMDedupMultiObjClass α}
    (ho : ObjLaws oc) (klass : NMDedupMultiIdxTypeClass α) (hi : IdxLaws oc klass)
    (self : NMDedupMultiIndex α) (ops : List (PublicOp α)) :
    HeadsNonempty (run_public oc (self, nm_dedup_multi_idx_type_init klass) ops).2 ∧
    ∀ (obj : α) (e : MemberEntry α),
      partition_members (run_public oc (self, nm_dedup_multi_idx_type_init klass) ops).2 obj
        = [e] →
      nm_dedup_multi_index_lookup_head
        (nm_dedup_multi_index_remove_entry
          (run_public oc (self, nm_dedup_multi_idx_type_init klass) ops).2 e).1 obj = none ∧
      nm_dedup_multi_index_lookup_head
        (nm_dedup_multi_index_remove_obj
          (run_public oc (self, nm_dedup_multi_idx_type_init klass) ops).2 e.obj).1 obj
        = none := by
  obtain ⟨hk, hinv⟩ := run_public_inv ho ops (self, nm_dedup_multi_idx_type_init klass) hi
    (init_inv klass)
  have hok := run_public_heads_ok oc ops (self, nm_dedup_multi_idx_type_init klass)
    (init_heads_ok klass).1 (init_heads_ok klass).2
  refine ⟨hok.2, ?_⟩
  generalize run_public oc (self, nm_dedup_multi_idx_type_init klass) ops = st at hk hinv
  obtain ⟨s, idx⟩ := st
  simp only at hk hinv ⊢
  have hi1 : IdxLaws oc idx.klass := by
    have : idx.klass = klass := hk
    rw [this]; exact hi
  intro obj e hmem
  -- the head of the partition
  have hlh : ∃ h, nm_dedup_multi_index_lookup_head idx obj = some h ∧
      h.lst_entries_head = [e] := by
    unfold partition_members at hmem
    cases hh : nm_dedup_multi_index_lookup_head idx obj with
    | none => rw [hh] at hmem; cases hmem
    | some h => rw [hh] at hmem; exact ⟨h, rfl, hmem⟩
  obtain ⟨h, hh, hhl⟩ := hlh
  have hh1 := hh
  unfold nm_dedup_multi_index_lookup_head at hh1
  obtain ⟨hs1, hs2, hsplit, hm, _⟩ := find_split hh1
  have hinv1 : IdxInv ⟨idx.klass, hs1 ++ h :: hs2, idx.len⟩ :=
    idxinv_congr idx _ rfl hsplit hinv
  have hein : e ∈ h.lst_entries_head := by rw [hhl]; exact List.mem_singleton_self e
  have hpe : nm_dedup_multi_idx_type_partition_equal idx.klass e.obj obj = true := by
    have := hm
    unfold head_matches at this
    rw [hhl] at this
    exact this
  have hnot := entry_not_in_other_head hi1 obj hinv1 hm e hpe
  have hrem : (nm_dedup_multi_index_remove_entry idx e).1.lst_idx_head = hs1 ++ hs2 := by
    show (heads_remove_entry e idx.lst_idx_head).1 = hs1 ++ hs2
    rw [hsplit, heads_remove_entry_split e h hs2 hein hs1
      (fun g hg => hnot g (List.mem_append_left _ hg)), hhl]
    simp
  have hnone : nm_dedup_multi_index_lookup_head (nm_dedup_multi_index_remove_entry idx e).1 obj
      = none := by
    apply lookup_head_none
    rw [hrem]
    exact head_match_unique hi1 obj hinv1 hm
  refine ⟨hnone, ?_⟩
  -- `remove_obj` of the record of `e` finds `e`
  have hme : head_matches idx.klass e.obj h = true := by
    unfold head_matches
    rw [hhl]
    exact partition_equal_refl _ _
  have hlh2 := lookup_head_of_mem idx hi1 e.obj hinv h (by rw [hsplit]; simp) hme
  have hlo : nm_dedup_multi_index_lookup_obj idx e.obj = some e := by
    unfold nm_dedup_multi_index_lookup_obj
    rw [hlh2]
    simp only
    rw [hhl]
    simp [entry_matches, id_equal_refl]
  unfold nm_dedup_multi_index_remove_obj
  rw [hlo]
  exact hnone

/-- Witness of C18: scenario 5 of §8 and then the removal of the record 2, the
only member of the even partition. -/
theorem heads_never_empty_witness :
    nm_dedup_multi_index_lookup_head
      (nm_dedup_multi_index_remove_obj
        (run_public rec_class
          (nm_dedup_multi_index_new, nm_dedup_multi_idx_type_init rec_idx_class)
          [PublicOp.op (Op.add ⟨1, 1, "a"⟩ NM_DEDUP_MULTI_IDX_MODE_APPEND),
           PublicOp.op (Op.add ⟨2, 2, "b"⟩ NM_DEDUP_MULTI_IDX_MODE_APPEND),
           PublicOp.op (Op.add ⟨3, 3, "c"⟩ NM_DEDUP_MULTI_IDX_MODE_APPEND)]).2
        ⟨2, 2, "b"⟩).1 ⟨9, 4, "z"⟩ = none :=
  ((heads_never_empty rec_obj_laws rec_idx_class rec_idx_laws nm_dedup_multi_index_new
    [PublicOp.op (Op.add ⟨1, 1, "a"⟩ NM_DEDUP_MULTI_IDX_MODE_APPEND),
     PublicOp.op (Op.add ⟨2, 2, "b"⟩ NM_DEDUP_MULTI_IDX_MODE_APPEND),
     PublicOp.op (Op.add ⟨3, 3, "c"⟩ NM_DEDUP_MULTI_IDX_MODE_APPEND)]).2
    ⟨9, 4, "z"⟩ ⟨⟨2, 2, "b"⟩, false⟩ (by decide)).2

/-- C19: after every sequence of public operations on a fresh instance the
counter `len` of each head equals the number of member entries linked in it,
and the counter `len` of the instance equals the number of its heads; an
iterator over a head laid out in memory (the chain of a head at `p` through
as many entries as the head has members) yields exactly `len` entries. -/
theorem counters_match_after_ops {α : Type} [DecidableEq α] (oc : NMDedupMultiObjClass α)
    (klass : NMDedupMultiIdxTypeClass α) (self : NMDedupMultiIndex α)
    (ops : List (PublicOp α)) :
    (run_public oc (self, nm_dedup_multi_idx_type_init klass) ops).2.len
      = (run_public oc (self, nm_dedup_multi_idx_type_init klass) ops).2.lst_idx_head.length ∧
    (∀ h ∈ (run_public oc (self, nm_dedup_multi_idx_type_init klass) ops).2.lst_idx_head,
      h.len = h.lst_entries_head.length ∧
      ∀ (m : Mem) (p : Ptr) (l : List Ptr), IsHeadList m p l →
        l.length = h.lst_entries_head.length →
        (nm_dedup_multi_iter_for_each m (h.len + 1) p).map List.length = some h.len) := by
  have hok := run_public_heads_ok oc ops (self, nm_dedup_multi_idx_type_init klass)
    (init_heads_ok klass).1 (init_heads_ok klass).2
  refine ⟨hok.1.1, ?_⟩
  intro h hh
  have hlen := hok.1.2 h hh
  refine ⟨hlen, ?_⟩
  intro m p l hl hll
  have hfuel : l.length < h.len + 1 := by omega
  have := iter_loop_eq l p NULL (h.len + 1) hl.2.2.2
    (fun hc => (List.nodup_cons.1 hl.2.2.1).1 hc) hl.2.1 hfuel
  unfold nm_dedup_multi_iter_for_each
  rw [iter_init_eq hl, this]
  simp only [Option.map_some']
  rw [hll, hlen]

/-- Witness of C19: the counters after scenario 5 of §8 and a sweep. -/
theorem counters_match_after_ops_witness :
    (run_public rec_class
        (nm_dedup_multi_index_new, nm_dedup_multi_idx_type_init rec_idx_class)
        [PublicOp.op (Op.add ⟨1, 1, "a"⟩ NM_DEDUP_MULTI_IDX_MODE_APPEND),
         PublicOp.op (Op.add ⟨2, 2, "b"⟩ NM_DEDUP_MULTI_IDX_MODE_APPEND),
         PublicOp.op (Op.add ⟨3, 3, "c"⟩ NM_DEDUP_MULTI_IDX_MODE_APPEND),
         PublicOp.dirty_set_head ⟨9, 2, "z"⟩,
         PublicOp.dirty_remove_idx true]).2.len
      = (run_public rec_class
        (nm_dedup_multi_index_new, nm_dedup_multi_idx_type_init rec_idx_class)
        [PublicOp.op (Op.add ⟨1, 1, "a"⟩ NM_DEDUP_MULTI_IDX_MODE_APPEND),
         PublicOp.op (Op.add ⟨2, 2, "b"⟩ NM_DEDUP_MULTI_IDX_MODE_APPEND),
         PublicOp.op (Op.add ⟨3, 3, "c"⟩ NM_DEDUP_MULTI_IDX_MODE_APPEND),
         PublicOp.dirty_set_head ⟨9, 2, "z"⟩,
         PublicOp.dirty_remove_idx true]).2.lst_idx_head.length :=
  (counters_match_after_ops rec_class rec_idx_class nm_dedup_multi_index_new
    [PublicOp.op (Op.add ⟨1, 1, "a"⟩ NM_DEDUP_MULTI_IDX_MODE_APPEND),
     PublicOp.op (Op.add ⟨2, 2, "b"⟩ NM_DEDUP_MULTI_IDX_MODE_APPEND),
     PublicOp.op (Op.add ⟨3, 3, "c"⟩ NM_DEDUP_MULTI_IDX_MODE_APPEND),
     PublicOp.dirty_set_head ⟨9, 2, "z"⟩,
     PublicOp.dirty_remove_idx true]).1

/-- Taking the linked entry out again gives the member list from before. -/
theorem erase_entry_link {α : Type} [DecidableEq α] (mode : NMDedupMultiIdxMode)
    (e : MemberEntry α) (l : List (MemberEntry α)) (he : e ∉ l) :
    (entry_link mode e l).erase e = l := by
  cases mode
  · simp [entry_link]
  · simp [entry_link]
  · simp only [entry_link]
    rw [List.erase_append_right _ he]
    simp
  · simp only [entry_link]
    rw [List.erase_append_right _ he]
    simp

/-- C20: add/remove round trip.  On a well-formed instance, for a
partitionable record with no id-equal entry in its partition,
`nm_dedup_multi_index_add` followed by `nm_dedup_multi_index_remove_obj` of the
same record removes one entry and gives back the instance as it was: the same
heads, the same members in the same order in every partition, the same
counters, hence the same results of every lookup. -/
theorem add_then_remove_obj_restores {α : Type} [DecidableEq α]
    {oc : NMDedupMultiObjClass α} (ho : ObjLaws oc) (self : NMDedupMultiIndex α)
    (idx_type : NMDedupMultiIdxType α) (hi : IdxLaws oc idx_type.klass) (obj : α)
    (mode : NMDedupMultiIdxMode) (hinv : IdxInv idx_type)
    (hp : obj_partitionable idx_type.klass obj = true)
    (hnew : nm_dedup_multi_index_lookup_obj idx_type obj = none) :
    nm_dedup_multi_index_remove_obj
        (nm_dedup_multi_index_add oc self idx_type obj mode).idx_type obj = (idx_type, 1) ∧
    (∀ r, nm_dedup_multi_index_lookup_obj
        (nm_dedup_multi_index_remove_obj
          (nm_dedup_multi_index_add oc self idx_type obj mode).idx_type obj).1 r
      = nm_dedup_multi_index_lookup_obj idx_type r) ∧
    (∀ r, nm_dedup_multi_index_lookup_head
        (nm_dedup_multi_index_remove_obj
          (nm_dedup_multi_index_add oc self idx_type obj mode).idx_type obj).1 r
      = nm_dedup_multi_index_lookup_head idx_type r) := by
  have hfull := intern_full_equal ho self obj
  have hcp := part_of_full hi hfull
  have hci := id_of_full hi hfull
  have hlook := (add_lookup_count ho self idx_type hi obj mode hinv hp).1
  have hheads := add_heads oc self idx_type obj mode hp
  have hlen := add_len oc self idx_type obj mode hp
  have hklass := add_klass oc self idx_type obj mode
  have key : nm_dedup_multi_index_remove_obj
      (nm_dedup_multi_index_add oc self idx_type obj mode).idx_type obj = (idx_type, 1) := by
    unfold nm_dedup_multi_index_remove_obj
    rw [hlook]
    simp only
    unfold nm_dedup_multi_index_remove_entry
    rw [hheads, hlen, hklass]
    have hnew1 := hnew
    unfold nm_dedup_multi_index_lookup_obj at hnew1
    unfold nm_dedup_multi_index_lookup_head at hnew1 ⊢
    cases hh : idx_type.lst_idx_head.find? (head_matches idx_type.klass obj) with
    | none =>
      simp only
      have hn := find_none hh
      -- the new entry is in no head from before
      have hnot : ∀ g ∈ idx_type.lst_idx_head,
          (⟨(nm_dedup_multi_index_obj_intern oc self obj).2, false⟩ : MemberEntry α)
            ∉ g.lst_entries_head := by
        intro g hg hc
        have hgn := hn g hg
        unfold head_matches at hgn
        cases hl : g.lst_entries_head with
        | nil => rw [hl] at hc; cases hc
        | cons f t =>
          rw [hl] at hgn
          simp only at hgn
          have := hi.part_trans _ _ _
            (hinv.2.1 g hg f (by rw [hl]; exact List.mem_cons_self _ _) _ hc) hcp
          rw [hgn] at this
          cases this
      rw [heads_remove_entry_split _
        (⟨[⟨(nm_dedup_multi_index_obj_intern oc self obj).2, false⟩], 1⟩ : HeadEntry α) []
        (List.mem_singleton_self _) idx_type.lst_idx_head hnot]
      simp
    | some h =>
      rw [hh] at hnew1
      simp only at hnew1 ⊢
      obtain ⟨hs1, hs2, hsplit, hm, hs1n⟩ := find_split hh
      have hinv1 : IdxInv ⟨idx_type.klass, hs1 ++ h :: hs2, idx_type.len⟩ :=
        idxinv_congr idx_type _ rfl hsplit hinv
      rw [hnew1]
      simp only [Option.isSome_none, Bool.false_eq_true, if_false]
      unfold entries_add
      rw [hnew1]
      simp only
      rw [hsplit, replace_first_split hm hs1n]
      have hnot := entry_not_in_other_head hi obj hinv1 hm
        ⟨(nm_dedup_multi_index_obj_intern oc self obj).2, false⟩ hcp
      have hnl : (⟨(nm_dedup_multi_index_obj_intern oc self obj).2, false⟩ : MemberEntry α)
          ∉ h.lst_entries_head := by
        intro hc
        have := find_none hnew1 _ hc
        unfold entry_matches at this
        simp only at this
        rw [hci] at this
        cases this
      have herase := erase_entry_link mode
        ⟨(nm_dedup_multi_index_obj_intern oc self obj).2, false⟩ h.lst_entries_head hnl
      obtain ⟨f, t, hft, _⟩ := head_matches_nonempty hm
      rw [heads_remove_entry_split _
        (⟨entry_link mode ⟨(nm_dedup_multi_index_obj_intern oc self obj).2, false⟩
            h.lst_entries_head, h.len + 1⟩ : HeadEntry α) hs2
        (by cases mode <;> simp [entry_link]) hs1
        (fun g hg => hnot g (List.mem_append_left _ hg))]
      rw [herase]
      have hne : ¬ (h.lst_entries_head.isEmpty = true) := by rw [hft]; simp
      rw [if_neg hne]
      simp only [Nat.add_sub_cancel, Nat.sub_zero]
      rw [← hsplit]
  refine ⟨key, ?_, ?_⟩
  · intro r; rw [key]
  · intro r; rw [key]

/-- Witness of C20: the record 7 added to the odd partition of the example and
removed again. -/
theorem add_then_remove_obj_restores_witness :
    (nm_dedup_multi_index_remove_obj
        (nm_dedup_multi_index_add rec_class self_example idx_example ⟨4, 7, "d"⟩
          NM_DEDUP_MULTI_IDX_MODE_APPEND).idx_type ⟨4, 7, "d"⟩).1.lst_idx_head
      = idx_example.lst_idx_head :=
  congrArg (fun r => r.1.lst_idx_head)
    (add_then_remove_obj_restores rec_obj_laws self_example idx_example rec_idx_laws
      ⟨4, 7, "d"⟩ NM_DEDUP_MULTI_IDX_MODE_APPEND (by decide) (by decide) (by decide)).1

/-! ## The dirty sweep -/

theorem mem_all_entries {α : Type} (idx_type : NMDedupMultiIdxType α) (e : MemberEntry α) :
    e ∈ all_entries idx_type ↔ ∃ h ∈ idx_type.lst_idx_head, e ∈ h.lst_entries_head := by
  unfold all_entries
  simp only [List.mem_flatten, List.mem_map]
  constructor
  · rintro ⟨l, ⟨h, hh, rfl⟩, he⟩
    exact ⟨h, hh, he⟩
  · rintro ⟨h, hh, he⟩
    exact ⟨_, ⟨h, hh, rfl⟩, he⟩

/-- A member from before the add is still a member, unless it is the id-equal
member the add rewrote. -/
theorem mem_entries_add_of_mem {α : Type} [DecidableEq α] (klass : NMDedupMultiIdxTypeClass α)
    (obj : α) (mode : NMDedupMultiIdxMode) (e : MemberEntry α) (l : List (MemberEntry α))
    (x : MemberEntry α) (hx : x ∈ l) :
    x ∈ entries_add klass obj mode e l ∨ l.find? (entry_matches klass obj) = some x := by
  unfold entries_add
  cases hf : l.find? (entry_matches klass obj) with
  | none =>
    left
    cases mode <;> simp [entry_link, hx]
  | some e1 =>
    obtain ⟨l1, l2, h1, h2, h3⟩ := find_split hf
    subst h1
    simp only
    rw [eraseP_split h2 h3, replace_first_split h2 h3]
    simp only [List.mem_append, List.mem_cons] at hx
    rcases hx with h4 | h4 | h4
    · left; cases mode <;> simp [entry_link, mode_is_force, h4]
    · right; rw [h4]
    · left; cases mode <;> simp [entry_link, mode_is_force, h4]

/-- The entries of the instance after an accepted add: the new entry, and
the entries from before except the one the lookup of the record found. -/
theorem all_entries_add {α : Type} [DecidableEq α] (oc : NMDedupMultiObjClass α)
    (self : NMDedupMultiIndex α) (idx_type : NMDedupMultiIdxType α) (obj : α)
    (mode : NMDedupMultiIdxMode) (hp : obj_partitionable idx_type.klass obj = true) :
    (⟨(nm_dedup_multi_index_obj_intern oc self obj).2, false⟩ : MemberEntry α)
        ∈ all_entries (nm_dedup_multi_index_add oc self idx_type obj mode).idx_type ∧
    (∀ e ∈ all_entries (nm_dedup_multi_index_add oc self idx_type obj mode).idx_type,
      e = ⟨(nm_dedup_multi_index_obj_intern oc self obj).2, false⟩ ∨
        e ∈ all_entries idx_type) ∧
    (∀ e ∈ all_entries idx_type,
      e ∈ all_entries (nm_dedup_multi_index_add oc self idx_type obj mode).idx_type ∨
        nm_dedup_multi_index_lookup_obj idx_type obj = some e) := by
  simp only [mem_all_entries]
  rw [add_heads oc self idx_type obj mode hp]
  unfold nm_dedup_multi_index_lookup_obj
  cases hh : nm_dedup_multi_index_lookup_head idx_type obj with
  | none =>
    simp only
    refine ⟨⟨_, List.mem_append_right _ (List.mem_singleton_self _), List.mem_singleton_self _⟩,
      ?_, ?_⟩
    · rintro e ⟨g, hg, he⟩
      rcases List.mem_append.1 hg with h1 | h1
      · exact Or.inr ⟨g, h1, he⟩
      · simp only [List.mem_singleton] at h1
        rw [h1] at he
        simp only [List.mem_singleton] at he
        exact Or.inl he
    · rintro e ⟨g, hg, he⟩
      exact Or.inl ⟨g, List.mem_append_left _ hg, he⟩
  | some h =>
    simp only
    have hh1 := hh
    unfold nm_dedup_multi_index_lookup_head at hh1
    obtain ⟨hs1, hs2, hsplit, hm, hs1n⟩ := find_split hh1
    rw [hsplit, replace_first_split hm hs1n]
    refine ⟨⟨_, List.mem_append_right _ (List.mem_cons_self _ _),
      new_mem_entries_add _ _ _ _ _⟩, ?_, ?_⟩
    · rintro e ⟨g, hg, he⟩
      simp only [List.mem_append, List.mem_cons] at hg
      rcases hg with h1 | h1 | h1
      · exact Or.inr ⟨g, by simp [h1], he⟩
      · rw [h1] at he
        rcases mem_entries_add _ _ _ _ _ e he with h2 | h2
        · exact Or.inl h2
        · exact Or.inr ⟨h, by simp, h2⟩
      · exact Or.inr ⟨g, by simp [h1], he⟩
    · rintro e ⟨g, hg, he⟩
      simp only [List.mem_append, List.mem_cons] at hg
      rcases hg with h1 | h1 | h1
      · exact Or.inl ⟨g, by simp [h1], he⟩
      · rw [h1] at he
        rcases mem_entries_add_of_mem idx_type.klass obj mode
          ⟨(nm_dedup_multi_index_obj_intern oc self obj).2, false⟩ _ e he with h2 | h2
        · exact Or.inl ⟨_, List.mem_append_right _ (List.mem_cons_self _ _), h2⟩
        · exact Or.inr h2
      · exact Or.inl ⟨g, by simp [h1], he⟩

/-- After `nm_dedup_multi_index_dirty_set_idx` every entry is dirty. -/
theorem dirty_set_idx_all_dirty {α : Type} (idx_type : NMDedupMultiIdxType α) :
    ∀ e ∈ all_entries (nm_dedup_multi_index_dirty_set_idx idx_type), e.dirty = true := by
  intro e he
  rw [mem_all_entries] at he
  obtain ⟨g, hg, he⟩ := he
  obtain ⟨h, _, rfl⟩ := List.mem_map.1 hg
  simp only [head_set_dirty] at he
  obtain ⟨x, _, rfl⟩ := List.mem_map.1 he
  rfl

/-- The entries after `nm_dedup_multi_index_dirty_remove_idx (idx, FALSE)` are
the clean entries from before. -/
theorem mem_all_entries_sweep {α : Type} (idx_type : NMDedupMultiIdxType α)
    (e : MemberEntry α) :
    e ∈ all_entries (nm_dedup_multi_index_dirty_remove_idx idx_type false).1 ↔
      (e ∈ all_entries idx_type ∧ e.dirty = false) := by
  simp only [mem_all_entries]
  have hmap : ∀ (l : List (MemberEntry α)),
      e ∈ (l.filter (fun x => !x.dirty)).map (fun x => { x with dirty := false }) ↔
        (e ∈ l ∧ e.dirty = false) := by
    intro l
    simp only [List.mem_map, List.mem_filter, Bool.not_eq_true']
    constructor
    · rintro ⟨x, ⟨hx, hxd⟩, rfl⟩
      have : ({ x with dirty := false } : MemberEntry α) = x := by
        cases x; simp only at hxd; subst hxd; rfl
      rw [this]
      exact ⟨hx, hxd⟩
    · rintro ⟨hx, hxd⟩
      refine ⟨e, ⟨hx, hxd⟩, ?_⟩
      cases e; simp only at hxd; subst hxd; rfl
  constructor
  · rintro ⟨g, hg, he⟩
    obtain ⟨h, hh, hgh⟩ := List.mem_filterMap.1 hg
    obtain ⟨_, h2, _⟩ := head_dirty_remove_some hgh
    rw [h2] at he
    obtain ⟨h3, h4⟩ := (hmap _).1 he
    exact ⟨⟨h, hh, h3⟩, h4⟩
  · rintro ⟨⟨h, hh, he⟩, hd⟩
    have hmem := (hmap h.lst_entries_head).2 ⟨he, hd⟩
    have hne : ¬ ((h.lst_entries_head.filter (fun x => !x.dirty)).isEmpty = true) := by
      intro hc
      rw [List.isEmpty_iff] at hc
      rw [hc] at hmem
      cases hmem
    refine ⟨⟨(h.lst_entries_head.filter (fun x => !x.dirty)).map
        (fun x => { x with dirty := false }),
      h.len - (h.lst_entries_head.filter (fun x => x.dirty)).length⟩,
      List.mem_filterMap.2 ⟨h, hh, ?_⟩, hmem⟩
    unfold head_dirty_remove
    rw [if_neg hne]

/-- The sweep leaves no empty head. -/
theorem dirty_remove_idx_nonempty {α : Type} (idx_type : NMDedupMultiIdxType α) (b : Bool) :
    HeadsNonempty (nm_dedup_multi_index_dirty_remove_idx idx_type b).1 := by
  intro g hg
  obtain ⟨h, hh, hgh⟩ := List.mem_filterMap.1 hg
  obtain ⟨h1, h2, _⟩ := head_dirty_remove_some hgh
  rw [h2]
  intro hc
  exact h1 (List.map_eq_nil_iff.1 hc)

/-- One re-add of the sweep: the clean entries are entries of re-added
records, and every re-added record has a clean entry of its identity in its
partition. -/
theorem readd_step {α : Type} [DecidableEq α] {oc : NMDedupMultiObjClass α}
    (ho : ObjLaws oc) (self : NMDedupMultiIndex α) (idx_type : NMDedupMultiIdxType α)
    (hi : IdxLaws oc idx_type.klass) (obj : α) (mode : NMDedupMultiIdxMode)
    (hinv : IdxInv idx_type) (hp : obj_partitionable idx_type.klass obj = true)
    (Q : α → Prop)
    (hJ : ∀ e ∈ all_entries idx_type, e.dirty = false →
      ∃ r, Q r ∧ oc.obj_full_equal r e.obj = true)
    (hK : ∀ r, Q r → ∃ e ∈ all_entries idx_type, e.dirty = false ∧
      nm_dedup_multi_idx_type_id_equal idx_type.klass e.obj r = true ∧
      nm_dedup_multi_idx_type_partition_equal idx_type.klass e.obj r = true) :
    (∀ e ∈ all_entries (nm_dedup_multi_index_add oc self idx_type obj mode).idx_type,
      e.dirty = false → ∃ r, (Q r ∨ r = obj) ∧ oc.obj_full_equal r e.obj = true) ∧
    (∀ r, (Q r ∨ r = obj) →
      ∃ e ∈ all_entries (nm_dedup_multi_index_add oc self idx_type obj mode).idx_type,
        e.dirty = false ∧
        nm_dedup_multi_idx_type_id_equal idx_type.klass e.obj r = true ∧
        nm_dedup_multi_idx_type_partition_equal idx_type.klass e.obj r = true) := by
  obtain ⟨hC, hA, hB⟩ := all_entries_add oc self idx_type obj mode hp
  have hfull := intern_full_equal ho self obj
  have hcp := part_of_full hi hfull
  have hci := id_of_full hi hfull
  constructor
  · intro e he hd
    rcases hA e he with h1 | h1
    · exact ⟨obj, Or.inr rfl, by rw [h1]; exact hfull⟩
    · obtain ⟨r, hr, hre⟩ := hJ e h1 hd
      exact ⟨r, Or.inl hr, hre⟩
  · intro r hr
    rcases hr with hr | hr
    · obtain ⟨e, he, hd, hid, hpe⟩ := hK r hr
      rcases hB e he with h1 | h1
      · exact ⟨e, h1, hd, hid, hpe⟩
      · -- the entry of `r` is the one the add rewrote
        rw [lookup_obj_eq] at h1
        obtain ⟨l1, l2, h2, h3, _⟩ := find_split h1
        have hem : e ∈ partition_members idx_type obj := by rw [h2]; simp
        have heo : nm_dedup_multi_idx_type_id_equal idx_type.klass e.obj obj = true := h3
        have hep := partition_members_part idx_type hi obj hinv.2.1 e hem
        refine ⟨_, hC, rfl, ?_, ?_⟩
        · exact hi.id_trans _ _ _ (hi.id_trans _ _ _ hci (hi.id_symm _ _ heo)) hid
        · exact hi.part_trans _ _ _ (hi.part_trans _ _ _ hcp (hi.part_symm _ _ hep)) hpe
    · subst hr
      exact ⟨_, hC, rfl, hci, hcp⟩

/-- The re-adds of the sweep, one after the other. -/
theorem readd_all {α : Type} [DecidableEq α] {oc : NMDedupMultiObjClass α}
    (ho : ObjLaws oc) (klass : NMDedupMultiIdxTypeClass α) (hi : IdxLaws oc klass) :
    ∀ (S : List (α × NMDedupMultiIdxMode))
      (st : NMDedupMultiIndex α × NMDedupMultiIdxType α) (Q : α → Prop),
      st.2.klass = klass → IdxInv st.2 →
      (∀ p ∈ S, obj_partitionable klass p.1 = true) →
      (∀ e ∈ all_entries st.2, e.dirty = false →
        ∃ r, Q r ∧ oc.obj_full_equal r e.obj = true) →
      (∀ r, Q r → ∃ e ∈ all_entries st.2, e.dirty = false ∧
        nm_dedup_multi_idx_type_id_equal klass e.obj r = true ∧
        nm_dedup_multi_idx_type_partition_equal klass e.obj r = true) →
      (∀ e ∈ all_entries (run_ops oc st (S.map (fun p => Op.add p.1 p.2))).2,
        e.dirty = false →
        ∃ r, (Q r ∨ ∃ p ∈ S, p.1 = r) ∧ oc.obj_full_equal r e.obj = true) ∧
      (∀ r, (Q r ∨ ∃ p ∈ S, p.1 = r) →
        ∃ e ∈ all_entries (run_ops oc st (S.map (fun p => Op.add p.1 p.2))).2,
          e.dirty = false ∧
          nm_dedup_multi_idx_type_id_equal klass e.obj r = true ∧
          nm_dedup_multi_idx_type_partition_equal klass e.obj r = true) := by
  intro S
  induction S with
  | nil =>
    intro st Q _ _ _ hJ hK
    constructor
    · intro e he hd
      obtain ⟨r, hr, hre⟩ := hJ e he hd
      exact ⟨r, Or.inl hr, hre⟩
    · intro r hr
      rcases hr with hr | ⟨p, hp, _⟩
      · exact hK r hr
      · cases hp
  | cons p t ih =>
    intro st Q hk hinv hS hJ hK
    obtain ⟨s, idx⟩ := st
    simp only at hk hinv hJ hK
    subst hk
    have hp := hS p (List.mem_cons_self _ _)
    obtain ⟨hJ1, hK1⟩ := readd_step ho s idx hi p.1 p.2 hinv hp Q hJ hK
    have hinv1 := add_inv ho s idx hi p.1 p.2 hinv
    have hk1 := add_klass oc s idx p.1 p.2
    have := ih (Op.apply oc (s, idx) (Op.add p.1 p.2)) (fun r => Q r ∨ r = p.1) hk1 hinv1
      (fun q hq => hS q (List.mem_cons_of_mem _ hq)) hJ1 hK1
    simp only [List.map_cons, run_ops, List.foldl_cons]
    simp only [run_ops] at this
    constructor
    · intro e he hd
      obtain ⟨r, hr, hre⟩ := this.1 e he hd
      refine ⟨r, ?_, hre⟩
      rcases hr with (hr | hr) | ⟨q, hq, hqr⟩
      · exact Or.inl hr
      · exact Or.inr ⟨p, List.mem_cons_self _ _, hr.symm⟩
      · exact Or.inr ⟨q, List.mem_cons_of_mem _ hq, hqr⟩
    · intro r hr
      apply this.2 r
      rcases hr with hr | ⟨q, hq, hqr⟩
      · exact Or.inl (Or.inl hr)
      · rcases List.mem_cons.1 hq with h1 | h1
        · exact Or.inl (Or.inr (by rw [← hqr, h1]))
        · exact Or.inr ⟨q, h1, hqr⟩

/-- C16: dirty sweep.  On a well-formed instance, after
`nm_dedup_multi_index_dirty_set_idx`, the re-add of the partitionable records
of `S` (each re-add clears the dirty bit of its entry) and
`nm_dedup_multi_index_dirty_remove_idx (idx, FALSE)`, the instance holds
exactly the entries for `S`: every record of `S` is found by a lookup, in a
clean entry; every entry left is clean and holds the canonical copy of a
record of `S`; no head is empty, and a partition none of whose records is in
`S` has no head; with `S` empty no entry and no head is left. -/
theorem dirty_sweep_keeps_exactly_readded {α : Type} [DecidableEq α]
    {oc : NMDedupMultiObjClass α} (ho : ObjLaws oc) (self : NMDedupMultiIndex α)
    (idx_type : NMDedupMultiIdxType α) (hi : IdxLaws oc idx_type.klass)
    (hinv : IdxInv idx_type) (S : List (α × NMDedupMultiIdxMode))
    (hS : ∀ p ∈ S, obj_partitionable idx_type.klass p.1 = true) :
    (∀ p ∈ S, ∃ e,
      nm_dedup_multi_index_lookup_obj (dirty_sweep_cycle oc self idx_type S) p.1 = some e ∧
      e.dirty = false ∧
      nm_dedup_multi_idx_type_id_equal idx_type.klass e.obj p.1 = true) ∧
    (∀ e ∈ all_entries (dirty_sweep_cycle oc self idx_type S),
      e.dirty = false ∧ ∃ p ∈ S, oc.obj_full_equal p.1 e.obj = true) ∧
    (∀ r, (∀ p ∈ S, nm_dedup_multi_idx_type_partition_equal idx_type.klass p.1 r = false) →
      nm_dedup_multi_index_lookup_head (dirty_sweep_cycle oc self idx_type S) r = none) ∧
    HeadsNonempty (dirty_sweep_cycle oc self idx_type S) ∧
    (S = [] → (dirty_sweep_cycle oc self idx_type S).lst_idx_head = []) := by
  have hinv1 := dirty_set_idx_inv idx_type hinv
  obtain ⟨hk2, hinv2⟩ := run_ops_inv ho (S.map (fun p => Op.add p.1 p.2))
    (self, nm_dedup_multi_index_dirty_set_idx idx_type) hi hinv1
  have hk2a : (run_ops oc (self, nm_dedup_multi_index_dirty_set_idx idx_type)
      (S.map (fun p => Op.add p.1 p.2))).2.klass = idx_type.klass := hk2
  obtain ⟨hJ, hK⟩ := readd_all ho idx_type.klass hi S
    (self, nm_dedup_multi_index_dirty_set_idx idx_type) (fun _ => False) rfl hinv1 hS
    (by
      intro e he hd
      rw [dirty_set_idx_all_dirty idx_type e he] at hd
      cases hd)
    (by intro r hr; cases hr)
  have hinv3 : IdxInv (dirty_sweep_cycle oc self idx_type S) :=
    dirty_remove_idx_inv _ false hinv2
  have hk3 : (dirty_sweep_cycle oc self idx_type S).klass = idx_type.klass := hk2a
  have hi3 : IdxLaws oc (dirty_sweep_cycle oc self idx_type S).klass := by rw [hk3]; exact hi
  have hne : HeadsNonempty (dirty_sweep_cycle oc self idx_type S) :=
    dirty_remove_idx_nonempty _ false
  have hsweep : ∀ e, e ∈ all_entries (dirty_sweep_cycle oc self idx_type S) ↔
      (e ∈ all_entries (run_ops oc (self, nm_dedup_multi_index_dirty_set_idx idx_type)
        (S.map (fun p => Op.add p.1 p.2))).2 ∧ e.dirty = false) :=
    fun e => mem_all_entries_sweep _ e
  have hii : ∀ e ∈ all_entries (dirty_sweep_cycle oc self idx_type S),
      e.dirty = false ∧ ∃ p ∈ S, oc.obj_full_equal p.1 e.obj = true := by
    intro e he
    obtain ⟨h1, h2⟩ := (hsweep e).1 he
    refine ⟨h2, ?_⟩
    obtain ⟨r, hr, hre⟩ := hJ e h1 h2
    rcases hr with hr | ⟨p, hp, hpr⟩
    · cases hr
    · exact ⟨p, hp, by rw [hpr]; exact hre⟩
  refine ⟨?_, hii, ?_, hne, ?_⟩
  · intro p hp
    obtain ⟨e, he, hd, hid, hpe⟩ := hK p.1 (Or.inr ⟨p, hp, rfl⟩)
    have he3 := (hsweep e).2 ⟨he, hd⟩
    obtain ⟨g, hg, heg⟩ := (mem_all_entries _ e).1 he3
    have hgm : head_matches (dirty_sweep_cycle oc self idx_type S).klass p.1 g = true := by
      rw [hk3]
      unfold head_matches
      cases hl : g.lst_entries_head with
      | nil => rw [hl] at heg; cases heg
      | cons f t =>
        simp only
        have hfe := hinv3.2.1 g hg f (by rw [hl]; exact List.mem_cons_self _ _) e heg
        rw [hk3] at hfe
        exact hi.part_trans _ _ _ hfe hpe
    have hlh := lookup_head_of_mem _ hi3 p.1 hinv3 g hg hgm
    have hpw := hinv3.1 g hg
    have hmatch : entry_matches (dirty_sweep_cycle oc self idx_type S).klass p.1 e = true := by
      rw [hk3]; exact hid
    have hfind := (find_count_unique hi3 p.1 hpw heg hmatch).1
    refine ⟨e, ?_, hd, hid⟩
    unfold nm_dedup_multi_index_lookup_obj
    rw [hlh]
    exact hfind
  · intro r hr
    apply lookup_head_none
    intro g hg
    cases hgm : head_matches (dirty_sweep_cycle oc self idx_type S).klass r g with
    | false => rfl
    | true =>
      obtain ⟨f, t, hft, hf⟩ := head_matches_nonempty hgm
      rw [hk3] at hf
      have hfin : f ∈ all_entries (dirty_sweep_cycle oc self idx_type S) :=
        (mem_all_entries _ f).2 ⟨g, hg, by rw [hft]; exact List.mem_cons_self _ _⟩
      obtain ⟨_, p, hp, hpf⟩ := hii f hfin
      have := hi.part_trans _ _ _ (hi.full_part _ _ hpf) hf
      rw [hr p hp] at this
      cases this
  · intro hS0
    subst hS0
    cases hl : (dirty_sweep_cycle oc self idx_type []).lst_idx_head with
    | nil => rfl
    | cons g t =>
      have hg : g ∈ (dirty_sweep_cycle oc self idx_type []).lst_idx_head := by
        rw [hl]; exact List.mem_cons_self _ _
      have hgne := hne g hg
      cases hgl : g.lst_entries_head with
      | nil => exact absurd hgl hgne
      | cons f u =>
        have hfin : f ∈ all_entries (dirty_sweep_cycle oc self idx_type []) :=
          (mem_all_entries _ f).2 ⟨g, hg, by rw [hgl]; exact List.mem_cons_self _ _⟩
        obtain ⟨_, p, hp, _⟩ := hii f hfin
        cases hp

/-- Witness of C16: scenario 6 of §8.  After the adds of 1, 2, 3 the sweep
with the re-add of `{2, "b"}` leaves the even head with `{2, "b"}`; the odd
head is destroyed. -/
theorem dirty_sweep_keeps_exactly_readded_witness :
    (dirty_sweep_cycle rec_class
        ⟨[⟨3, 3, "c"⟩, ⟨2, 2, "b"⟩, ⟨1, 1, "a"⟩]⟩
        ⟨rec_idx_class,
          [⟨[⟨⟨1, 1, "a"⟩, false⟩, ⟨⟨3, 3, "c"⟩, false⟩], 2⟩, ⟨[⟨⟨2, 2, "b"⟩, false⟩], 1⟩], 2⟩
        [(⟨4, 2, "b"⟩, NM_DEDUP_MULTI_IDX_MODE_APPEND)]).lst_idx_head
      = [⟨[⟨⟨2, 2, "b"⟩, false⟩], 1⟩] ∧
    nm_dedup_multi_index_lookup_head
      (dirty_sweep_cycle rec_class
        ⟨[⟨3, 3, "c"⟩, ⟨2, 2, "b"⟩, ⟨1, 1, "a"⟩]⟩
        ⟨rec_idx_class,
          [⟨[⟨⟨1, 1, "a"⟩, false⟩, ⟨⟨3, 3, "c"⟩, false⟩], 2⟩, ⟨[⟨⟨2, 2, "b"⟩, false⟩], 1⟩], 2⟩
        [(⟨4, 2, "b"⟩, NM_DEDUP_MULTI_IDX_MODE_APPEND)]) ⟨9, 1, "z"⟩ = none :=
  ⟨by decide,
    (dirty_sweep_keeps_exactly_readded rec_obj_laws
      ⟨[⟨3, 3, "c"⟩, ⟨2, 2, "b"⟩, ⟨1, 1, "a"⟩]⟩
      ⟨rec_idx_class,
        [⟨[⟨⟨1, 1, "a"⟩, false⟩, ⟨⟨3, 3, "c"⟩, false⟩], 2⟩, ⟨[⟨⟨2, 2, "b"⟩, false⟩], 1⟩], 2⟩
      rec_idx_laws (by decide)
      [(⟨4, 2, "b"⟩, NM_DEDUP_MULTI_IDX_MODE_APPEND)] (by decide)).2.2.1 ⟨9, 1, "z"⟩
      (by decide)⟩

/-! ## Partition refinement, the snapshot helper -/

/-- C21: partition refinement.  After every sequence of public operations on a
fresh instance, any two member entries of one head are partition-equal (and
entries of different heads are not). -/
theorem partition_refined_after_ops {α : Type} [DecidableEq α] {oc : NMDedupMultiObjClass α}
    (ho : ObjLaws oc) (klass : NMDedupMultiIdxTypeClass α) (hi : IdxLaws oc klass)
    (self : NMDedupMultiIndex α) (ops : List (PublicOp α)) :
    (∀ h ∈ (run_public oc (self, nm_dedup_multi_idx_type_init klass) ops).2.lst_idx_head,
      ∀ e1 ∈ h.lst_entries_head, ∀ e2 ∈ h.lst_entries_head,
        nm_dedup_multi_idx_type_partition_equal klass e1.obj e2.obj = true) ∧
    (run_public oc (self, nm_dedup_multi_idx_type_init klass) ops).2.lst_idx_head.Pairwise
      (fun h1 h2 => ∀ e1 ∈ h1.lst_entries_head, ∀ e2 ∈ h2.lst_entries_head,
        nm_dedup_multi_idx_type_partition_equal klass e1.obj e2.obj = false) := by
  obtain ⟨hk, hinv⟩ := run_public_inv ho ops (self, nm_dedup_multi_idx_type_init klass) hi
    (init_inv klass)
  have hk1 : (run_public oc (self, nm_dedup_multi_idx_type_init klass) ops).2.klass = klass := hk
  have h1 := hinv.2.1
  have h2 := hinv.2.2
  unfold PartitionRefined at h1
  unfold HeadsDistinct at h2
  rw [hk1] at h1 h2
  exact ⟨h1, h2⟩

/-- Witness of C21: scenario 5 of §8, the records 1, 2, 3 appended under the
even/odd partitioning give the head of 1, 3 and the head of 2. -/
theorem partition_refined_after_ops_witness :
    (run_public rec_class
        (nm_dedup_multi_index_new, nm_dedup_multi_idx_type_init rec_idx_class)
        [PublicOp.op (Op.add ⟨1, 1, "a"⟩ NM_DEDUP_MULTI_IDX_MODE_APPEND),
         PublicOp.op (Op.add ⟨2, 2, "b"⟩ NM_DEDUP_MULTI_IDX_MODE_APPEND),
         PublicOp.op (Op.add ⟨3, 3, "c"⟩ NM_DEDUP_MULTI_IDX_MODE_APPEND)]).2.lst_idx_head
      = [⟨[⟨⟨1, 1, "a"⟩, false⟩, ⟨⟨3, 3, "c"⟩, false⟩], 2⟩, ⟨[⟨⟨2, 2, "b"⟩, false⟩], 1⟩] ∧
    ∀ h ∈ (run_public rec_class
        (nm_dedup_multi_index_new, nm_dedup_multi_idx_type_init rec_idx_class)
        [PublicOp.op (Op.add ⟨1, 1, "a"⟩ NM_DEDUP_MULTI_IDX_MODE_APPEND),
         PublicOp.op (Op.add ⟨2, 2, "b"⟩ NM_DEDUP_MULTI_IDX_MODE_APPEND),
         PublicOp.op (Op.add ⟨3, 3, "c"⟩ NM_DEDUP_MULTI_IDX_MODE_APPEND)]).2.lst_idx_head,
      ∀ e1 ∈ h.lst_entries_head, ∀ e2 ∈ h.lst_entries_head,
        nm_dedup_multi_idx_type_partition_equal rec_idx_class e1.obj e2.obj = true :=
  ⟨by decide,
    (partition_refined_after_ops rec_obj_laws rec_idx_class rec_idx_laws
      nm_dedup_multi_index_new
      [PublicOp.op (Op.add ⟨1, 1, "a"⟩ NM_DEDUP_MULTI_IDX_MODE_APPEND),
       PublicOp.op (Op.add ⟨2, 2, "b"⟩ NM_DEDUP_MULTI_IDX_MODE_APPEND),
       PublicOp.op (Op.add ⟨3, 3, "c"⟩ NM_DEDUP_MULTI_IDX_MODE_APPEND)]).1⟩

/-- C22: the snapshot helper.  For a head with the member records
`r1, ..., rn` and a predicate `p`, `nm_dedup_multi_objs_to_ptr_array_head`
returns the subsequence of `r1, ..., rn` on which `p` is true: it is a
subsequence in head order, `p` holds for all it has, and every record on
which `p` holds occurs in it as often as in the head. -/
theorem snapshot_is_filtered_subsequence {α : Type} [DecidableEq α]
    (head_entry : HeadEntry α) (predicate : α → Bool) :
    nm_dedup_multi_objs_to_ptr_array_head head_entry predicate
      = (head_entry.lst_entries_head.map (fun e => e.obj)).filter predicate ∧
    (nm_dedup_multi_objs_to_ptr_array_head head_entry predicate).Sublist
      (head_entry.lst_entries_head.map (fun e => e.obj)) ∧
    (∀ r ∈ nm_dedup_multi_objs_to_ptr_array_head head_entry predicate, predicate r = true) ∧
    (∀ r, predicate r = true →
      (nm_dedup_multi_objs_to_ptr_array_head head_entry predicate).count r
        = (head_entry.lst_entries_head.map (fun e => e.obj)).count r) := by
  unfold nm_dedup_multi_objs_to_ptr_array_head
  refine ⟨rfl, List.filter_sublist _, ?_, ?_⟩
  · intro r hr
    exact (List.mem_filter.1 hr).2
  · intro r hr
    rw [List.count_filter hr]

/-- Witness of C22: the snapshot of the odd head of the example with the
predicate `id > 1` (scenario 3 of §8) has the records 5 and 3, in head
order. -/
theorem snapshot_is_filtered_subsequence_witness :
    nm_dedup_multi_objs_to_ptr_array_head
        (⟨[⟨⟨3, 5, "c"⟩, false⟩, ⟨⟨1, 1, "a"⟩, false⟩, ⟨⟨2, 3, "b"⟩, false⟩], 3⟩ : HeadEntry Rec)
        (fun r => decide (1 < r.id))
      = [⟨3, 5, "c"⟩, ⟨2, 3, "b"⟩] ∧
    (nm_dedup_multi_objs_to_ptr_array_head
        (⟨[⟨⟨3, 5, "c"⟩, false⟩, ⟨⟨1, 1, "a"⟩, false⟩, ⟨⟨2, 3, "b"⟩, false⟩], 3⟩ : HeadEntry Rec)
        (fun r => decide (1 < r.id))).Sublist
      [⟨3, 5, "c"⟩, ⟨1, 1, "a"⟩, ⟨2, 3, "b"⟩] :=
  ⟨by decide,
    (snapshot_is_filtered_subsequence
      (⟨[⟨⟨3, 5, "c"⟩, false⟩, ⟨⟨1, 1, "a"⟩, false⟩, ⟨⟨2, 3, "b"⟩, false⟩], 3⟩ : HeadEntry Rec)
      (fun r => decide (1 < r.id))).2.1⟩

/-! ## Look-ahead, exhaustion and the accesses of the iterator -/

/-- Calls of next in a row add up. -/
theorem iter_next_nth_add (m : Mem) (iter : NMDedupMultiIter) (n : Nat) :
    ∀ j, 0 < j → iter_next_nth m (n + j) iter = iter_next_nth m j (iter_next_nth m n iter).2
  | 0, hj => by cases hj
  | 1, _ => rfl
  | j + 2, _ => by
    show nm_dedup_multi_iter_next m (iter_next_nth m (n + (j + 1)) iter).2 = _
    rw [iter_next_nth_add m iter n (j + 1) (Nat.succ_pos j)]
    rfl

/-- A head keeps its member list when cells other than the anchor and the
members change. -/
theorem IsHeadList.of_same_cells {m m1 : Mem} {h : Ptr} {l : List Ptr} (hl : IsHeadList m h l)
    (hm : ∀ r, r ∈ h :: l → m1 r = m r) : IsHeadList m1 h l := by
  obtain ⟨hh, hnull, hnd, hseg⟩ := hl
  refine ⟨hh, hnull, hnd, hseg.frame ?_ ?_⟩
  · intro r hr
    unfold Mem.lst
    rw [hm r hr]
  · intro r hr
    unfold Mem.lst
    rw [hm r (by
      rcases List.mem_append.1 hr with h1 | h1
      · exact List.mem_cons_of_mem _ h1
      · rw [List.mem_singleton.1 h1]; exact List.mem_cons_self _ _)]

/-- The removing loop on an exhausted iterator stops at once, whatever the
memory holds. -/
theorem iter_loop_remove_all_stop (junk : Ptr → Cell) (m : Mem) (h c : Ptr) (f : Nat) :
    iter_loop_remove_all junk (f + 1) m ⟨h, c, NULL⟩ = some ([], m) := by
  simp [iter_loop_remove_all, iter_next_stop]

/-- A head with a member is not empty. -/
theorem IsHeadList.not_empty {m : Mem} {h y : Ptr} {ys : List Ptr}
    (hl : IsHeadList m h (y :: ys)) : c_list_is_empty m h = false := by
  obtain ⟨hh, _, hnd, hseg⟩ := hl
  have hn : (m.lst h).next = y := hseg.1
  have hyh : y ≠ h := by
    intro hc
    exact (List.nodup_cons.1 hnd).1 (hc ▸ List.mem_cons_self _ _)
  unfold c_list_is_empty c_list_is_linked
  simp [hh, hn, hyh]

/-- The removing loop yields every member of the head. -/
theorem iter_loop_remove_all_eq (junk : Ptr → Cell) {h : Ptr} :
    ∀ (rest : List Ptr) (m : Mem) (c : Ptr) (fuel : Nat),
      IsHeadList m h rest → rest.length < fuel →
      ∃ m1, iter_loop_remove_all junk fuel m ⟨h, c, rest.headD NULL⟩ = some (rest, m1) := by
  intro rest
  induction rest with
  | nil =>
    intro m c fuel _ hf
    cases fuel with
    | zero => simp at hf
    | succ f => exact ⟨m, iter_loop_remove_all_stop junk m h c f⟩
  | cons x xs ih =>
    intro m c fuel hl hf
    cases fuel with
    | zero => simp at hf
    | succ f =>
      have hf1 : xs.length < f := by simpa using hf
      have hseg : IsSeg m x xs h := hl.2.2.2.2.2
      have hx : x ≠ NULL := fun hc => hl.2.1 (hc ▸ List.mem_cons_self _ _)
      have hh : h ∉ xs := fun hc =>
        (List.nodup_cons.1 hl.2.2.1).1 (List.mem_cons_of_mem _ hc)
      have hxh : x ≠ h := fun hc =>
        (List.nodup_cons.1 hl.2.2.1).1 (hc ▸ List.mem_cons_self _ _)
      have hxs : x ∉ xs := (List.nodup_cons.1 (List.nodup_cons.1 hl.2.2.1).2).1
      have hl0 : IsHeadList m h ([] ++ x :: xs) := hl
      have hl1 : IsHeadList (c_list_unlink m x) h xs := by simpa using hl0.unlink
      have hl2 : IsHeadList (Function.update (c_list_unlink m x) x (junk x)) h xs := by
        apply hl1.of_same_cells
        intro r hr
        have hrx : r ≠ x := by
          rcases List.mem_cons.1 hr with h1 | h1
          · rw [h1]; exact fun hc => hxh hc.symm
          · exact fun hc => hxs (hc ▸ h1)
        exact Function.update_noteq hrx _ _
      simp only [iter_loop_remove_all, List.headD_cons]
      rw [iter_next_step hseg hh hx]
      simp only
      cases xs with
      | nil =>
        cases f with
        | zero => simp at hf1
        | succ g =>
          simp only [List.headD_nil]
          rw [iter_loop_remove_all_stop]
          exact ⟨_, rfl⟩
      | cons y ys =>
        rw [hl2.not_empty]
        obtain ⟨m1, h1⟩ := ih _ x f hl2 hf1
        refine ⟨m1, ?_⟩
        simp only [Bool.false_eq_true, if_false]
        rw [h1]
        rfl

/-- C23: the look-ahead of `nm_dedup_multi_iter_next`.  The call returns TRUE
exactly when `iter.next` is not NULL; then `iter.current` is the former
`iter.next`, and `iter.next` is the successor that entry has in the memory of
the call, or NULL when that successor is the anchor of the head; with a
successor that is not NULL (a linked node), `iter.next` is NULL exactly when
the successor is the anchor.  `iter.head` is never changed.  On a head with
the members `l` the `k`-th call leaves `iter.next` NULL exactly at the last
member. -/
theorem iter_next_look_ahead (m : Mem) (iter : NMDedupMultiIter) :
    ((nm_dedup_multi_iter_next m iter).1 = true ↔ iter.next ≠ NULL) ∧
    ((nm_dedup_multi_iter_next m iter).1 = true →
      (nm_dedup_multi_iter_next m iter).2.current = iter.next ∧
      (nm_dedup_multi_iter_next m iter).2.next
        = (if (m.lst iter.next).next = iter.head then NULL else (m.lst iter.next).next) ∧
      ((m.lst iter.next).next ≠ NULL →
        ((nm_dedup_multi_iter_next m iter).2.next = NULL
          ↔ (m.lst iter.next).next = iter.head))) ∧
    (nm_dedup_multi_iter_next m iter).2.head = iter.head ∧
    (∀ (l : List Ptr), IsHeadList m iter.head l → ∀ k (hk : k < l.length),
      iter_next_nth m (k + 1) (nm_dedup_multi_iter_init m iter.head)
        = (true, ⟨iter.head, l.get ⟨k, hk⟩, (l.drop (k + 1)).headD NULL⟩) ∧
      ((l.drop (k + 1)).headD NULL = NULL ↔ k + 1 = l.length)) := by
  refine ⟨?_, ?_, iter_next_head m iter, ?_⟩
  · unfold nm_dedup_multi_iter_next
    by_cases hn : iter.next = NULL
    · simp [hn]
    · simp only [if_neg hn]
      split <;> simp [hn]
  · intro ht
    have hn : iter.next ≠ NULL := by
      intro hc
      unfold nm_dedup_multi_iter_next at ht
      simp [hc] at ht
    unfold nm_dedup_multi_iter_next
    simp only [if_neg hn]
    by_cases hs : (m.lst iter.next).next = iter.head
    · simp [hs]
    · simp only [if_neg hs, true_and]
      intro h0
      exact ⟨fun hc => absurd hc h0, fun hc => absurd hc hs⟩
  · intro l hl k hk
    refine ⟨iter_next_nth_eq hl k hk, ?_⟩
    constructor
    · intro h0
      by_contra hne
      have hlt : k + 1 < l.length := by omega
      rw [List.drop_eq_getElem_cons hlt] at h0
      simp only [List.headD_cons] at h0
      exact hl.2.1 (h0 ▸ List.getElem_mem hlt)
    · intro he
      rw [List.drop_eq_nil_of_le (by omega)]
      rfl

/-- Witness of C23: in the example memory the call on the iterator at entry 30
yields 30 and looks ahead to 40; the call after it yields 40, the last
member, and leaves `iter.next` NULL. -/
theorem iter_next_look_ahead_witness :
    nm_dedup_multi_iter_next mem_example ⟨10, 20, 30⟩ = (true, ⟨10, 30, 40⟩) ∧
    nm_dedup_multi_iter_next mem_example ⟨10, 30, 40⟩ = (true, ⟨10, 40, NULL⟩) ∧
    ((nm_dedup_multi_iter_next mem_example ⟨10, 30, 40⟩).2.next = NULL
      ↔ (mem_example.lst 40).next = 10) :=
  ⟨by decide, by decide,
    ((iter_next_look_ahead mem_example ⟨10, 30, 40⟩).2.1 (by decide)).2.2 (by decide)⟩

/-- C24: `nm_dedup_multi_idx_type_id_equal` and
`nm_dedup_multi_idx_type_partition_equal` return TRUE on the same object for
every class, whatever its callbacks answer: both are reflexive.  The id
wrapper is symmetric when the callback `idx_obj_id_equal` is and transitive
when the callback is; the partition wrapper is symmetric and transitive when
the callback `idx_obj_partition_equal`, if the class has one, is. -/
theorem equality_wrappers_reflexive_symmetric_transitive {α : Type} [DecidableEq α]
    (klass : NMDedupMultiIdxTypeClass α) :
    (∀ a, nm_dedup_multi_idx_type_id_equal klass a a = true) ∧
    (∀ a, nm_dedup_multi_idx_type_partition_equal klass a a = true) ∧
    ((∀ a b, klass.idx_obj_id_equal a b = true → klass.idx_obj_id_equal b a = true) →
      ∀ a b, nm_dedup_multi_idx_type_id_equal klass a b = true →
        nm_dedup_multi_idx_type_id_equal klass b a = true) ∧
    ((∀ a b c, klass.idx_obj_id_equal a b = true → klass.idx_obj_id_equal b c = true →
        klass.idx_obj_id_equal a c = true) →
      ∀ a b c, nm_dedup_multi_idx_type_id_equal klass a b = true →
        nm_dedup_multi_idx_type_id_equal klass b c = true →
        nm_dedup_multi_idx_type_id_equal klass a c = true) ∧
    ((∀ f, klass.idx_obj_partition_equal = some f →
        ∀ a b, f a b = true → f b a = true) →
      ∀ a b, nm_dedup_multi_idx_type_partition_equal klass a b = true →
        nm_dedup_multi_idx_type_partition_equal klass b a = true) ∧
    ((∀ f, klass.idx_obj_partition_equal = some f →
        ∀ a b c, f a b = true → f b c = true → f a c = true) →
      ∀ a b c, nm_dedup_multi_idx_type_partition_equal klass a b = true →
        nm_dedup_multi_idx_type_partition_equal klass b c = true →
        nm_dedup_multi_idx_type_partition_equal klass a c = true) := by
  refine ⟨id_equal_refl klass, partition_equal_refl klass, ?_, ?_, ?_, ?_⟩
  · intro hs a b hab
    unfold nm_dedup_multi_idx_type_id_equal at hab ⊢
    rcases Bool.or_eq_true_iff.1 hab with h | h
    · have hab1 : a = b := of_decide_eq_true h
      simp [hab1]
    · rw [hs a b h]
      simp
  · intro ht a b c hab hbc
    unfold nm_dedup_multi_idx_type_id_equal at hab hbc ⊢
    rcases Bool.or_eq_true_iff.1 hab with h | h
    · have hab1 : a = b := of_decide_eq_true h
      rw [hab1]
      exact hbc
    · rcases Bool.or_eq_true_iff.1 hbc with h1 | h1
      · have hbc1 : b = c := of_decide_eq_true h1
        rw [← hbc1, h]
        simp
      · rw [ht a b c h h1]
        simp
  · intro hs a b hab
    unfold nm_dedup_multi_idx_type_partition_equal at hab ⊢
    cases hf : klass.idx_obj_partition_equal with
    | none => rfl
    | some f =>
      rw [hf] at hab
      simp only at hab ⊢
      rcases Bool.or_eq_true_iff.1 hab with h | h
      · have hab1 : a = b := of_decide_eq_true h
        simp [hab1]
      · rw [hs f hf a b h]
        simp
  · intro ht a b c hab hbc
    unfold nm_dedup_multi_idx_type_partition_equal at hab hbc ⊢
    cases hf : klass.idx_obj_partition_equal with
    | none => rfl
    | some f =>
      rw [hf] at hab hbc
      simp only at hab hbc ⊢
      rcases Bool.or_eq_true_iff.1 hab with h | h
      · have hab1 : a = b := of_decide_eq_true h
        rw [hab1]
        exact hbc
      · rcases Bool.or_eq_true_iff.1 hbc with h1 | h1
        · have hbc1 : b = c := of_decide_eq_true h1
          rw [← hbc1, h]
          simp
        · rw [ht f hf a b c h h1]
          simp

/-- Witness of C24: with callbacks that answer FALSE for every pair (they are
symmetric), both wrappers still accept an object against itself, and the id
wrapper is symmetric. -/
theorem equality_wrappers_reflexive_symmetric_transitive_witness :
    nm_dedup_multi_idx_type_id_equal
      (⟨fun _ => 0, fun _ _ => false, none, none, some (fun _ _ => false)⟩ :
        NMDedupMultiIdxTypeClass Nat) 7 7 = true ∧
    nm_dedup_multi_idx_type_partition_equal
      (⟨fun _ => 0, fun _ _ => false, none, none, some (fun _ _ => false)⟩ :
        NMDedupMultiIdxTypeClass Nat) 7 7 = true ∧
    nm_dedup_multi_idx_type_partition_equal
      (⟨fun _ => 0, fun _ _ => false, none, none, some (fun _ _ => false)⟩ :
        NMDedupMultiIdxTypeClass Nat) 7 8 = false ∧
    (∀ a b : Nat, nm_dedup_multi_idx_type_id_equal
      (⟨fun _ => 0, fun _ _ => false, none, none, some (fun _ _ => false)⟩ :
        NMDedupMultiIdxTypeClass Nat) a b = true →
      nm_dedup_multi_idx_type_id_equal
      (⟨fun _ => 0, fun _ _ => false, none, none, some (fun _ _ => false)⟩ :
        NMDedupMultiIdxTypeClass Nat) b a = true) :=
  ⟨by decide, by decide, by decide,
    (equality_wrappers_reflexive_symmetric_transitive
      (⟨fun _ => 0, fun _ _ => false, none, none, some (fun _ _ => false)⟩ :
        NMDedupMultiIdxTypeClass Nat)).2.2.1 (fun _ _ h => by simp at h)⟩

/-- C25: exhaustion is sticky.  A call of `nm_dedup_multi_iter_next` that
returns FALSE leaves the iterator as it was, and so does every later call,
whatever the memory has become: they all return FALSE.  A call that returns
TRUE stores an entry that is not NULL in `iter.current`, and init stores
NULL: after exhaustion `iter.current` is the last yielded entry, NULL only
when there was none.  On a head with the members `l` every call after the
`n`-th returns FALSE with `iter.current` the last member, which is NULL
exactly when `l` is empty. -/
theorem iter_exhaustion_sticky (m : Mem) (iter : NMDedupMultiIter) :
    ((nm_dedup_multi_iter_next m iter).1 = false →
      (nm_dedup_multi_iter_next m iter).2 = iter ∧
      (∀ m1 : Mem, nm_dedup_multi_iter_next m1 iter = (false, iter)) ∧
      (∀ (m1 : Mem) k, 0 < k → iter_next_nth m1 k iter = (false, iter))) ∧
    ((nm_dedup_multi_iter_next m iter).1 = true →
      (nm_dedup_multi_iter_next m iter).2.current ≠ NULL) ∧
    (nm_dedup_multi_iter_init m iter.head).current = NULL ∧
    (∀ (l : List Ptr), IsHeadList m iter.head l → ∀ k, l.length < k →
      iter_next_nth m k (nm_dedup_multi_iter_init m iter.head)
        = (false, ⟨iter.head, l.getLastD NULL, NULL⟩) ∧
      (l.getLastD NULL = NULL ↔ l = [])) := by
  refine ⟨?_, ?_, rfl, ?_⟩
  · intro hf
    have hn : iter.next = NULL := by
      by_contra hc
      unfold nm_dedup_multi_iter_next at hf
      simp only [if_neg hc] at hf
      split at hf <;> simp at hf
    obtain ⟨h, c, n⟩ := iter
    simp only at hn
    subst hn
    exact ⟨by rw [iter_next_stop], fun m1 => iter_next_stop m1 h c,
      fun m1 k hk => iter_next_nth_stop m1 h c k hk⟩
  · intro ht
    by_cases hn : iter.next = NULL
    · unfold nm_dedup_multi_iter_next at ht
      simp [hn] at ht
    · unfold nm_dedup_multi_iter_next
      simp only [if_neg hn]
      split <;> exact hn
  · intro l hl k hk
    constructor
    · cases hlen : l.length with
      | zero =>
        have hnil : l = [] := List.length_eq_zero.1 hlen
        subst hnil
        rw [iter_init_eq hl]
        exact iter_next_nth_stop m iter.head NULL k (by omega)
      | succ n =>
        have hn : n < l.length := by omega
        obtain ⟨j, hj⟩ : ∃ j, k = (n + 1) + (j + 1) := ⟨k - (n + 1) - 1, by omega⟩
        rw [hj, iter_next_nth_add m _ (n + 1) (j + 1) (Nat.succ_pos j), iter_next_nth_eq hl n hn]
        have hd : l.drop (n + 1) = [] := List.drop_eq_nil_of_le (by omega)
        have hlast : l.get ⟨n, hn⟩ = l.getLastD NULL := by
          have hne : l ≠ [] := by
            intro hc
            rw [hc] at hlen
            simp at hlen
          rw [List.getLastD_eq_getLast?, List.getLast?_eq_getLast l hne,
            List.getLast_eq_getElem]
          simp [hlen]
        simp only [hd, List.headD_nil, hlast]
        exact iter_next_nth_stop m iter.head _ (j + 1) (Nat.succ_pos j)
    · constructor
      · intro h0
        by_contra hne
        have hmem : l.getLastD NULL ∈ l := by
          rw [List.getLastD_eq_getLast?, List.getLast?_eq_getLast l hne]
          exact List.getLast_mem hne
        exact hl.2.1 (h0 ▸ hmem)
      · intro he
        rw [he]
        rfl

/-- Witness of C25: in the example memory the iterator over the head at 10 is
exhausted after its three members; the fifth call still returns FALSE with
the last member, 40, as the current entry. -/
theorem iter_exhaustion_sticky_witness :
    IsHeadList mem_example 10 [20, 30, 40] ∧
    iter_next_nth mem_example 5 (nm_dedup_multi_iter_init mem_example 10)
      = (false, ⟨10, 40, NULL⟩) :=
  ⟨by decide,
    ((iter_exhaustion_sticky mem_example ⟨10, NULL, NULL⟩).2.2.2 [20, 30, 40] (by decide) 5
      (by decide)).1⟩

/-- C26: `nm_dedup_multi_iter_next` consults `iter.head` only when `iter.next`
is not NULL.  With `iter.next` NULL it returns FALSE for every head pointer
and every memory; with `iter.next` not NULL its outcome is fixed by the cell
of `iter.next` alone, not by the cell of the head.  So the loop whose body
removes every yielded entry, freeing the entry and, with its last member, the
head (freed cells hold arbitrary content), yields every member and stops
(with any fuel above `n`).  `nm_dedup_multi_iter_rewind` reads the head: with
a head that is not NULL its `iter.next` is what the anchor in the head cell
holds, and two memories that differ in the head cell alone give different
iterators. -/
theorem iter_next_no_head_access_after_exhaustion (m : Mem) (iter : NMDedupMultiIter) :
    (iter.next = NULL → ∀ (m1 : Mem) (head1 : Ptr),
      nm_dedup_multi_iter_next m1 { iter with head := head1 }
        = (false, { iter with head := head1 })) ∧
    (∀ m1 : Mem, m1 iter.next = m iter.next →
      nm_dedup_multi_iter_next m1 iter = nm_dedup_multi_iter_next m iter) ∧
    (∀ (l : List Ptr) (junk : Ptr → Cell), IsHeadList m iter.head l →
      ∀ fuel, l.length < fuel →
        ∃ m1, iter_loop_remove_all junk fuel m (nm_dedup_multi_iter_init m iter.head)
          = some (l, m1)) ∧
    (iter.head ≠ NULL →
      (nm_dedup_multi_iter_rewind m iter).next
        = (if (m.lst iter.head).next = iter.head then NULL else (m.lst iter.head).next) ∧
      ∃ m1 m2 : Mem, (∀ q, q ≠ iter.head → m1 q = m2 q) ∧
        nm_dedup_multi_iter_rewind m1 iter ≠ nm_dedup_multi_iter_rewind m2 iter) := by
  refine ⟨?_, ?_, ?_, ?_⟩
  · intro hn m1 head1
    obtain ⟨h, c, n⟩ := iter
    simp only at hn
    subst hn
    exact iter_next_stop m1 head1 c
  · intro m1 hm
    unfold nm_dedup_multi_iter_next Mem.lst
    simp only [hm]
  · intro l junk hl fuel hf
    rw [iter_init_eq hl]
    exact iter_loop_remove_all_eq junk l m NULL fuel hl hf
  · intro hh
    constructor
    · unfold nm_dedup_multi_iter_rewind nm_dedup_multi_iter_init c_list_is_empty
        c_list_is_linked
      by_cases hs : (m.lst iter.head).next = iter.head
      · simp [hs]
      · simp [hs, hh]
    · refine ⟨Function.update m iter.head
          (.head ⟨⟨iter.head + 1, iter.head + 1⟩, 0, true, 1, ⟨0, 0⟩⟩),
        Function.update m iter.head
          (.head ⟨⟨iter.head, iter.head⟩, 0, true, 0, ⟨0, 0⟩⟩), ?_, ?_⟩
      · intro q hq
        rw [Function.update_noteq hq, Function.update_noteq hq]
      · intro hc
        have h1 := congrArg NMDedupMultiIter.next hc
        unfold nm_dedup_multi_iter_rewind nm_dedup_multi_iter_init c_list_is_empty
          c_list_is_linked at h1
        simp [Mem.lst, Cell.lst, hh, NULL] at h1
        exact hh h1

/-- Witness of C26: the removing loop over the head at 10 of the example
memory, with freed cells overwritten by a head cell of zeros, yields the
three members. -/
theorem iter_next_no_head_access_after_exhaustion_witness :
    IsHeadList mem_example 10 [20, 30, 40] ∧
    ∃ m1, iter_loop_remove_all (fun _ => .head ⟨⟨0, 0⟩, 0, false, 0, ⟨0, 0⟩⟩) 4 mem_example
      (nm_dedup_multi_iter_init mem_example 10) = some ([20, 30, 40], m1) :=
  ⟨by decide,
    (iter_next_no_head_access_after_exhaustion mem_example ⟨10, NULL, NULL⟩).2.2.1
      [20, 30, 40] (fun _ => .head ⟨⟨0, 0⟩, 0, false, 0, ⟨0, 0⟩⟩) (by decide) 4 (by decide)⟩

end NMDedupMulti

namespace NMIfaceHelper

/-! ## The per-interface helper -/

/-- The cast to `guint32` keeps a value of the range of `guint32`. -/
theorem cast_guint32_of_range (p : Int) (h0 : 0 ≤ p) (h1 : p ≤ 4294967295) :
    (cast_guint32 p : Int) = p := by
  unfold cast_guint32
  omega

/-- The address loop is the body applied to each discovered address. -/
theorem ndisc_address_loop_eq_map (k : NDiscConsts) (system_support : Int) (ifa_flags : Nat) :
    ∀ l, ndisc_address_loop k system_support ifa_flags l
      = l.map (ndisc_address k system_support ifa_flags)
  | [] => rfl
  | d :: rest => by
    rw [ndisc_address_loop, ndisc_address_loop_eq_map k system_support ifa_flags rest]
    rfl

/-- C27: in `do_early_setup`, once the options are parsed, the route priority
of --priority4 with the parsed value `p` (-1 when absent) becomes `p`, as a
number, exactly when `0 ≤ p ≤ 2^32 - 1`, and keeps its former value, the
default, for every other `p`; likewise --priority6; neither priority depends
on the other option.  The defaults are `guint32` values. -/
theorem do_early_setup_priorities (opt_v4 opt_v6 : Option Int) (global_opt : GlobalOpt)
    (h4 : global_opt.priority_v4 < 2 ^ 32) (h6 : global_opt.priority_v6 < 2 ^ 32) :
    (do_early_setup (some (opt_v4, opt_v6)) global_opt).1 = true ∧
    (((do_early_setup (some (opt_v4, opt_v6)) global_opt).2.priority_v4 : Int) = opt_v4.getD (-1)
      ↔ 0 ≤ opt_v4.getD (-1) ∧ opt_v4.getD (-1) ≤ 2 ^ 32 - 1) ∧
    (¬ (0 ≤ opt_v4.getD (-1) ∧ opt_v4.getD (-1) ≤ 2 ^ 32 - 1) →
      (do_early_setup (some (opt_v4, opt_v6)) global_opt).2.priority_v4
        = global_opt.priority_v4) ∧
    (((do_early_setup (some (opt_v4, opt_v6)) global_opt).2.priority_v6 : Int) = opt_v6.getD (-1)
      ↔ 0 ≤ opt_v6.getD (-1) ∧ opt_v6.getD (-1) ≤ 2 ^ 32 - 1) ∧
    (¬ (0 ≤ opt_v6.getD (-1) ∧ opt_v6.getD (-1) ≤ 2 ^ 32 - 1) →
      (do_early_setup (some (opt_v4, opt_v6)) global_opt).2.priority_v6
        = global_opt.priority_v6) ∧
    (∀ other_v6 : Option Int,
      (do_early_setup (some (opt_v4, other_v6)) global_opt).2.priority_v4
        = (do_early_setup (some (opt_v4, opt_v6)) global_opt).2.priority_v4) ∧
    (∀ other_v4 : Option Int,
      (do_early_setup (some (other_v4, opt_v6)) global_opt).2.priority_v6
        = (do_early_setup (some (opt_v4, opt_v6)) global_opt).2.priority_v6) := by
  have e4 : ∀ o4 o6 : Option Int, (do_early_setup (some (o4, o6)) global_opt).2.priority_v4
      = if 0 ≤ o4.getD (-1) ∧ o4.getD (-1) ≤ 4294967295 then cast_guint32 (o4.getD (-1))
        else global_opt.priority_v4 := by
    intro o4 o6
    unfold do_early_setup G_MAXUINT32
    simp only [ge_iff_le]
    by_cases c4 : 0 ≤ o4.getD (-1) ∧ o4.getD (-1) ≤ 4294967295 <;>
      by_cases c6 : 0 ≤ o6.getD (-1) ∧ o6.getD (-1) ≤ 4294967295 <;>
      simp [c4, c6]
  have e6 : ∀ o4 o6 : Option Int, (do_early_setup (some (o4, o6)) global_opt).2.priority_v6
      = if 0 ≤ o6.getD (-1) ∧ o6.getD (-1) ≤ 4294967295 then cast_guint32 (o6.getD (-1))
        else global_opt.priority_v6 := by
    intro o4 o6
    unfold do_early_setup G_MAXUINT32
    simp only [ge_iff_le]
    by_cases c4 : 0 ≤ o4.getD (-1) ∧ o4.getD (-1) ≤ 4294967295 <;>
      by_cases c6 : 0 ≤ o6.getD (-1) ∧ o6.getD (-1) ≤ 4294967295 <;>
      simp [c4, c6]
  have hpow : (2 : Int) ^ 32 - 1 = 4294967295 := by norm_num
  have hpown : (2 : Nat) ^ 32 = 4294967296 := by norm_num
  rw [hpow]
  rw [hpown] at h4 h6
  refine ⟨rfl, ?_, ?_, ?_, ?_, ?_, ?_⟩
  · rw [e4]
    by_cases c4 : 0 ≤ opt_v4.getD (-1) ∧ opt_v4.getD (-1) ≤ 4294967295
    · rw [if_pos c4]
      exact ⟨fun _ => c4, fun _ => cast_guint32_of_range _ c4.1 c4.2⟩
    · rw [if_neg c4]
      constructor
      · intro he
        omega
      · intro hc
        exact absurd hc c4
  · intro c4
    rw [e4, if_neg c4]
  · rw [e6]
    by_cases c6 : 0 ≤ opt_v6.getD (-1) ∧ opt_v6.getD (-1) ≤ 4294967295
    · rw [if_pos c6]
      exact ⟨fun _ => c6, fun _ => cast_guint32_of_range _ c6.1 c6.2⟩
    · rw [if_neg c6]
      constructor
      · intro he
        omega
      · intro hc
        exact absurd hc c6
  · intro c6
    rw [e6, if_neg c6]
  · intro other
    rw [e4, e4]
  · intro other
    rw [e6, e6]

/-- Witness of C27: with the defaults 100 and 200, `--priority4 4294967295` is
taken over, and `--priority6 4294967296` leaves the default. -/
theorem do_early_setup_priorities_witness :
    do_early_setup (some (some 4294967295, some 4294967296)) (global_opt_init 100 200)
      = (true, ⟨4294967295, 200⟩) ∧
    (((do_early_setup (some (some 4294967295, some 4294967296))
        (global_opt_init 100 200)).2.priority_v6 : Int) = (some (4294967296 : Int)).getD (-1)
      ↔ 0 ≤ (some (4294967296 : Int)).getD (-1)
        ∧ (some (4294967296 : Int)).getD (-1) ≤ 2 ^ 32 - 1) :=
  ⟨by decide,
    (do_early_setup_priorities (some 4294967295) (some 4294967296) (global_opt_init 100 200)
      (by decide) (by decide)).2.2.2.1⟩

/-- C28: in `ndisc_config_changed`, when the address bit of `changed` is set,
exactly `addresses_n` addresses are handed to `nm_ip6_config_add_address`, in
discovery order; the `i`-th copies address, timestamp and lifetime of the
`i`-th discovered address, has as preferred time the minimum of the
discovered preferred time and lifetime (so at most the lifetime), has the
prefix length 64 when the kernel supports the extended flags and 128
otherwise, and has the source NDISC. -/
theorem ndisc_config_changed_addresses (k : NDiscConsts) (system_support tempaddr : Int)
    (rdata_addresses : List NMNDiscAddress) (changed : Nat)
    (hchanged : changed &&& k.NM_NDISC_CONFIG_ADDRESSES ≠ 0) :
    ∃ added, ndisc_config_changed k system_support tempaddr rdata_addresses changed = some added ∧
      added.length = rdata_addresses.length ∧
      ∀ i (h1 : i < added.length) (h2 : i < rdata_addresses.length),
        (added.get ⟨i, h1⟩).address = (rdata_addresses.get ⟨i, h2⟩).address ∧
        (added.get ⟨i, h1⟩).timestamp = (rdata_addresses.get ⟨i, h2⟩).timestamp ∧
        (added.get ⟨i, h1⟩).lifetime = (rdata_addresses.get ⟨i, h2⟩).lifetime ∧
        (added.get ⟨i, h1⟩).preferred
          = min (rdata_addresses.get ⟨i, h2⟩).preferred (rdata_addresses.get ⟨i, h2⟩).lifetime ∧
        (added.get ⟨i, h1⟩).preferred ≤ (added.get ⟨i, h1⟩).lifetime ∧
        (added.get ⟨i, h1⟩).plen = (if system_support ≠ 0 then 64 else 128) ∧
        (added.get ⟨i, h1⟩).addr_source = k.NM_IP_CONFIG_SOURCE_NDISC := by
  refine ⟨rdata_addresses.map
    (ndisc_address k system_support (ndisc_ifa_flags k system_support tempaddr)), ?_, ?_, ?_⟩
  · unfold ndisc_config_changed
    simp only [if_pos hchanged, ndisc_address_loop_eq_map]
  · simp
  · intro i h1 h2
    simp only [List.get_eq_getElem, List.getElem_map]
    generalize rdata_addresses[i] = d
    unfold ndisc_address
    by_cases hp : d.preferred > d.lifetime
    · simp only [hp, if_true]
      refine ⟨trivial, trivial, trivial, ?_, le_refl _, trivial, trivial⟩
      rw [Nat.min_def, if_neg (by omega)]
    · simp only [hp, if_false]
      refine ⟨trivial, trivial, trivial, ?_, Nat.le_of_not_lt hp, trivial, trivial⟩
      rw [Nat.min_def, if_pos (by omega)]

/-- Witness of C28: two discovered addresses on a kernel with the extended
flags; the preferred time 200 of the first is cut to its lifetime 100. -/
theorem ndisc_config_changed_addresses_witness :
    ndisc_config_changed ⟨512, 256, 2, 1, 4, 7⟩ 1 2 [⟨1, 10, 100, 200⟩, ⟨2, 10, 100, 50⟩] 4
      = some [⟨1, 64, 10, 100, 100, 7, 768⟩, ⟨2, 64, 10, 100, 50, 7, 768⟩] ∧
    ∃ added, ndisc_config_changed ⟨512, 256, 2, 1, 4, 7⟩ 1 2
        [⟨1, 10, 100, 200⟩, ⟨2, 10, 100, 50⟩] 4 = some added ∧ added.length = 2 :=
  ⟨by decide,
    (ndisc_config_changed_addresses ⟨512, 256, 2, 1, 4, 7⟩ 1 2
      [⟨1, 10, 100, 200⟩, ⟨2, 10, 100, 50⟩] 4 (by decide)).imp (fun _ h => ⟨h.1, h.2.1⟩)⟩

/-- C29: the parsing of --stable-id in `main`.  For a value whose first
character is a decimal digit `d` and whose second is a space, the stable
type is the number of `d`, from 0 to 9, and the stable id is the value from
index 2 on; for every other value, also an absent one, the stable type is
`NM_UTILS_STABLE_TYPE_UUID` and the stable id is the connection UUID. -/
theorem main_stable_id_strict (NM_UTILS_STABLE_TYPE_UUID : Int)
    (opt_stable_id uuid : Option (List Char)) :
    (∀ d rest, opt_stable_id = some (d :: ' ' :: rest) → '0' ≤ d → d ≤ '9' →
      main_stable_id NM_UTILS_STABLE_TYPE_UUID opt_stable_id uuid
        = ((Char.toNat d : Int) - 48, some rest) ∧
      0 ≤ (Char.toNat d : Int) - 48 ∧ (Char.toNat d : Int) - 48 ≤ 9) ∧
    ((¬ ∃ d rest, opt_stable_id = some (d :: ' ' :: rest) ∧ '0' ≤ d ∧ d ≤ '9') →
      main_stable_id NM_UTILS_STABLE_TYPE_UUID opt_stable_id uuid
        = (NM_UTILS_STABLE_TYPE_UUID, uuid)) := by
  constructor
  · intro d rest hs h0 h9
    subst hs
    refine ⟨?_, ?_, ?_⟩
    · unfold main_stable_id c_char_at
      simp only [List.getD_cons_zero, List.getD_cons_succ, ge_iff_le, h0, h9, and_self,
        if_true, List.drop_succ_cons, List.drop_zero]
      rfl
    · have h : (48 : Nat) ≤ Char.toNat d := h0
      omega
    · have h : Char.toNat d ≤ (57 : Nat) := h9
      omega
  · intro hno
    unfold main_stable_id
    cases opt_stable_id with
    | none => rfl
    | some s =>
      simp only
      rw [if_neg]
      rintro ⟨⟨h0, h9⟩, hsp⟩
      apply hno
      unfold c_char_at at h0 h9 hsp
      cases s with
      | nil =>
        have hbad : ¬ (Char.ofNat 0 ≥ '0') := by decide
        exact absurd h0 hbad
      | cons d t =>
        cases t with
        | nil =>
          have hbad : ¬ (Char.ofNat 0 = ' ') := by decide
          exact absurd hsp hbad
        | cons c rest =>
          simp only [List.getD_cons_zero, List.getD_cons_succ] at h0 h9 hsp
          subst hsp
          exact ⟨d, rest, rfl, h0, h9⟩

/-- Witness of C29: `--stable-id "5 eth"` gives the type 5 and the id `eth`; a
type of two digits, `"15 eth"`, falls back to the UUID. -/
theorem main_stable_id_strict_witness :
    main_stable_id 0 (some ['5', ' ', 'e', 't', 'h']) (some ['u', 'u'])
      = (5, some ['e', 't', 'h']) ∧
    main_stable_id 0 (some ['1', '5', ' ', 'e', 't', 'h']) (some ['u', 'u'])
      = (0, some ['u', 'u']) ∧
    main_stable_id 0 (some ['5', ' ', 'e', 't', 'h']) (some ['u', 'u'])
      = ((Char.toNat '5' : Int) - 48, some ['e', 't', 'h']) :=
  ⟨by decide, by decide,
    ((main_stable_id_strict 0 (some ['5', ' ', 'e', 't', 'h']) (some ['u', 'u'])).1
      '5' ['e', 't', 'h'] rfl (by decide) (by decide)).1⟩

end NMIfaceHelper

namespace KeyfilePlugin

/-! ## The keyfile settings plugin -/

/-- The pieces between the semicolons are the pieces of `List.splitOn`. -/
theorem split_semicolon_eq_splitOn : ∀ s : List Char, split_semicolon s = List.splitOn ';' s
  | [] => rfl
  | c :: cs => by
    have ih := split_semicolon_eq_splitOn cs
    have hne : List.splitOn ';' cs ≠ [] := List.splitOnP_ne_nil _ _
    unfold List.splitOn at ih hne ⊢
    rw [split_semicolon, ih, List.splitOnP_cons]
    by_cases hc : c = ';'
    · simp [hc]
    · have hb : (c == ';') = false := by simpa using hc
      rw [if_neg hc, hb]
      cases hsp : List.splitOnP (fun x => x == ';') cs with
      | nil => exact absurd hsp hne
      | cons w ws => simp [List.modifyHead]

/-- The result of `strncmp` is zero exactly when the two strings agree on their
first `n` characters. -/
theorem strncmp_eq_zero_iff : ∀ (s1 s2 : List Char) (n : Nat),
    strncmp s1 s2 n = 0 ↔ s1.take n = s2.take n
  | _, _, 0 => by simp [strncmp]
  | [], [], _ + 1 => by simp [strncmp]
  | [], _ :: _, _ + 1 => by simp [strncmp]
  | _ :: _, [], _ + 1 => by simp [strncmp]
  | a :: s1, b :: s2, n + 1 => by
    by_cases hab : a = b
    · simp [strncmp, hab, strncmp_eq_zero_iff s1 s2 n]
    · by_cases hlt : a < b
      · simp [strncmp, hab, hlt]
      · simp [strncmp, hab, hlt]

/-- A string starts with `lit` exactly when `strncmp` over the length of `lit`
gives zero. -/
theorem strncmp_prefix (s lit : List Char) :
    strncmp s lit lit.length = 0 ↔ lit.isPrefixOf s = true := by
  rw [strncmp_eq_zero_iff, List.take_length, List.isPrefixOf_iff_prefix, List.prefix_iff_eq_take]
  exact eq_comm

/-- The loop of `get_unmanaged_specs` appends the items that pass its checks. -/
theorem get_unmanaged_specs_loop_eq (hw ifv : List Char → Bool) :
    ∀ (udis specs : List (List Char)),
      get_unmanaged_specs_loop hw ifv udis specs
        = specs ++ udis.filter (is_unmanaged_spec hw ifv)
  | [], specs => by simp [get_unmanaged_specs_loop]
  | udi :: rest, specs => by
    have h4 : strncmp udi "mac:".toList 4 = 0 ↔ "mac:".toList.isPrefixOf udi = true :=
      strncmp_prefix udi "mac:".toList
    have h15 : strncmp udi "interface-name:".toList 15 = 0
        ↔ "interface-name:".toList.isPrefixOf udi = true :=
      strncmp_prefix udi "interface-name:".toList
    rw [get_unmanaged_specs_loop]
    by_cases c1 : strncmp udi "mac:".toList 4 = 0 ∧ hw (udi.drop 4) = true
    · rw [if_pos c1, get_unmanaged_specs_loop_eq hw ifv rest]
      have hok : is_unmanaged_spec hw ifv udi = true := by
        unfold is_unmanaged_spec
        rw [h4.1 c1.1, c1.2]
        rfl
      rw [List.filter_cons_of_pos hok]
      simp
    · rw [if_neg c1]
      by_cases c2 : strncmp udi "interface-name:".toList 15 = 0 ∧ ifv (udi.drop 15) = true
      · rw [if_pos c2, get_unmanaged_specs_loop_eq hw ifv rest]
        have hok : is_unmanaged_spec hw ifv udi = true := by
          unfold is_unmanaged_spec
          rw [h15.1 c2.1, c2.2]
          simp
        rw [List.filter_cons_of_pos hok]
        simp
      · rw [if_neg c2, get_unmanaged_specs_loop_eq hw ifv rest]
        have hno : ¬ is_unmanaged_spec hw ifv udi = true := by
          unfold is_unmanaged_spec
          intro hc
          rcases Bool.or_eq_true_iff.1 hc with h | h
          · rw [Bool.and_eq_true] at h
            exact c1 ⟨h4.2 h.1, h.2⟩
          · rw [Bool.and_eq_true] at h
            exact c2 ⟨h15.2 h.1, h.2⟩
        rw [List.filter_cons_of_neg hno]

/-- The empty item is not an unmanaged specification. -/
theorem is_unmanaged_spec_nil (hw ifv : List Char → Bool) :
    is_unmanaged_spec hw ifv [] = false := by
  unfold is_unmanaged_spec
  have h1 : "mac:".toList.isPrefixOf ([] : List Char) = false := by decide
  have h2 : "interface-name:".toList.isPrefixOf ([] : List Char) = false := by decide
  rw [h1, h2]
  rfl

/-- The items `g_strsplit` gives and the pieces of `List.splitOn` pass the
checks alike. -/
theorem g_strsplit_filter (hw ifv : List Char → Bool) (str : List Char) :
    (g_strsplit str).filter (is_unmanaged_spec hw ifv)
      = (List.splitOn ';' str).filter (is_unmanaged_spec hw ifv) := by
  unfold g_strsplit
  by_cases hs : str = []
  · subst hs
    have : List.splitOn ';' ([] : List Char) = [[]] := rfl
    rw [if_pos rfl, this, List.filter_cons_of_neg (by rw [is_unmanaged_spec_nil]; simp)]
  · rw [if_neg hs, split_semicolon_eq_splitOn]

/-- C30: `get_unmanaged_specs` returns, in their order, exactly those pieces
between the semicolons of the value of `unmanaged-devices` in the group
`keyfile` that are `mac:` followed by a valid hardware address or
`interface-name:` followed by a valid interface name; every other piece, the
empty one too, is dropped.  The result is empty without a configuration
file (no name, or no file of that name), with a file that cannot be parsed,
and with a file that lacks the key. -/
theorem get_unmanaged_specs_valid_items (nm_utils_hwaddr_valid nm_utils_iface_valid_name :
    List Char → Bool) (conf_file : Option String) (load : String → LoadOutcome) :
    (conf_file = none →
      get_unmanaged_specs nm_utils_hwaddr_valid nm_utils_iface_valid_name conf_file load = []) ∧
    (∀ file noent, conf_file = some file → load file = .error noent →
      get_unmanaged_specs nm_utils_hwaddr_valid nm_utils_iface_valid_name conf_file load = []) ∧
    (∀ file key_file, conf_file = some file → load file = .loaded key_file →
      key_file "keyfile" "unmanaged-devices" = none →
      get_unmanaged_specs nm_utils_hwaddr_valid nm_utils_iface_valid_name conf_file load = []) ∧
    (∀ file key_file str, conf_file = some file → load file = .loaded key_file →
      key_file "keyfile" "unmanaged-devices" = some str →
      get_unmanaged_specs nm_utils_hwaddr_valid nm_utils_iface_valid_name conf_file load
        = (List.splitOn ';' str).filter
            (is_unmanaged_spec nm_utils_hwaddr_valid nm_utils_iface_valid_name)) ∧
    (∀ item, is_unmanaged_spec nm_utils_hwaddr_valid nm_utils_iface_valid_name item = true ↔
      (∃ rest, item = "mac:".toList ++ rest ∧ nm_utils_hwaddr_valid rest = true) ∨
      (∃ rest, item = "interface-name:".toList ++ rest
        ∧ nm_utils_iface_valid_name rest = true)) := by
  refine ⟨?_, ?_, ?_, ?_, ?_⟩
  · intro hc
    rw [hc]
    rfl
  · intro file noent hc hl
    rw [hc]
    unfold get_unmanaged_specs parse_key_file_allow_none
    simp only [hl]
    cases noent <;> rfl
  · intro file key_file hc hl hk
    rw [hc]
    unfold get_unmanaged_specs parse_key_file_allow_none
    simp only [hl, hk]
  · intro file key_file str hc hl hk
    rw [hc]
    unfold get_unmanaged_specs parse_key_file_allow_none
    simp only [hl, hk]
    rw [get_unmanaged_specs_loop_eq, List.nil_append, g_strsplit_filter]
  · intro item
    unfold is_unmanaged_spec
    rw [Bool.or_eq_true_iff, Bool.and_eq_true, Bool.and_eq_true, List.isPrefixOf_iff_prefix,
      List.isPrefixOf_iff_prefix]
    constructor
    · rintro (⟨⟨rest, hr⟩, hv⟩ | ⟨⟨rest, hr⟩, hv⟩)
      · left
        refine ⟨rest, hr.symm, ?_⟩
        rw [← hr] at hv
        exact hv
      · right
        refine ⟨rest, hr.symm, ?_⟩
        rw [← hr] at hv
        exact hv
    · rintro (⟨rest, hr, hv⟩ | ⟨rest, hr, hv⟩)
      · left
        refine ⟨⟨rest, hr.symm⟩, ?_⟩
        rw [hr]
        exact hv
      · right
        refine ⟨⟨rest, hr.symm⟩, ?_⟩
        rw [hr]
        exact hv

/-- Witness of C30: of the six items of the value, the two that are well
formed are returned, in their order (here a hardware address is valid when
it has 17 characters and an interface name when it is not empty). -/
theorem get_unmanaged_specs_valid_items_witness :
    get_unmanaged_specs (fun s => s.length == 17) (fun s => !s.isEmpty) (some "nm.conf")
        (fun _ => .loaded (fun _ _ => some
          "mac:00:11:22:33:44:55;bogus;;interface-name:eth0;mac:zz;interface-name:".toList))
      = ["mac:00:11:22:33:44:55".toList, "interface-name:eth0".toList] ∧
    get_unmanaged_specs (fun s => s.length == 17) (fun s => !s.isEmpty) (some "nm.conf")
        (fun _ => .error true) = [] :=
  ⟨by
      rw [(get_unmanaged_specs_valid_items (fun s => s.length == 17) (fun s => !s.isEmpty)
        (some "nm.conf") (fun _ => .loaded (fun _ _ => some
          "mac:00:11:22:33:44:55;bogus;;interface-name:eth0;mac:zz;interface-name:".toList))).2.2.2.1
        "nm.conf" _ _ rfl rfl rfl]
      decide,
    (get_unmanaged_specs_valid_items (fun s => s.length == 17) (fun s => !s.isEmpty)
      (some "nm.conf") (fun _ => .error true)).2.1 "nm.conf" true rfl rfl⟩

end KeyfilePlugin
